import Mathlib

/-!
Verification of the gbifer taxonomy subsystem.

This file gives a shallow embedding of the taxonomy package (package
taxonomy, the immediate-linking variant), of the species records of the
gbif package, and of the request dispatch loop of the gbif package, and
proves or refutes the specification claims about them.

Modelling conventions:
- Go int64 values are modelled as Int; the int64 range check performed by
  strconv.ParseInt is modelled explicitly in goParseInt.
- Go maps are modelled as association lists with first-match lookup; map
  insertion overwrites the entry in place or appends a fresh one, map
  iteration uses the stored order (claims about map-iteration-order
  independence quantify over permutations of the stored order).
- Go string functions (strings.ToLower, strings.Fields, unicode.IsSpace,
  unicode.ToTitle) are modelled at the ASCII level by structural functions
  on the character list of a string, so that all definitions evaluate.
- Unbounded Go loops and recursions (the accepted-taxon walks, the remote
  chain walk, subtree deletion, the tree writer) are modelled with an
  explicit fuel parameter; a result of none means the code does not reach
  a result within the given fuel, and non-termination is expressed as
  returning none for every fuel.
- The tab-separated I/O layer (package tsv) escapes tab, newline and
  backslash on write and unescapes them on read, so a record written and
  re-read is returned verbatim; the taxonomy reader and writer are
  therefore modelled at the record level, a table being a list of rows of
  fields, with the field-count check of tsv.Reader made explicit.
- A nil-pointer dereference (a Go runtime panic) is modelled as a
  distinguished result constructor.
-/

namespace Gbifer

/-! ## ASCII string primitives (models of the Go strings and unicode helpers) -/

/-- Model of unicode.IsSpace restricted to the ASCII white space characters
recognised by Go: space, tab, newline, vertical tab, form feed, carriage
return. -/
def isSpaceChar (c : Char) : Bool :=
  c = ' ' || c = '\t' || c = '\n' || c = '\x0b' || c = '\x0c' || c = '\r'

/-- Model of unicode.ToLower at the ASCII level. -/
def lowerChar (c : Char) : Char :=
  if 65 ≤ c.toNat ∧ c.toNat ≤ 90 then Char.ofNat (c.toNat + 32) else c

/-- Model of unicode.ToTitle at the ASCII level (for letters this is the
upper-case mapping). -/
def upperChar (c : Char) : Char :=
  if 97 ≤ c.toNat ∧ c.toNat ≤ 122 then Char.ofNat (c.toNat - 32) else c

/-- Model of strings.ToLower. -/
def strLower (s : String) : String := String.mk (s.data.map lowerChar)

/-- Characters of a string with leading white space removed (one side of
strings.TrimSpace). -/
def dropSpace (cs : List Char) : List Char := cs.dropWhile isSpaceChar

/-- Model of strings.TrimSpace. -/
def strTrim (s : String) : String :=
  String.mk ((dropSpace (dropSpace s.data).reverse).reverse)

/-- Accumulator pass of strings.Fields: splits at white space, dropping
empty fields. The first argument is the reversed current field. -/
def fieldsAux : List Char → List Char → List (List Char)
  | w, [] => if w = [] then [] else [w.reverse]
  | w, c :: cs =>
    if isSpaceChar c then
      if w = [] then fieldsAux [] cs else w.reverse :: fieldsAux [] cs
    else fieldsAux (c :: w) cs

/-- Model of strings.Fields. -/
def strFields (s : String) : List String :=
  (fieldsAux [] s.data).map String.mk

/-- Model of strings.Join(strings.Fields(s), sep-space), the white space
normalisation applied by the taxonomy reader to author fields. -/
def fieldsJoin (s : String) : String :=
  String.intercalate " " (strFields s)

/-- Model of taxonomy.Canon: normalise white space, lower-case, then
title-case the first character. -/
def Canon (name : String) : String :=
  let n := fieldsJoin name
  if n = "" then ""
  else
    match (strLower n).data with
    | [] => ""
    | c :: rest => String.mk (upperChar c :: rest)

/-! ## Decimal integer formatting and parsing (strconv.FormatInt and
strconv.ParseInt in base 10 with 64-bit range) -/

/-- Decimal digit character for a value below ten. -/
def dchar (d : Nat) : Char := Char.ofNat (48 + d)

/-- Decimal digits of a natural number, least significant first, with a
structural fuel bound (the number itself bounds the digit count). -/
def natToRevDigitsAux : Nat → Nat → List Char
  | 0, _ => []
  | _ + 1, 0 => []
  | fuel + 1, n + 1 => dchar ((n + 1) % 10) :: natToRevDigitsAux fuel ((n + 1) / 10)

/-- Decimal digits of a positive natural number, least significant first. -/
def natToRevDigits (n : Nat) : List Char := natToRevDigitsAux n n

/-- Model of strconv.FormatInt(n, 10) for a natural number. -/
def goFormatNat (n : Nat) : String :=
  if n = 0 then "0" else String.mk (natToRevDigits n).reverse

/-- Model of strconv.FormatInt(i, 10). -/
def goFormatInt (i : Int) : String :=
  if i < 0 then "-" ++ goFormatNat i.natAbs else goFormatNat i.natAbs

/-- Value of a list of decimal digit characters, or none if the list is
empty or contains a non-digit. -/
def digitsToNat? (cs : List Char) : Option Nat :=
  if cs = [] then none
  else if cs.all Char.isDigit then
    some (cs.foldl (fun a c => a * 10 + (c.toNat - 48)) 0)
  else none

/-- Sign handling of strconv.ParseInt: strip an optional leading sign,
remembering whether it was a minus. -/
def signSplit (c : Char) (rest : List Char) : Bool × List Char :=
  if c = '-' then (true, rest)
  else if c = '+' then (false, rest)
  else (false, c :: rest)

/-- Digit handling of strconv.ParseInt: value of the digit run with the
sign applied and the 64-bit signed range check. -/
def finishParse (neg : Bool) (ds : List Char) : Option Int :=
  match digitsToNat? ds with
  | none => none
  | some n =>
    let v : Int := if neg then -(n : Int) else (n : Int)
    if v < -(2 ^ 63 : Int) ∨ (2 ^ 63 - 1 : Int) < v then none else some v

/-- Model of strconv.ParseInt(s, 10, 64): optional sign, decimal digits,
64-bit signed range check. -/
def goParseInt (s : String) : Option Int :=
  match s.data with
  | [] => none
  | c :: rest => finishParse (signSplit c rest).1 (signSplit c rest).2

/-- Decimal value of a digit-character list, least significant first. -/
def valR : List Char → Nat
  | [] => 0
  | c :: cs => (c.toNat - 48) + 10 * valR cs

/-! ## Ranks -/

/-- Model of taxonomy.Rank (a Go uint): Unranked = 0, Kingdom = 1, ...,
Species = 7. -/
abbrev Rank := Nat

def Unranked : Rank := 0
def Kingdom : Rank := 1
def Phylum : Rank := 2
def Class : Rank := 3
def Order : Rank := 4
def Family : Rank := 5
def Genus : Rank := 6
def SpeciesRank : Rank := 7

/-- The accepted rank names, indexed by rank value. -/
def ranks : List String :=
  ["unranked", "kingdom", "phylum", "class", "order", "family", "genus", "species"]

/-- Model of taxonomy.GetRank: index of the lower-cased name in the rank
list, or Unranked. -/
def GetRank (s : String) : Rank :=
  match ranks.findIdx? (fun r => r = strLower s) with
  | some i => i
  | none => Unranked

/-- Model of Rank.String: the rank name, or the Unranked name for values
outside the list. -/
def rankString (r : Rank) : String :=
  if h : r < ranks.length then ranks.get ⟨r, h⟩ else "unranked"

/-! ## Records -/

/-- Model of taxonomy.Taxon. Zero values follow the Go zero value of the
struct. -/
structure Taxon where
  Name : String := ""
  Author : String := ""
  ID : Int := 0
  Rank : Rank := 0
  Status : String := ""
  Parent : Int := 0
deriving Repr, DecidableEq

/-- Model of gbif.Species, restricted to the fields the taxonomy package
reads. -/
structure Species where
  Key : Int := 0
  NubKey : Int := 0
  AcceptedKey : Int := 0
  CanonicalName : String := ""
  ScientificName : String := ""
  BasionymKey : Int := 0
  Authorship : String := ""
  Rank : String := ""
  TaxonomicStatus : String := ""
  ParentKey : Int := 0
  Species : String := ""
deriving Repr, DecidableEq

/-! ## Association list maps -/

/-- Insert or overwrite a key in an association list (Go map assignment:
the entry of the key, unique in a map, is replaced in place, and a fresh
key is appended). -/
def setEntry {kt bt : Type} [BEq kt] : List (kt × bt) → kt → bt → List (kt × bt)
  | [], k, v => [(k, v)]
  | p :: m, k, v => if p.1 == k then (k, v) :: m else p :: setEntry m k v

/-- Delete a key from an association list (Go delete). -/
def removeEntry {kt bt : Type} [BEq kt] (m : List (kt × bt)) (k : kt) :
    List (kt × bt) :=
  m.filter (fun p => !(p.1 == k))

/-- Add a key to a key set (Go map-to-bool assignment). -/
def insertKey {kt : Type} [BEq kt] (l : List kt) (k : kt) : List kt :=
  if l.contains k then l else l ++ [k]

/-- Remove a key from a key set (Go delete on a map-to-bool). -/
def removeKey {kt : Type} [BEq kt] (l : List kt) (k : kt) : List kt :=
  l.filter (fun x => !(x == k))

/-! ## The taxonomy store -/

/-- Model of taxonomy.Taxonomy. Nodes are identified by their key in the
ids map; the children map of each node is kept in a single map keyed by
the owning node, a missing entry standing for that node's empty children
map; root is the key set of the root map and names the name index. -/
structure Taxonomy where
  ids : List (Int × Taxon) := []
  root : List Int := []
  children : List (Int × List Int) := []
  names : List (String × List Int) := []
deriving Repr, DecidableEq

/-- Model of taxonomy.NewTaxonomy. -/
def NewTaxonomy : Taxonomy := {}

/-- Children key set of a node (the node's children map). -/
def childrenOf (tx : Taxonomy) (k : Int) : List Int :=
  (tx.children.lookup k).getD []

/-- Register a child in a parent's children map. -/
def addChild (m : List (Int × List Int)) (p c : Int) : List (Int × List Int) :=
  setEntry m p (insertKey ((m.lookup p).getD []) c)

/-- Remove a child from a parent's children map. -/
def delChild (m : List (Int × List Int)) (p c : Int) : List (Int × List Int) :=
  match m.lookup p with
  | none => m
  | some l => setEntry m p (removeKey l c)

/-- Register an identifier under a name in the name index. -/
def addName (m : List (String × List Int)) (name : String) (id : Int) :
    List (String × List Int) :=
  setEntry m name (insertKey ((m.lookup name).getD []) id)

/-- Remove an identifier from a name's entry, deleting the entry when it
becomes empty (the clean-up done by Taxonomy.delTaxon). -/
def removeNameId (m : List (String × List Int)) (name : String) (id : Int) :
    List (String × List Int) :=
  let s := removeKey ((m.lookup name).getD []) id
  if s = [] then removeEntry m name else setEntry m name s

/-- The required header columns of the persisted table. -/
def headerCols : List String :=
  ["name", "author", "taxonKey", "rank", "status", "parent"]

/-! ## Reading a taxonomy table (taxonomy.Read) -/

/-- Result of reading a table: a store, an error return, or a Go runtime
panic (nil-pointer dereference). -/
inductive ReadResult where
  | ok (tx : Taxonomy)
  | err
  | panic
deriving Repr, DecidableEq

/-- The header field map of taxonomy.Read: each header name, lower-cased,
is assigned its column, later duplicates overwriting earlier ones. -/
def fieldsMap (header : List String) : List (String × Nat) :=
  (header.enum.map (fun p => (strLower p.2, p.1))).foldl
    (fun m p => setEntry m p.1 p.2) []

/-- Column of a (lower-cased) field name, defaulting to 0; taxonomy.Read
only uses columns it has checked to be present. -/
def colOf (f : List (String × Nat)) (name : String) : Nat :=
  (f.lookup name).getD 0

/-- Field of a row at a column; rows are length-checked before access. -/
def fieldAt (row : List String) (i : Nat) : String := row.getD i ""

/-- The taxon data the reader builds from a row. -/
def rowData (f : List (String × Nat)) (row : List String) (id parent : Int) :
    Taxon :=
  { Name := Canon (fieldAt row (colOf f "name"))
    Author := fieldsJoin (fieldAt row (colOf f "author"))
    ID := id
    Rank := GetRank (fieldAt row (colOf f "rank"))
    Status := strLower (strTrim (fieldAt row (colOf f "status")))
    Parent := parent }

/-- Insertion step of the reader: the node is stored and indexed, then
immediately linked under its parent when the parent field is non-zero —
dereferencing the parent node, a nil-pointer panic when it is absent (the
node itself is already stored, so a row that is its own parent links) —
and into the root set otherwise. -/
def readRowInsert (f : List (String × Nat)) (tx : Taxonomy) (row : List String)
    (id parent : Int) : ReadResult :=
  if parent ≠ 0 then
    if ((setEntry tx.ids id (rowData f row id parent)).lookup parent).isSome then
      .ok { ids := setEntry tx.ids id (rowData f row id parent)
            root := tx.root
            children := addChild tx.children parent id
            names := addName tx.names (rowData f row id parent).Name id }
    else .panic
  else
    .ok { ids := setEntry tx.ids id (rowData f row id parent)
          root := insertKey tx.root id
          children := tx.children
          names := addName tx.names (rowData f row id parent).Name id }

/-- Identifier step of the reader: skip known identifiers, then parse the
parent field, the empty string standing for no parent. -/
def readRowKnown (f : List (String × Nat)) (tx : Taxonomy) (row : List String)
    (id : Int) : ReadResult :=
  if (tx.ids.lookup id).isSome then .ok tx
  else
    match (if fieldAt row (colOf f "parent") = "" then some 0
           else goParseInt (fieldAt row (colOf f "parent"))) with
    | none => .err
    | some parent => readRowInsert f tx row id parent

/-- One row of the body of taxonomy.Read, mirroring the loop body: skip
empty canonical names, fail on a malformed identifier, and continue with
the identifier steps. -/
def readRow (f : List (String × Nat)) (tx : Taxonomy) (row : List String) :
    ReadResult :=
  if Canon (fieldAt row (colOf f "name")) = "" then .ok tx
  else
    match goParseInt (fieldAt row (colOf f "taxonkey")) with
    | none => .err
    | some id => readRowKnown f tx row id

/-- The body loop of taxonomy.Read over the data rows; a row whose field
count differs from the header's is an error (tsv.Reader's field count
check). -/
def readRows (n : Nat) (f : List (String × Nat)) (tx : Taxonomy) :
    List (List String) → ReadResult
  | [] => .ok tx
  | row :: rest =>
    if row.length ≠ n then .err
    else
      match readRow f tx row with
      | .ok tx' => readRows n f tx' rest
      | .err => .err
      | .panic => .panic

/-- Model of taxonomy.Read on a record-level table: the first record is
the header, which must contain every required column. -/
def read (tbl : List (List String)) : ReadResult :=
  match tbl with
  | [] => .err
  | header :: rows =>
    if headerCols.all (fun h => ((fieldsMap header).lookup (strLower h)).isSome) then
      readRows header.length (fieldsMap header) NewTaxonomy rows
    else .err

/-! ## Queries -/

/-- Model of Taxonomy.Taxon: point lookup, empty value when unknown. -/
def Taxonomy.Taxon (tx : Taxonomy) (id : Int) : Taxon :=
  match tx.ids.lookup id with
  | none => {}
  | some t => t

/-- Comparison used by slices.Sort on int64 slices. -/
def intLE (a b : Int) : Prop := a ≤ b

instance : DecidableRel intLE := fun a b => inferInstanceAs (Decidable (a ≤ b))

/-- Model of Taxonomy.ByName: canonicalise the query, look it up, return
the identifiers in ascending order. -/
def Taxonomy.ByName (tx : Taxonomy) (name : String) : List Int :=
  if Canon name = "" then []
  else if ((tx.names.lookup (Canon name)).getD []) = [] then []
  else ((tx.names.lookup (Canon name)).getD []).insertionSort intLE

/-- Model of Taxonomy.IDs: all identifiers in ascending order. -/
def Taxonomy.IDs (tx : Taxonomy) : List Int :=
  (tx.ids.map (fun p => p.2.ID)).insertionSort intLE

/-- Model of Taxonomy.AcceptedAndRanked with explicit fuel: the unbounded
parent walk stopping at a node that is accepted and ranked, or at a
missing identifier. A result of none means the walk has not finished
within the given fuel. -/
def AcceptedAndRankedF : Nat → Taxonomy → Int → Option Taxon
  | 0, _, _ => none
  | n + 1, tx, id =>
    match tx.ids.lookup id with
    | none => some {}
    | some t =>
      if t.Status = "accepted" ∧ t.Rank ≠ Unranked then some t
      else AcceptedAndRankedF n tx t.Parent

/-- The walk of Taxonomy.AcceptedAndRanked terminates on this store and
identifier. -/
def AcceptedAndRankedTerminates (tx : Taxonomy) (id : Int) : Prop :=
  ∃ n, (AcceptedAndRankedF n tx id).isSome

/-! ## AddSpecies -/

/-- The parent preference of the taxonomy package: accepted reference,
then parent reference, then basionym reference. -/
def resolveParentKey (sp : Species) : Int :=
  if sp.AcceptedKey ≠ 0 then sp.AcceptedKey
  else if sp.ParentKey ≠ 0 then sp.ParentKey
  else sp.BasionymKey

/-- The name AddSpecies stores: the canonical name, falling back to the
species epithet field. -/
def resolvedName (sp : Species) : String :=
  if sp.CanonicalName = "" then sp.Species else sp.CanonicalName

/-- The identifier AddSpecies stores: the nub key, falling back to the raw
key when the nub key is zero. -/
def resolvedID (sp : Species) : Int :=
  if sp.NubKey = 0 then sp.Key else sp.NubKey

/-- The taxon data AddSpecies builds from a record, given the parent
identifier it links to (zero for a root). -/
def mkData (sp : Species) (parent : Int) : Taxon :=
  { Name := resolvedName sp, Author := sp.Authorship, ID := resolvedID sp
    Rank := GetRank sp.Rank, Status := strLower sp.TaxonomicStatus
    Parent := parent }

/-- Model of Taxonomy.AddSpecies: no-op when the nub key is already
stored, when no name resolves, or when no non-zero identifier resolves;
otherwise the node is inserted, linked under the resolved parent when
that parent is stored and into the root set otherwise, and indexed by
name. A fresh node carries a fresh empty children map, so any previous
children entry of the inserted identifier is discarded. -/
def AddSpecies (tx : Taxonomy) (sp : Species) : Taxonomy :=
  if (tx.ids.lookup sp.NubKey).isSome then tx
  else if resolvedName sp = "" then tx
  else if resolvedID sp = 0 then tx
  else if (tx.ids.lookup (resolveParentKey sp)).isSome then
    { ids := setEntry tx.ids (resolvedID sp) (mkData sp (resolveParentKey sp))
      root := tx.root
      children := addChild (removeEntry tx.children (resolvedID sp))
        (resolveParentKey sp) (resolvedID sp)
      names := addName tx.names (resolvedName sp) (resolvedID sp) }
  else
    { ids := setEntry tx.ids (resolvedID sp) (mkData sp 0)
      root := insertKey tx.root (resolvedID sp)
      children := removeEntry tx.children (resolvedID sp)
      names := addName tx.names (resolvedName sp) (resolvedID sp) }

/-! ## Deletion -/

/-- Model of Taxonomy.delTaxon with fuel for the recursion over the
subtree: delete the children recursively, then drop the node's children
map, its name-index entry and its ids entry. The node data is reached
through the ids index; in the Go code the recursion carries the node
pointer, which always exists for reachable stores. -/
def delTaxonF : Nat → Taxonomy → Int → Option Taxonomy
  | 0, _, _ => none
  | n + 1, tx, id =>
    match tx.ids.lookup id with
    | none => some tx
    | some t => do
      let tx₁ ← (childrenOf tx id).foldlM (fun a c => delTaxonF n a c) tx
      some { tx₁ with
        children := removeEntry tx₁.children id
        names := removeNameId tx₁.names t.Name t.ID
        ids := removeEntry tx₁.ids t.ID }

/-- Model of Taxonomy.Del: no-op on an unknown identifier, otherwise
delete the subtree and unlink the node from its parent's children map, or
from the root set when the parent is not stored. -/
def Del (fuel : Nat) (tx : Taxonomy) (id : Int) : Option Taxonomy :=
  match tx.ids.lookup id with
  | none => some tx
  | some t => do
    let tx₁ ← delTaxonF fuel tx id
    match tx₁.ids.lookup t.Parent with
    | none => some { tx₁ with root := removeKey tx₁.root t.ID }
    | some _ => some { tx₁ with children := delChild tx₁.children t.Parent t.ID }

/-! ## The remote walk (AddFromGBIF, AddNameFromGBIF) -/

/-- The remote service, as a deterministic oracle: gbif.SpeciesID keyed by
identifier and gbif.TaxonName keyed by name; none is a transport or decode
failure. -/
structure GEnv where
  speciesID : Int → Option Species
  taxonName : String → Option (List Species)

/-- Errors of the resolution operations: a remote failure, or the
ErrAmbiguous value with the searched name and the candidate identifiers. -/
inductive AddErr where
  | remote
  | ambiguous (name : String) (ids : List Int)
deriving Repr, DecidableEq

/-- Continuation of one step of the chain walk: prepend the fetched
record in front of whatever the rest of the walk collected (the Go code
conses to the front of the slice; most-ancestral records end first). -/
def gatherCont (rec : Option (Except Unit (List Species))) (sp : Species) :
    Option (Except Unit (List Species)) :=
  match rec with
  | none => none
  | some (.error e) => some (.error e)
  | some (.ok ls) => some (.ok (ls ++ [sp]))

/-- The chain walk of Taxonomy.AddFromGBIF, with fuel: starting from an
identifier, stop at identifier zero or at an identifier already stored;
otherwise fetch the record, stop after collecting it when it is accepted,
ranked and within the ceiling, and otherwise continue at its preferred
parent reference. Records are collected most-ancestral first. -/
def gather (env : GEnv) : Nat → Taxonomy → Int → Rank →
    Option (Except Unit (List Species))
  | 0, _, _, _ => none
  | n + 1, tx, id, maxRank =>
    if id = 0 then some (.ok [])
    else if (tx.ids.lookup id).isSome then some (.ok [])
    else
      match env.speciesID id with
      | none => some (.error ())
      | some sp =>
        if strLower sp.TaxonomicStatus = "accepted" ∧ GetRank sp.Rank ≠ Unranked ∧
            GetRank sp.Rank ≤ maxRank then
          some (.ok [sp])
        else gatherCont (gather env n tx (resolveParentKey sp) maxRank) sp

/-- Model of Taxonomy.AddFromGBIF: walk the chain, then insert every
collected record through AddSpecies; on a remote failure nothing has been
inserted. The store is returned together with the optional error. -/
def AddFromGBIF (fuel : Nat) (env : GEnv) (tx : Taxonomy) (id : Int)
    (maxRank : Rank) : Option (Taxonomy × Option AddErr) :=
  match gather env fuel tx id maxRank with
  | none => none
  | some (.error _) => some (tx, some .remote)
  | some (.ok ls) => some (ls.foldl AddSpecies tx, none)

/-- The scan of AddNameFromGBIF over multiple candidates: the single
record whose taxonomic status is exactly accepted (upper case), or none
when no candidate or more than one qualifies. -/
def uniqueAccepted (acc : Option Species) : List Species → Option Species
  | [] => acc
  | sp :: rest =>
    if sp.TaxonomicStatus = "ACCEPTED" then
      match acc with
      | some _ => none
      | none => uniqueAccepted (some sp) rest
    else uniqueAccepted acc rest

/-- The tail of AddNameFromGBIF once a single candidate is selected:
insert it directly when accepted, ranked and within the ceiling, and
otherwise resolve its preferred parent reference first. -/
def addSelected (fuel : Nat) (env : GEnv) (tx : Taxonomy) (sp : Species)
    (maxRank : Rank) : Option (Taxonomy × Option AddErr) :=
  let status := strLower sp.TaxonomicStatus
  let r := GetRank sp.Rank
  if status = "accepted" ∧ r ≠ Unranked ∧ r ≤ maxRank then
    some (AddSpecies tx sp, none)
  else
    match AddFromGBIF fuel env tx (resolveParentKey sp) maxRank with
    | none => none
    | some (_, some e) => some (tx, some e)
    | some (tx', none) => some (AddSpecies tx' sp, none)

/-- Candidate handling of AddNameFromGBIF: no candidate is a no-op, a
single candidate is fed to the accept-or-advance logic, several
candidates either yield the unique accepted one or fail with the
ErrAmbiguous value carrying every candidate's nub key, committing
nothing. -/
def addNameList (fuel : Nat) (env : GEnv) (tx : Taxonomy) (name : String)
    (maxRank : Rank) : List Species → Option (Taxonomy × Option AddErr)
  | [] => some (tx, none)
  | sp₀ :: rest =>
    if rest.length + 1 > 1 then
      match uniqueAccepted none (sp₀ :: rest) with
      | none =>
        some (tx, some (.ambiguous name ((sp₀ :: rest).map (fun s => s.NubKey))))
      | some sp => addSelected fuel env tx sp maxRank
    else addSelected fuel env tx sp₀ maxRank

/-- Model of Taxonomy.AddNameFromGBIF: canonicalise the name, search it,
and handle the candidate list. -/
def AddNameFromGBIF (fuel : Nat) (env : GEnv) (tx : Taxonomy) (name : String)
    (maxRank : Rank) : Option (Taxonomy × Option AddErr) :=
  if Canon name = "" then some (tx, none)
  else
    match env.taxonName (Canon name) with
    | none => some (tx, some .remote)
    | some ls => addNameList fuel env tx (Canon name) maxRank ls

/-! ## Writing a taxonomy table (Taxonomy.Write) -/

/-- Model of cmp.Compare on integers. -/
def cmpInt (a b : Int) : Int := if a < b then -1 else if a = b then 0 else 1

/-- Model of cmp.Compare on natural numbers (the Rank comparison). -/
def cmpNat (a b : Nat) : Int := if a < b then -1 else if a = b then 0 else 1

/-- Byte comparison of two characters. -/
def cmpChar (a b : Char) : Int := cmpNat a.toNat b.toNat

/-- Lexicographic comparison of character lists, the model of
cmp.Compare on strings. -/
def cmpCharList : List Char → List Char → Int
  | [], [] => 0
  | [], _ :: _ => -1
  | _ :: _, [] => 1
  | a :: as, b :: bs => if cmpChar a b ≠ 0 then cmpChar a b else cmpCharList as bs

/-- Model of cmp.Compare on strings. -/
def cmpStr (a b : String) : Int := cmpCharList a.data b.data

/-- The sibling comparator of Taxonomy.Write and taxon.write: rank with
Unranked first, then accepted status first when the statuses differ, then
name, then identifier. -/
def writeCmp (a b : Taxon) : Int :=
  if a.Rank ≠ b.Rank then
    if a.Rank = Unranked then -1
    else if b.Rank = Unranked then 1
    else cmpNat a.Rank b.Rank
  else if a.Status ≠ b.Status ∧ a.Status = "accepted" then -1
  else if a.Status ≠ b.Status ∧ b.Status = "accepted" then 1
  else if cmpStr a.Name b.Name ≠ 0 then cmpStr a.Name b.Name
  else cmpInt a.ID b.ID

/-- The comparator as an order relation for sorting. -/
def writeLE (a b : Int × Taxon) : Prop := writeCmp a.2 b.2 ≤ 0

instance : DecidableRel writeLE :=
  fun a b => inferInstanceAs (Decidable (writeCmp a.2 b.2 ≤ 0))

/-- The row taxon.write emits for a node: name, author, identifier, rank
name, status, and the parent identifier or the empty string for a root. -/
def emitRow (t : Taxon) : List String :=
  [t.Name, t.Author, goFormatInt t.ID, rankString t.Rank, t.Status,
    if t.Parent ≠ 0 then goFormatInt t.Parent else ""]

/-- The identifiers of a node list paired with their data, in the stored
order; entries missing from the ids index are skipped (in the Go code the
children maps hold the nodes directly). -/
def nodePairs (tx : Taxonomy) (l : List Int) : List (Int × Taxon) :=
  l.filterMap (fun k => (tx.ids.lookup k).map (fun t => (k, t)))

/-- Sequencing of the row emission over a node list: append the rows of
every subtree in order, stopping when one runs out of fuel. -/
def writeFold (g : Int → Option (List (List String)))
    (xs : List (Int × Taxon)) : Option (List (List String)) :=
  xs.foldlM (fun acc p => (g p.1).map (fun r => acc ++ r)) []

/-- Model of taxon.write with fuel: emit the node's row, then the rows of
its children sorted by the sibling comparator. -/
def writeTaxonF (tx : Taxonomy) : Nat → Int → Option (List (List String))
  | 0, _ => none
  | n + 1, id =>
    match tx.ids.lookup id with
    | none => some []
    | some t =>
      (writeFold (writeTaxonF tx n)
        ((nodePairs tx (childrenOf tx id)).insertionSort writeLE)).map
        (fun rest => emitRow t :: rest)

/-- Model of Taxonomy.Write with fuel: the header row, then the subtrees
of the root nodes sorted by the sibling comparator. -/
def write (fuel : Nat) (tx : Taxonomy) : Option (List (List String)) :=
  (writeFold (writeTaxonF tx fuel)
    ((nodePairs tx tx.root).insertionSort writeLE)).map
    (fun rows => headerCols :: rows)

/-! ## The request dispatch loop (reqChanType.reqs of package gbif) -/

/-- The fixed pacing interval of the gbif package, in milliseconds. -/
def Wait : Nat := 300

/-- Outcome of one physical http.Get. -/
inductive Outcome where
  | fail
  | success
deriving Repr, DecidableEq

/-- Events of the dispatch worker. -/
inductive ReqEvent where
  | get (url : String)
  | sendErr
  | sendAns
  | sleep (ms : Nat)
deriving Repr, DecidableEq

/-- Model of reqChanType.reqs: the worker drains the queue; on a failed
request it sends the error and continues with the next request at once,
and on a successful request it sends the answer and then sleeps the Wait
interval. -/
def reqs : List (String × Outcome) → List ReqEvent
  | [] => []
  | (u, .fail) :: rest => .get u :: .sendErr :: reqs rest
  | (u, .success) :: rest => .get u :: .sendAns :: .sleep Wait :: reqs rest

/-! ## Concrete instances used by counterexamples and witnesses -/

/-- A table whose single data row is its own parent: a cyclic store state
accepted by Read. -/
def cycTbl : List (List String) :=
  [headerCols, ["X", "", "5", "", "synonym", "5"]]

/-- The store Read produces for cycTbl: node 5 is a synonym whose parent
chain loops on itself. -/
def cycTx : Taxonomy :=
  { ids := [(5, { Name := "X", ID := 5, Status := "synonym", Parent := 5 })]
    root := []
    children := [(5, [5])]
    names := [("X", [5])] }

/-- A well-formed demonstration table: an accepted genus with an accepted
species below it. -/
def demoTbl : List (List String) :=
  [headerCols,
   ["A", "", "5", "genus", "accepted", ""],
   ["B", "", "7", "species", "accepted", "5"]]

/-- The store Read produces for demoTbl. -/
def demoTx : Taxonomy :=
  { ids := [(5, { Name := "A", ID := 5, Rank := 6, Status := "accepted", Parent := 0 }),
            (7, { Name := "B", ID := 7, Rank := 7, Status := "accepted", Parent := 5 })]
    root := [5]
    children := [(5, [7])]
    names := [("A", [5]), ("B", [7])] }

/-- A species record whose canonical name is not in canonical form (all
lower case). -/
def spLower : Species := { NubKey := 1, CanonicalName := "abc" }

/-- A table whose single data row has the zero identifier. -/
def zeroTbl : List (List String) :=
  [headerCols, ["Root zero", "", "0", "kingdom", "accepted", ""]]

/-- The store Read produces for zeroTbl. -/
def zeroTx : Taxonomy :=
  { ids := [(0, { Name := "Root zero", ID := 0, Rank := 1, Status := "accepted", Parent := 0 })]
    root := [0]
    children := []
    names := [("Root zero", [0])] }

/-- A table whose second row is a child of a row that appears only later;
every identifier and parent field parses as an integer. -/
def childFirstTbl : List (List String) :=
  [headerCols,
   ["B", "", "7", "", "", "5"],
   ["A", "", "5", "", "", "0"]]

/-- Sufficient condition for Read not to dereference a missing parent:
replay of the reader's control flow that only tracks the inserted
identifiers, requiring each linked row's non-zero parent to be already
inserted (or the row itself); rows on which the reader stops with an
error are accepted, as no dereference happens. -/
def linkedOK (n : Nat) (f : List (String × Nat)) :
    List Int → List (List String) → Bool
  | _, [] => true
  | seen, row :: rest =>
    if row.length ≠ n then true
    else if Canon (fieldAt row (colOf f "name")) = "" then linkedOK n f seen rest
    else
      match goParseInt (fieldAt row (colOf f "taxonkey")) with
      | none => true
      | some id =>
        if seen.contains id then linkedOK n f seen rest
        else
          match (if fieldAt row (colOf f "parent") = "" then some 0
                 else goParseInt (fieldAt row (colOf f "parent"))) with
          | none => true
          | some parent =>
            (decide (parent = 0) || (id :: seen).contains parent) &&
              linkedOK n f (id :: seen) rest

/-- The linkedOK condition at the level of a whole table. -/
def tableLinkedOK : List (List String) → Bool
  | [] => true
  | header :: rows =>
    if headerCols.all (fun h => ((fieldsMap header).lookup (strLower h)).isSome) then
      linkedOK header.length (fieldsMap header) [] rows
    else true

/-- The taxon stored for row A of demoTbl. -/
def demoA : Taxon := { Name := "A", ID := 5, Rank := 6, Status := "accepted", Parent := 0 }

/-- Status component of the sibling ordering: accepted sorts first. -/
def statusKey (s : String) : Nat := if s = "accepted" then 0 else 1

/-- The sort key of the sibling ordering: rank, accepted-first status,
name, identifier. -/
def sortKey (t : Taxon) : Nat × Nat × String × Int :=
  (t.Rank, statusKey t.Status, t.Name, t.ID)

/-- Lexicographic comparison of sort keys. -/
def cmpLex4 (p q : Nat × Nat × String × Int) : Int :=
  if cmpNat p.1 q.1 ≠ 0 then cmpNat p.1 q.1
  else if cmpNat p.2.1 q.2.1 ≠ 0 then cmpNat p.2.1 q.2.1
  else if cmpStr p.2.2.1 q.2.2.1 ≠ 0 then cmpStr p.2.2.1 q.2.2.1
  else cmpInt p.2.2.2 q.2.2.2

/-- An accepted candidate record for the ambiguity scenario. -/
def spAcc1 : Species := { NubKey := 11, CanonicalName := "Abc", TaxonomicStatus := "ACCEPTED" }

/-- A second accepted candidate record with the same name. -/
def spAcc2 : Species := { NubKey := 12, CanonicalName := "Abc", TaxonomicStatus := "ACCEPTED" }

/-- A remote environment whose name search returns two accepted
candidates for the name Abc. -/
def ambEnv : GEnv :=
  { speciesID := fun _ => none
    taxonName := fun n => if n = "Abc" then some [spAcc1, spAcc2] else none }

/-- Pacing discipline of an event trace: every answer is immediately
followed by a sleep of the Wait interval, and no error is followed by a
sleep. -/
def paceOK : List ReqEvent → Bool
  | [] => true
  | .sendAns :: .sleep ms :: r => (ms == Wait) && paceOK r
  | .sendAns :: _ => false
  | .sendErr :: .sleep _ :: _ => false
  | .sendErr :: r => paceOK r
  | _ :: r => paceOK r

/-- The store operations of the C8 invariant claim, after the initial
Read: each carries the fuel and remote environment its model needs. -/
inductive Op where
  | addSpecies (sp : Species)
  | addFromGBIF (fuel : Nat) (env : GEnv) (id : Int) (maxRank : Rank)
  | addNameFromGBIF (fuel : Nat) (env : GEnv) (name : String) (maxRank : Rank)
  | del (fuel : Nat) (id : Int)

/-- One operation applied to a store; the remote operations keep the
store they return and drop the error, Del is fueled. -/
def applyOp (tx : Taxonomy) : Op → Option Taxonomy
  | .addSpecies sp => some (AddSpecies tx sp)
  | .addFromGBIF fuel env id maxRank =>
    (AddFromGBIF fuel env tx id maxRank).map Prod.fst
  | .addNameFromGBIF fuel env name maxRank =>
    (AddNameFromGBIF fuel env tx name maxRank).map Prod.fst
  | .del fuel id => Del fuel tx id

/-- A sequence of operations applied left to right. -/
def runOps (tx : Taxonomy) : List Op → Option Taxonomy
  | [] => some tx
  | op :: ops =>
    match applyOp tx op with
    | none => none
    | some tx2 => runOps tx2 ops

/-- A remote environment all whose records carry a non-zero nub key. -/
def envNubOK (env : GEnv) : Prop :=
  (∀ i sp, env.speciesID i = some sp → sp.NubKey ≠ 0) ∧
  (∀ n ls, env.taxonName n = some ls → ∀ sp ∈ ls, sp.NubKey ≠ 0)

/-- The record restriction under which the edge invariant is preserved:
every record reaching AddSpecies carries a non-zero nub key. -/
def OpOK : Op → Prop
  | .addSpecies sp => sp.NubKey ≠ 0
  | .addFromGBIF _ env _ _ => ∀ i sp, env.speciesID i = some sp → sp.NubKey ≠ 0
  | .addNameFromGBIF _ env _ _ => envNubOK env
  | .del _ _ => True

/-- The store consistency invariant: stored data carries its own key, a
stored node whose non-zero parent is stored sits in that parent's
children set, every children-set member is a stored node naming that
parent, the non-zero parent of a stored node is stored, and children
entries belong to stored nodes. -/
structure Inv (tx : Taxonomy) : Prop where
  keymatch : ∀ k t, tx.ids.lookup k = some t → t.ID = k
  edge : ∀ c t, tx.ids.lookup c = some t → t.Parent ≠ 0 →
    (tx.ids.lookup t.Parent).isSome = true → c ∈ childrenOf tx t.Parent
  sound : ∀ p c, c ∈ childrenOf tx p →
    ∃ t, tx.ids.lookup c = some t ∧ t.Parent = p
  parentPresent : ∀ c t, tx.ids.lookup c = some t → t.Parent ≠ 0 →
    (tx.ids.lookup t.Parent).isSome = true
  chKeys : ∀ p, (tx.children.lookup p).isSome = true →
    (tx.ids.lookup p).isSome = true

/-- A node stored in the first store and gone from the second. -/
def Removed (tx tx2 : Taxonomy) (k : Int) : Prop :=
  (tx.ids.lookup k).isSome = true ∧ tx2.ids.lookup k = none

/-- What a delTaxonF call does to a store: entries are removed and never
edited, surviving nodes keep their children entries, children entries are
only removed, removed nodes lose theirs, the children of a removed node
are themselves removed or were never stored, every removed node is a
stated root of the removal or the child of a removed node, the stated
roots end up absent, and the root set is untouched. -/
structure RemSpec (tx tx2 : Taxonomy) (roots : List Int) : Prop where
  look : ∀ k, tx2.ids.lookup k = tx.ids.lookup k ∨ tx2.ids.lookup k = none
  chKeep : ∀ k, (tx2.ids.lookup k).isSome = true →
    tx2.children.lookup k = tx.children.lookup k
  chDrop : ∀ k, tx2.children.lookup k = tx.children.lookup k ∨
    tx2.children.lookup k = none
  chGone : ∀ k, Removed tx tx2 k → tx2.children.lookup k = none
  closed : ∀ k, Removed tx tx2 k → ∀ c ∈ childrenOf tx k,
    tx.ids.lookup c = none ∨ Removed tx tx2 c
  rootSrc : ∀ c, Removed tx tx2 c → c ∈ roots ∨
    ∃ d, Removed tx tx2 d ∧ c ∈ childrenOf tx d
  rootsGone : ∀ r ∈ roots, tx.ids.lookup r = none ∨ tx2.ids.lookup r = none
  rootEq : tx2.root = tx.root

/-- A stored taxon in the normal form the persisted table represents
exactly: canonical non-empty name, join-normalised author, trimmed
lower-case status, a rank from the rank list, and 64-bit identifiers. -/
def NormalTaxon (t : Taxon) : Prop :=
  Canon t.Name = t.Name ∧ t.Name ≠ "" ∧ fieldsJoin t.Author = t.Author ∧
  strLower (strTrim t.Status) = t.Status ∧ t.Rank ≤ 7 ∧
  -(2 ^ 63 : Int) ≤ t.ID ∧ t.ID ≤ 2 ^ 63 - 1 ∧
  -(2 ^ 63 : Int) ≤ t.Parent ∧ t.Parent ≤ 2 ^ 63 - 1

/-- A store holding one node whose name ABC is not in canonical form
(Canon would give Abc); AddSpecies builds it from a record with that
canonical-name field. -/
def c4Tx : Taxonomy :=
  { ids := [(7, { Name := "ABC", ID := 7 })]
    root := [7]
    children := []
    names := [("ABC", [7])] }

/-- The store Read builds back from the written form of c4Tx: the name
came back canonicalised. -/
def c4Tx2 : Taxonomy :=
  { ids := [(7, { Name := "Abc", ID := 7 })]
    root := [7]
    children := []
    names := [("Abc", [7])] }

/-- A record with nub key 7 and no parent reference. -/
def c8Sp1 : Species := { Key := 7, NubKey := 7, CanonicalName := "A" }

/-- A record with nub key 9 referring to parent 7. -/
def c8Sp2 : Species := { Key := 9, NubKey := 9, ParentKey := 7, CanonicalName := "B" }

/-- A record with nub key 0 whose raw key 7 collides with the stored
node 7. -/
def c8Sp3 : Species := { Key := 7, NubKey := 0, CanonicalName := "C" }

/-- The store after adding c8Sp1, c8Sp2 and c8Sp3 in order: the third
record overwrites node 7 through the nub-key-zero path and wipes its
children set, stranding the edge of node 9. -/
def c8Tx : Taxonomy :=
  { ids := [(7, { Name := "C", ID := 7 }), (9, { Name := "B", ID := 9, Parent := 7 })]
    root := [7]
    children := []
    names := [("A", [7]), ("B", [9]), ("C", [7])] }

/-- A record with nub key 9 referring to the stored genus 5. -/
def c8w1 : Species := { Key := 9, NubKey := 9, ParentKey := 5, CanonicalName := "C" }

/-- The taxon stored for the record c8w1. -/
def c8wC : Taxon := { Name := "C", ID := 9, Parent := 5 }

/-- The store after reading demoTbl, adding c8w1 under node 5, and
deleting node 7. -/
def c8wTx : Taxonomy :=
  { ids := [(5, { Name := "A", ID := 5, Rank := 6, Status := "accepted", Parent := 0 }),
            (9, { Name := "C", ID := 9, Parent := 5 })]
    root := [5]
    children := [(5, [9])]
    names := [("A", [5]), ("C", [9])] }

/-- An accepted genus record of identifier 5. -/
def c7Sp5 : Species :=
  { Key := 5, NubKey := 5, CanonicalName := "Abc", Rank := "genus",
    TaxonomicStatus := "accepted" }

/-- A synonym species record of identifier 7 pointing to the accepted
record 5. -/
def c7Sp7 : Species :=
  { Key := 7, NubKey := 7, AcceptedKey := 5, CanonicalName := "Abd",
    Rank := "species", TaxonomicStatus := "synonym" }

/-- A remote environment serving the records c7Sp5 and c7Sp7; every
record fetched by an identifier carries that identifier as its Key and
NubKey. -/
def c7Env : GEnv :=
  { speciesID := fun i =>
      if i = 5 then some c7Sp5 else if i = 7 then some c7Sp7 else none
    taxonName := fun _ => none }

/-- The store AddFromGBIF builds from c7Env when asked for identifier 7
on an empty store: the genus 5 is rooted and the synonym 7 linked under
it. -/
def c7Tx : Taxonomy :=
  { ids := [(5, { Name := "Abc", ID := 5, Rank := 6, Status := "accepted", Parent := 0 }),
            (7, { Name := "Abd", ID := 7, Rank := 7, Status := "synonym", Parent := 5 })]
    root := [5]
    children := [(5, [7])]
    names := [("Abc", [5]), ("Abd", [7])] }

/-- A store with two root nodes, the first of which has two children (one
accepted, one synonym). -/
def c9Tx1 : Taxonomy :=
  { ids := [(5, { Name := "A", ID := 5, Rank := 6, Status := "accepted", Parent := 0 }),
            (9, { Name := "C", ID := 9, Rank := 6, Status := "accepted", Parent := 0 }),
            (7, { Name := "B", ID := 7, Rank := 7, Status := "accepted", Parent := 5 }),
            (8, { Name := "D", ID := 8, Rank := 7, Status := "synonym", Parent := 5 })]
    root := [5, 9]
    children := [(5, [7, 8])]
    names := [("A", [5]), ("C", [9]), ("B", [7]), ("D", [8])] }

/-- The same store as c9Tx1 with the root list and the child list of node
5 in the opposite insertion order. -/
def c9Tx2 : Taxonomy :=
  { ids := [(5, { Name := "A", ID := 5, Rank := 6, Status := "accepted", Parent := 0 }),
            (9, { Name := "C", ID := 9, Rank := 6, Status := "accepted", Parent := 0 }),
            (7, { Name := "B", ID := 7, Rank := 7, Status := "accepted", Parent := 5 }),
            (8, { Name := "D", ID := 8, Rank := 7, Status := "synonym", Parent := 5 })]
    root := [9, 5]
    children := [(5, [8, 7])]
    names := [("A", [5]), ("C", [9]), ("B", [7]), ("D", [8])] }

end Gbifer

namespace Gbifer

/-! ## Generic association list lemmas -/

section MapLemmas

variable {kt bt : Type} [BEq kt] [LawfulBEq kt]

theorem lookup_cons_pos {a : kt} (p : kt × bt) (m : List (kt × bt))
    (h : (a == p.1) = true) : List.lookup a (p :: m) = some p.2 := by
  obtain ⟨x, y⟩ := p
  rw [List.lookup_cons]
  simp only at h
  rw [h]

theorem lookup_cons_neg {a : kt} (p : kt × bt) (m : List (kt × bt))
    (h : (a == p.1) = false) : List.lookup a (p :: m) = List.lookup a m := by
  obtain ⟨x, y⟩ := p
  rw [List.lookup_cons]
  simp only at h
  rw [h]

theorem lookup_setEntry_self (m : List (kt × bt)) (k : kt) (v : bt) :
    (setEntry m k v).lookup k = some v := by
  induction m with
  | nil => exact lookup_cons_pos (k, v) [] (by simp)
  | cons a m ih =>
    unfold setEntry
    cases hk : a.1 == k with
    | true =>
      simp only [if_true]
      exact lookup_cons_pos (k, v) m (by simp)
    | false =>
      simp only [hk, Bool.false_eq_true, if_false]
      rw [lookup_cons_neg a _ (by rw [BEq.comm] at hk; exact hk)]
      exact ih

theorem lookup_setEntry_ne (m : List (kt × bt)) (k k' : kt) (v : bt)
    (h : k' ≠ k) : (setEntry m k v).lookup k' = m.lookup k' := by
  induction m with
  | nil =>
    unfold setEntry
    rw [lookup_cons_neg (k, v) [] (by simpa using h)]
  | cons a m ih =>
    unfold setEntry
    cases hk : a.1 == k with
    | true =>
      have ha : a.1 = k := by simpa using hk
      simp only [if_true]
      rw [lookup_cons_neg (k, v) m (by simpa using h)]
      rw [lookup_cons_neg a m (by rw [ha]; simpa using h)]
    | false =>
      simp only [hk, Bool.false_eq_true, if_false]
      cases hk' : k' == a.1 with
      | true => rw [lookup_cons_pos a _ hk', lookup_cons_pos a m hk']
      | false => rw [lookup_cons_neg a _ hk', lookup_cons_neg a m hk']; exact ih

theorem lookup_removeEntry_self (m : List (kt × bt)) (k : kt) :
    (removeEntry m k).lookup k = none := by
  induction m with
  | nil => simp [removeEntry]
  | cons a m ih =>
    unfold removeEntry at ih ⊢
    cases hk : a.1 == k with
    | true =>
      rw [List.filter_cons_of_neg (by simp [hk])]
      exact ih
    | false =>
      rw [List.filter_cons_of_pos (by simp [hk])]
      rw [lookup_cons_neg a _ (by rw [BEq.comm] at hk; exact hk)]
      exact ih

theorem lookup_removeEntry_ne (m : List (kt × bt)) (k k' : kt) (h : k' ≠ k) :
    (removeEntry m k).lookup k' = m.lookup k' := by
  induction m with
  | nil => simp [removeEntry]
  | cons a m ih =>
    unfold removeEntry at ih ⊢
    cases hk : a.1 == k with
    | true =>
      have ha : a.1 = k := by simpa using hk
      rw [List.filter_cons_of_neg (by simp [hk])]
      rw [lookup_cons_neg a m (by rw [ha]; simpa using h)]
      exact ih
    | false =>
      rw [List.filter_cons_of_pos (by simp [hk])]
      cases hk' : k' == a.1 with
      | true => rw [lookup_cons_pos a _ hk', lookup_cons_pos a m hk']
      | false => rw [lookup_cons_neg a _ hk', lookup_cons_neg a m hk']; exact ih

theorem mem_insertKey (l : List kt) (k a : kt) :
    a ∈ insertKey l k ↔ a = k ∨ a ∈ l := by
  unfold insertKey
  split
  case isTrue h =>
    constructor
    · exact fun ha => Or.inr ha
    · rintro (rfl | ha)
      · simpa using h
      · exact ha
  case isFalse h => simp [or_comm]

theorem mem_removeKey (l : List kt) (k a : kt) :
    a ∈ removeKey l k ↔ a ∈ l ∧ a ≠ k := by
  unfold removeKey
  simp

end MapLemmas

/-! ## Characterisations of AddSpecies -/

theorem AddSpecies_guard (tx : Taxonomy) (sp : Species)
    (h : (tx.ids.lookup sp.NubKey).isSome) : AddSpecies tx sp = tx := by
  unfold AddSpecies
  rw [if_pos h]

theorem AddSpecies_emptyName (tx : Taxonomy) (sp : Species)
    (h : resolvedName sp = "") : AddSpecies tx sp = tx := by
  unfold AddSpecies
  simp [h]

theorem AddSpecies_zeroID (tx : Taxonomy) (sp : Species)
    (h : resolvedID sp = 0) : AddSpecies tx sp = tx := by
  unfold AddSpecies
  simp [h]

theorem AddSpecies_linked (tx : Taxonomy) (sp : Species)
    (hg : (tx.ids.lookup sp.NubKey).isSome = false)
    (hn : resolvedName sp ≠ "") (hid : resolvedID sp ≠ 0)
    (hp : (tx.ids.lookup (resolveParentKey sp)).isSome) :
    AddSpecies tx sp =
      { ids := setEntry tx.ids (resolvedID sp) (mkData sp (resolveParentKey sp))
        root := tx.root
        children := addChild (removeEntry tx.children (resolvedID sp))
          (resolveParentKey sp) (resolvedID sp)
        names := addName tx.names (resolvedName sp) (resolvedID sp) } := by
  unfold AddSpecies
  rw [if_neg (by rw [hg]; exact Bool.false_ne_true), if_neg hn, if_neg hid,
    if_pos hp]

theorem AddSpecies_rooted (tx : Taxonomy) (sp : Species)
    (hg : (tx.ids.lookup sp.NubKey).isSome = false)
    (hn : resolvedName sp ≠ "") (hid : resolvedID sp ≠ 0)
    (hp : (tx.ids.lookup (resolveParentKey sp)).isSome = false) :
    AddSpecies tx sp =
      { ids := setEntry tx.ids (resolvedID sp) (mkData sp 0)
        root := insertKey tx.root (resolvedID sp)
        children := removeEntry tx.children (resolvedID sp)
        names := addName tx.names (resolvedName sp) (resolvedID sp) } := by
  unfold AddSpecies
  rw [if_neg (by rw [hg]; exact Bool.false_ne_true), if_neg hn, if_neg hid,
    if_neg (by rw [hp]; exact Bool.false_ne_true)]

/-! ## Claim C1 -/

theorem acceptedAndRankedF_cycTx (n : Nat) : AcceptedAndRankedF n cycTx 5 = none := by
  induction n with
  | zero => rfl
  | succ n ih =>
    have h : AcceptedAndRankedF (n + 1) cycTx 5 = AcceptedAndRankedF n cycTx 5 := rfl
    rw [h, ih]

/-- C1, counterexample: the store read from cycTbl is a legal Read result
whose node 5 is a non-accepted taxon that is its own parent; on it the
walk of AcceptedAndRanked(5) never terminates, contradicting the claim
that the walk terminates for every store state including cyclic parent
chains. -/
theorem acceptedAndRanked_cycle_no_termination :
    read cycTbl = .ok cycTx ∧ ¬ AcceptedAndRankedTerminates cycTx 5 := by
  refine ⟨by decide, ?_⟩
  rintro ⟨n, hn⟩
  rw [acceptedAndRankedF_cycTx n] at hn
  simp at hn

/-- C1, amended: whenever the walk of AcceptedAndRanked terminates (which
it need not on cyclic parent chains), any non-empty taxon it returns has
status accepted and a rank that is not Unranked. -/
theorem acceptedAndRanked_sound (tx : Taxonomy) (id : Int) (n : Nat) (t : Taxon)
    (h : AcceptedAndRankedF n tx id = some t) (hne : t ≠ {}) :
    t.Status = "accepted" ∧ t.Rank ≠ Unranked := by
  induction n generalizing id with
  | zero => exact absurd h (by simp [AcceptedAndRankedF])
  | succ n ih =>
    unfold AcceptedAndRankedF at h
    split at h
    · injection h with h
      exact absurd h.symm hne
    · split at h
      case isTrue u heq hc =>
        injection h with h
        rw [← h]
        exact hc
      case isFalse u heq hc =>
        exact ih _ h

/-- Witness for the amended C1 theorem at a concrete store. -/
theorem acceptedAndRanked_sound_witness :
    demoA.Status = "accepted" ∧ demoA.Rank ≠ Unranked :=
  acceptedAndRanked_sound demoTx 5 1 demoA (by decide) (by decide)

/-! ## Claim C2 -/

/-- C2, counterexample: the record spLower resolves identifier 1 and the
non-empty name abc and is accepted by AddSpecies into an empty store, yet
ByName applied to the stored name returns nothing, because AddSpecies
indexes the raw canonical name while ByName canonicalises its query. -/
theorem addSpecies_byName_counterexample :
    NewTaxonomy.ids.lookup spLower.NubKey = none ∧
    resolvedID spLower = 1 ∧
    resolvedName spLower ≠ "" ∧
    ((AddSpecies NewTaxonomy spLower).Taxon 1).ID = 1 ∧
    1 ∉ (AddSpecies NewTaxonomy spLower).ByName
      ((AddSpecies NewTaxonomy spLower).Taxon 1).Name := by decide

/-- C2, amended: for every record accepted by AddSpecies whose stored
name is already in canonical form, the stored node carries the resolved
identifier and ByName of the stored name contains it. -/
theorem addSpecies_taxon_byName (tx : Taxonomy) (sp : Species)
    (hg : tx.ids.lookup sp.NubKey = none)
    (hn : resolvedName sp ≠ "")
    (hid : resolvedID sp ≠ 0)
    (hfresh : tx.ids.lookup (resolvedID sp) = none)
    (hcanon : Canon (resolvedName sp) = resolvedName sp) :
    ((AddSpecies tx sp).Taxon (resolvedID sp)).ID = resolvedID sp ∧
    resolvedID sp ∈ (AddSpecies tx sp).ByName
      ((AddSpecies tx sp).Taxon (resolvedID sp)).Name := by
  have hg' : (tx.ids.lookup sp.NubKey).isSome = false := by rw [hg]; rfl
  have hmain : ∀ tx' : Taxonomy,
      (tx'.ids.lookup (resolvedID sp) = some (mkData sp (resolveParentKey sp)) ∨
        tx'.ids.lookup (resolvedID sp) = some (mkData sp 0)) →
      tx'.names = addName tx.names (resolvedName sp) (resolvedID sp) →
      (tx'.Taxon (resolvedID sp)).ID = resolvedID sp ∧
      resolvedID sp ∈ tx'.ByName (tx'.Taxon (resolvedID sp)).Name := by
    rintro tx' hl hnames
    have hname : (tx'.Taxon (resolvedID sp)).Name = resolvedName sp := by
      unfold Taxonomy.Taxon
      rcases hl with hl | hl <;> rw [hl] <;> rfl
    have hID : (tx'.Taxon (resolvedID sp)).ID = resolvedID sp := by
      unfold Taxonomy.Taxon
      rcases hl with hl | hl <;> rw [hl] <;> rfl
    refine ⟨hID, ?_⟩
    have hmem : resolvedID sp ∈
        insertKey ((tx.names.lookup (resolvedName sp)).getD []) (resolvedID sp) :=
      (mem_insertKey _ _ _).mpr (Or.inl rfl)
    rw [hname]
    unfold Taxonomy.ByName
    rw [hcanon, if_neg hn, hnames]
    unfold addName
    rw [lookup_setEntry_self, Option.getD_some]
    rw [if_neg (by rintro hnil; rw [hnil] at hmem; exact absurd hmem (by simp))]
    exact ((List.perm_insertionSort intLE _).mem_iff).mpr hmem
  by_cases hp : (tx.ids.lookup (resolveParentKey sp)).isSome
  · rw [AddSpecies_linked tx sp hg' hn hid hp]
    exact hmain _ (by rw [lookup_setEntry_self]; left; rfl) rfl
  · rw [AddSpecies_rooted tx sp hg' hn hid (by rwa [Bool.not_eq_true] at hp)]
    exact hmain _ (by rw [lookup_setEntry_self]; right; rfl) rfl

/-- Witness for the amended C2 theorem at a concrete record. -/
theorem addSpecies_taxon_byName_witness :
    ((AddSpecies NewTaxonomy { NubKey := 1, CanonicalName := "Abc" }).Taxon 1).ID = 1 ∧
    1 ∈ (AddSpecies NewTaxonomy { NubKey := 1, CanonicalName := "Abc" }).ByName
      ((AddSpecies NewTaxonomy { NubKey := 1, CanonicalName := "Abc" }).Taxon 1).Name :=
  addSpecies_taxon_byName NewTaxonomy { NubKey := 1, CanonicalName := "Abc" }
    (by decide) (by decide) (by decide) (by decide) (by decide)

/-! ## Claim C6 -/

/-- C6, counterexample: a queue whose single request fails produces a
trace with a physical request and no sleep at all, contradicting the
claim that the worker sleeps after every physical request whether it
succeeds or fails. -/
theorem reqs_failure_no_sleep :
    reqs [("u", .fail)] = [.get "u", .sendErr] ∧
    ReqEvent.sleep Wait ∉ reqs [("u", .fail)] := by decide

theorem reqs_not_sleep_head (q : List (String × Outcome)) (ms : Nat)
    (r : List ReqEvent) : reqs q ≠ .sleep ms :: r := by
  match q with
  | [] => simp [reqs]
  | (u, .fail) :: rest => simp [reqs]
  | (u, .success) :: rest => simp [reqs]

/-- C6, amended: in every trace of the dispatch loop the worker sleeps
the Wait interval immediately after every successful request, and after a
failed request it issues the next request without sleeping; the number of
sleeps equals the number of successful requests. -/
theorem reqs_paced (q : List (String × Outcome)) :
    paceOK (reqs q) = true ∧
    (reqs q).count (ReqEvent.sleep Wait) =
      q.countP (fun p => p.2 == Outcome.success) := by
  induction q with
  | nil => constructor <;> rfl
  | cons p rest ih =>
    obtain ⟨u, o⟩ := p
    cases o with
    | fail =>
      constructor
      · show paceOK (.get u :: .sendErr :: reqs rest) = true
        have h1 : paceOK (.get u :: .sendErr :: reqs rest) =
            paceOK (.sendErr :: reqs rest) := rfl
        rw [h1]
        cases hr : reqs rest with
        | nil => rfl
        | cons e r =>
          cases e with
          | sleep ms => exact absurd hr (reqs_not_sleep_head rest ms r)
          | get v =>
            rw [show paceOK (.sendErr :: .get v :: r) =
              paceOK (.get v :: r) from rfl, ← hr]
            exact ih.1
          | sendErr =>
            rw [show paceOK (.sendErr :: .sendErr :: r) =
              paceOK (.sendErr :: r) from rfl, ← hr]
            exact ih.1
          | sendAns =>
            rw [show paceOK (.sendErr :: .sendAns :: r) =
              paceOK (.sendAns :: r) from rfl, ← hr]
            exact ih.1
      · show (ReqEvent.get u :: .sendErr :: reqs rest).count (ReqEvent.sleep Wait) = _
        rw [List.count_cons, List.count_cons]
        simpa using ih.2
    | success =>
      constructor
      · show paceOK (.get u :: .sendAns :: .sleep Wait :: reqs rest) = true
        have h1 : paceOK (.get u :: .sendAns :: .sleep Wait :: reqs rest) =
            ((Wait == Wait) && paceOK (reqs rest)) := rfl
        rw [h1, ih.1]
        rfl
      · show (ReqEvent.get u :: .sendAns :: .sleep Wait :: reqs rest).count
            (ReqEvent.sleep Wait) = _
        rw [List.count_cons, List.count_cons, List.count_cons]
        rw [List.countP_cons]
        simp only [beq_self_eq_true, if_true]
        simpa using ih.2

/-- Witness for the amended C6 theorem on a concrete queue. -/
theorem reqs_paced_witness :
    paceOK (reqs [("u", Outcome.success), ("v", Outcome.fail)]) = true ∧
    (reqs [("u", Outcome.success), ("v", Outcome.fail)]).count
      (ReqEvent.sleep Wait) =
      ([("u", Outcome.success), ("v", Outcome.fail)]).countP
        (fun p => p.2 == Outcome.success) :=
  reqs_paced [("u", Outcome.success), ("v", Outcome.fail)]

/-! ## Claim C3 -/

/-- The accepted-candidate status predicate of the selection scan. -/
def isACCEPTED (sp : Species) : Bool := sp.TaxonomicStatus = "ACCEPTED"

theorem uniqueAccepted_some (ls : List Species) (sp : Species) :
    uniqueAccepted (some sp) ls =
      if ls.filter isACCEPTED = [] then some sp else none := by
  induction ls with
  | nil => simp [uniqueAccepted]
  | cons a ls ih =>
    unfold uniqueAccepted
    by_cases ha : a.TaxonomicStatus = "ACCEPTED"
    · rw [if_pos ha]
      rw [List.filter_cons_of_pos (by simp [isACCEPTED, ha])]
      simp
    · rw [if_neg ha]
      rw [List.filter_cons_of_neg (by simp [isACCEPTED, ha])]
      exact ih

theorem uniqueAccepted_none (ls : List Species) :
    uniqueAccepted none ls =
      match ls.filter isACCEPTED with
      | [x] => some x
      | _ => none := by
  induction ls with
  | nil => simp [uniqueAccepted]
  | cons a ls ih =>
    unfold uniqueAccepted
    by_cases ha : a.TaxonomicStatus = "ACCEPTED"
    · rw [if_pos ha]
      rw [List.filter_cons_of_pos (by simp [isACCEPTED, ha])]
      rw [uniqueAccepted_some ls a]
      by_cases hf : ls.filter isACCEPTED = []
      · rw [if_pos hf, hf]
      · rw [if_neg hf]
        cases hc : ls.filter isACCEPTED with
        | nil => exact absurd hc hf
        | cons y ys => rfl
    · rw [if_neg ha]
      rw [List.filter_cons_of_neg (by simp [isACCEPTED, ha])]
      exact ih

theorem uniqueAccepted_eq_none_of_count (ls : List Species)
    (hacc : (ls.filter isACCEPTED).length ≠ 1) :
    uniqueAccepted none ls = none := by
  rw [uniqueAccepted_none]
  cases hc : ls.filter isACCEPTED with
  | nil => rfl
  | cons x xs =>
    cases xs with
    | nil => rw [hc] at hacc; simp at hacc
    | cons y ys => rfl

/-- C3: when the remote search for a canonical name returns more than one
candidate and the number of candidates whose status is ACCEPTED is not
exactly one, AddNameFromGBIF returns the ErrAmbiguous error carrying the
nub key of every candidate, and the returned store is exactly the input
store: no node, root entry or name-index entry has been added or
removed. -/
theorem addNameFromGBIF_ambiguous (fuel : Nat) (env : GEnv) (tx : Taxonomy)
    (name : String) (maxRank : Rank) (ls : List Species)
    (hc : Canon name ≠ "")
    (hls : env.taxonName (Canon name) = some ls)
    (hlen : 1 < ls.length)
    (hacc : (ls.filter isACCEPTED).length ≠ 1) :
    AddNameFromGBIF fuel env tx name maxRank =
      some (tx, some (.ambiguous (Canon name) (ls.map (fun s => s.NubKey)))) := by
  unfold AddNameFromGBIF
  rw [if_neg hc, hls]
  show addNameList fuel env tx (Canon name) maxRank ls =
    some (tx, some (.ambiguous (Canon name) (ls.map (fun s => s.NubKey))))
  cases ls with
  | nil => simp at hlen
  | cons sp₀ rest =>
    show (if rest.length + 1 > 1 then
        match uniqueAccepted none (sp₀ :: rest) with
        | none => some (tx, some (AddErr.ambiguous (Canon name)
            (List.map (fun s => s.NubKey) (sp₀ :: rest))))
        | some sp => addSelected fuel env tx sp maxRank
      else addSelected fuel env tx sp₀ maxRank) =
      some (tx, some (.ambiguous (Canon name) ((sp₀ :: rest).map (fun s => s.NubKey))))
    rw [if_pos (by simpa using hlen)]
    rw [uniqueAccepted_eq_none_of_count _ hacc]

/-- Witness for the C3 theorem: two accepted candidates for the same
name yield the ambiguous error with both identifiers and leave the store
untouched. -/
theorem addNameFromGBIF_ambiguous_witness :
    AddNameFromGBIF 1 ambEnv NewTaxonomy "abc" SpeciesRank =
      some (NewTaxonomy, some (.ambiguous "Abc" [11, 12])) :=
  addNameFromGBIF_ambiguous 1 ambEnv NewTaxonomy "abc" SpeciesRank
    [spAcc1, spAcc2] (by decide) (by decide) (by decide) (by decide)

/-! ## Claim C5 -/

/-- C5, counterexample: childFirstTbl has the full header and integer
identifier and parent fields, yet Read neither returns a store nor an
error on it: the first data row names the still-unread parent 5, and the
immediate-linking reader dereferences the missing parent node, a nil
pointer dereference in the Go code. The nodes are not created before the
parent edges are linked. -/
theorem read_child_first_panics : read childFirstTbl = .panic := by decide

theorem readRows_no_panic (rows : List (List String)) (n : Nat)
    (f : List (String × Nat)) (tx : Taxonomy) (seen : List Int)
    (hs : ∀ k : Int, (tx.ids.lookup k).isSome = seen.contains k)
    (hok : linkedOK n f seen rows = true) :
    readRows n f tx rows ≠ .panic := by
  induction rows generalizing tx seen with
  | nil => simp [readRows]
  | cons row rest ih =>
    unfold readRows
    unfold linkedOK at hok
    by_cases hlen : row.length ≠ n
    · rw [if_pos hlen]
      simp
    · rw [if_neg hlen]
      rw [if_neg hlen] at hok
      by_cases hname : Canon (fieldAt row (colOf f "name")) = ""
      · rw [show readRow f tx row = .ok tx from by
          unfold readRow; rw [if_pos hname]]
        rw [if_pos hname] at hok
        exact ih tx seen hs hok
      · rw [if_neg hname] at hok
        cases hparse : goParseInt (fieldAt row (colOf f "taxonkey")) with
        | none =>
          rw [show readRow f tx row = .err from by
            unfold readRow; rw [if_neg hname, hparse]]
          simp
        | some id =>
          rw [show readRow f tx row = readRowKnown f tx row id from by
            unfold readRow; rw [if_neg hname, hparse]]
          unfold readRowKnown
          rw [hparse] at hok
          replace hok : (if seen.contains id = true then linkedOK n f seen rest
              else match (if fieldAt row (colOf f "parent") = "" then some 0
                  else goParseInt (fieldAt row (colOf f "parent"))) with
                | none => true
                | some parent =>
                  (decide (parent = 0) || (id :: seen).contains parent) &&
                    linkedOK n f (id :: seen) rest) = true := hok
          by_cases hdup : (tx.ids.lookup id).isSome
          · rw [if_pos hdup]
            rw [if_pos (by rw [← hs id]; exact hdup)] at hok
            exact ih tx seen hs hok
          · rw [if_neg hdup]
            rw [if_neg (by rw [← hs id]; exact hdup)] at hok
            cases hpp : (if fieldAt row (colOf f "parent") = "" then some 0
                else goParseInt (fieldAt row (colOf f "parent"))) with
            | none => exact fun hx => ReadResult.noConfusion hx
            | some parent =>
              rw [hpp] at hok
              replace hok : ((decide (parent = 0) || (id :: seen).contains parent) &&
                  linkedOK n f (id :: seen) rest) = true := hok
              rw [Bool.and_eq_true] at hok
              show (match readRowInsert f tx row id parent with
                | .ok tx' => readRows n f tx' rest
                | .err => ReadResult.err
                | .panic => ReadResult.panic) ≠ ReadResult.panic
              have hs' : ∀ k : Int,
                  ((setEntry tx.ids id (rowData f row id parent)).lookup k).isSome =
                    (id :: seen).contains k := by
                intro k
                by_cases hk : k = id
                · subst hk
                  rw [lookup_setEntry_self]
                  simp
                · rw [lookup_setEntry_ne _ _ _ _ hk, hs k]
                  simp only [List.contains_cons]
                  rw [show (k == id) = false by simpa using hk]
                  simp
              unfold readRowInsert
              by_cases hpz : parent ≠ 0
              · rw [if_pos hpz]
                have hpar : ((id :: seen).contains parent) = true := by
                  rcases Bool.or_eq_true _ _ |>.mp hok.1 with h | h
                  · exact absurd (by simpa using h) hpz
                  · exact h
                rw [if_pos (by rw [hs' parent]; exact hpar)]
                exact ih _ _ hs' hok.2
              · rw [if_neg hpz]
                exact ih _ _ hs' hok.2

/-- C5, amended: Read never crashes on tables in which every row that is
actually inserted has an empty or zero parent field or names a parent
identifier already inserted from an earlier row (or the row itself): on
such tables it returns a store or an error. When a child row appears
before the row of its parent, the reader panics, because the
immediate-linking variant links each parent edge as the row is read
instead of creating all nodes first. -/
theorem read_no_panic (tbl : List (List String))
    (hok : tableLinkedOK tbl = true) : read tbl ≠ .panic := by
  cases tbl with
  | nil => simp [read]
  | cons header rows =>
    show (if headerCols.all
          (fun h => ((fieldsMap header).lookup (strLower h)).isSome) = true then
        readRows header.length (fieldsMap header) NewTaxonomy rows
      else ReadResult.err) ≠ ReadResult.panic
    replace hok : (if headerCols.all
          (fun h => ((fieldsMap header).lookup (strLower h)).isSome) = true then
        linkedOK header.length (fieldsMap header) [] rows
      else true) = true := hok
    by_cases hh : headerCols.all
        (fun h => ((fieldsMap header).lookup (strLower h)).isSome) = true
    · rw [if_pos hh]
      rw [if_pos hh] at hok
      exact readRows_no_panic rows header.length (fieldsMap header)
        NewTaxonomy [] (fun k => rfl) hok
    · rw [if_neg hh]
      simp

/-- Witness for the amended C5 theorem at a concrete parent-first table. -/
theorem read_no_panic_witness : read demoTbl ≠ .panic :=
  read_no_panic demoTbl (by decide)

/-! ## Comparator lemmas -/

theorem cmpNat_le_zero (m n : Nat) : cmpNat m n ≤ 0 ↔ m ≤ n := by
  unfold cmpNat
  split_ifs <;> omega

theorem cmpNat_eq_zero (m n : Nat) : cmpNat m n = 0 ↔ m = n := by
  unfold cmpNat
  split_ifs with h1 h2
  · constructor
    · intro h
      norm_num at h
    · intro h
      omega
  · simp [h2]
  · constructor
    · intro h
      norm_num at h
    · intro h
      omega

theorem cmpNat_swap (m n : Nat) : cmpNat n m = -cmpNat m n := by
  unfold cmpNat
  rcases Nat.lt_trichotomy m n with h | h | h
  · rw [if_neg (show ¬ n < m by omega), if_neg (show ¬ n = m by omega),
      if_pos (show m < n from h)]
    try decide
  · rw [if_neg (show ¬ n < m by omega), if_pos (show n = m from h.symm),
      if_neg (show ¬ m < n by omega), if_pos (show m = n from h)]
    try decide
  · rw [if_pos (show n < m from h), if_neg (show ¬ m < n by omega),
      if_neg (show ¬ m = n by omega)]
    try decide

theorem cmpInt_le_zero (x y : Int) : cmpInt x y ≤ 0 ↔ x ≤ y := by
  unfold cmpInt
  split_ifs <;> omega

theorem cmpInt_eq_zero (x y : Int) : cmpInt x y = 0 ↔ x = y := by
  unfold cmpInt
  split_ifs with h1 h2
  · constructor
    · intro h
      norm_num at h
    · intro h
      omega
  · simp [h2]
  · constructor
    · intro h
      norm_num at h
    · intro h
      omega

theorem cmpInt_swap (x y : Int) : cmpInt y x = -cmpInt x y := by
  unfold cmpInt
  rcases lt_trichotomy x y with h | h | h
  · rw [if_neg (show ¬ y < x by omega), if_neg (show ¬ y = x by omega),
      if_pos (show x < y from h)]
    try decide
  · rw [if_neg (show ¬ y < x by omega), if_pos (show y = x from h.symm),
      if_neg (show ¬ x < y by omega), if_pos (show x = y from h)]
    try decide
  · rw [if_pos (show y < x from h), if_neg (show ¬ x < y by omega),
      if_neg (show ¬ x = y by omega)]
    try decide

theorem cmpChar_le_zero (a b : Char) : cmpChar a b ≤ 0 ↔ a.toNat ≤ b.toNat := by
  unfold cmpChar
  exact cmpNat_le_zero _ _

theorem cmpChar_eq_zero (a b : Char) : cmpChar a b = 0 ↔ a = b := by
  unfold cmpChar
  rw [cmpNat_eq_zero]
  constructor
  · intro h
    apply Char.ext
    apply UInt32.ext
    exact h
  · intro h
    rw [h]

theorem cmpChar_swap (a b : Char) : cmpChar b a = -cmpChar a b := by
  unfold cmpChar
  exact cmpNat_swap _ _

theorem cmpCharList_swap (a b : List Char) : cmpCharList b a = -cmpCharList a b := by
  induction a generalizing b with
  | nil => cases b <;> rfl
  | cons x xs ih =>
    cases b with
    | nil => rfl
    | cons y ys =>
      unfold cmpCharList
      by_cases hxy : cmpChar x y = 0
      · have hyx : cmpChar y x = 0 := by rw [cmpChar_swap, hxy]; rfl
        rw [if_neg (by rw [hyx]; simp), if_neg (by rw [hxy]; simp)]
        exact ih ys
      · have hyx : cmpChar y x ≠ 0 := by rw [cmpChar_swap]; omega
        rw [if_pos hyx, if_pos hxy, cmpChar_swap]

theorem cmpCharList_eq_zero (a b : List Char) : cmpCharList a b = 0 ↔ a = b := by
  induction a generalizing b with
  | nil => cases b <;> simp [cmpCharList]
  | cons x xs ih =>
    cases b with
    | nil => simp [cmpCharList]
    | cons y ys =>
      unfold cmpCharList
      by_cases hxy : cmpChar x y = 0
      · rw [if_neg (by rw [hxy]; simp)]
        rw [ih ys]
        have hx : x = y := (cmpChar_eq_zero x y).mp hxy
        subst hx
        simp
      · rw [if_pos hxy]
        constructor
        · intro h
          exact absurd h hxy
        · intro h
          injection h with h1 h2
          exact absurd ((cmpChar_eq_zero x y).mpr h1) hxy

theorem cmpCharList_trans (a b c : List Char) (h1 : cmpCharList a b ≤ 0)
    (h2 : cmpCharList b c ≤ 0) : cmpCharList a c ≤ 0 := by
  induction a generalizing b c with
  | nil => cases c <;> simp [cmpCharList]
  | cons x xs ih =>
    cases b with
    | nil => simp [cmpCharList] at h1
    | cons y ys =>
      cases c with
      | nil => simp [cmpCharList] at h2
      | cons z zs =>
        unfold cmpCharList at h1 h2 ⊢
        by_cases hxy : cmpChar x y = 0
        · rw [if_neg (by rw [hxy]; simp)] at h1
          have hx : x = y := (cmpChar_eq_zero x y).mp hxy
          subst hx
          by_cases hyz : cmpChar x z = 0
          · rw [if_neg (by rw [hyz]; simp)] at h2 ⊢
            exact ih ys zs h1 h2
          · rw [if_pos hyz] at h2 ⊢
            exact h2
        · rw [if_pos hxy] at h1
          by_cases hyz : cmpChar y z = 0
          · have hy : y = z := (cmpChar_eq_zero y z).mp hyz
            subst hy
            rw [if_pos hxy]
            exact h1
          · rw [if_pos hyz] at h2
            have hxz : cmpChar x z ≤ 0 := by
              rw [cmpChar_le_zero] at h1 h2 ⊢
              omega
            by_cases hz : cmpChar x z = 0
            · rw [if_neg (by rw [hz]; simp)]
              have hx : x = z := (cmpChar_eq_zero x z).mp hz
              subst hx
              rw [cmpChar_le_zero] at h1 h2
              have : x.toNat = y.toNat := by omega
              exact absurd ((cmpChar_eq_zero x y).mpr
                (Char.ext (UInt32.ext this))) hxy
            · rw [if_pos hz]
              exact hxz

theorem cmpStr_swap (a b : String) : cmpStr b a = -cmpStr a b :=
  cmpCharList_swap a.data b.data

theorem cmpStr_eq_zero (a b : String) : cmpStr a b = 0 ↔ a = b := by
  unfold cmpStr
  rw [cmpCharList_eq_zero]
  constructor
  · intro h
    cases a
    cases b
    exact congrArg String.mk h
  · intro h
    rw [h]

theorem cmpStr_trans (a b c : String) (h1 : cmpStr a b ≤ 0)
    (h2 : cmpStr b c ≤ 0) : cmpStr a c ≤ 0 :=
  cmpCharList_trans a.data b.data c.data h1 h2

theorem cmpLex4_swap (p q : Nat × Nat × String × Int) :
    cmpLex4 q p = -cmpLex4 p q := by
  obtain ⟨p1, p2, p3, p4⟩ := p
  obtain ⟨q1, q2, q3, q4⟩ := q
  unfold cmpLex4
  simp only
  by_cases h1 : cmpNat p1 q1 = 0
  case pos =>
    have h1' : cmpNat q1 p1 = 0 := by rw [cmpNat_swap]; omega
    rw [if_neg (show ¬ cmpNat q1 p1 ≠ 0 by rw [h1']; simp),
      if_neg (show ¬ cmpNat p1 q1 ≠ 0 by rw [h1]; simp)]
    by_cases h2 : cmpNat p2 q2 = 0
    case pos =>
      have h2' : cmpNat q2 p2 = 0 := by rw [cmpNat_swap]; omega
      rw [if_neg (show ¬ cmpNat q2 p2 ≠ 0 by rw [h2']; simp),
        if_neg (show ¬ cmpNat p2 q2 ≠ 0 by rw [h2]; simp)]
      by_cases h3 : cmpStr p3 q3 = 0
      case pos =>
        have h3' : cmpStr q3 p3 = 0 := by rw [cmpStr_swap]; omega
        rw [if_neg (show ¬ cmpStr q3 p3 ≠ 0 by rw [h3']; simp),
          if_neg (show ¬ cmpStr p3 q3 ≠ 0 by rw [h3]; simp)]
        exact cmpInt_swap _ _
      case neg =>
        have h3' : cmpStr q3 p3 ≠ 0 := by rw [cmpStr_swap]; omega
        rw [if_pos (show cmpStr q3 p3 ≠ 0 from h3'),
          if_pos (show cmpStr p3 q3 ≠ 0 from h3)]
        exact cmpStr_swap _ _
    case neg =>
      have h2' : cmpNat q2 p2 ≠ 0 := by rw [cmpNat_swap]; omega
      rw [if_pos (show cmpNat q2 p2 ≠ 0 from h2'),
        if_pos (show cmpNat p2 q2 ≠ 0 from h2)]
      exact cmpNat_swap _ _
  case neg =>
    have h1' : cmpNat q1 p1 ≠ 0 := by rw [cmpNat_swap]; omega
    rw [if_pos (show cmpNat q1 p1 ≠ 0 from h1'),
      if_pos (show cmpNat p1 q1 ≠ 0 from h1)]
    exact cmpNat_swap _ _

theorem cmpLex4_total (p q : Nat × Nat × String × Int) :
    cmpLex4 p q ≤ 0 ∨ cmpLex4 q p ≤ 0 := by
  rw [cmpLex4_swap p q]
  omega

theorem cmpLex4_eq_zero_id (p q : Nat × Nat × String × Int)
    (h : cmpLex4 p q = 0) : p.2.2.2 = q.2.2.2 := by
  obtain ⟨p1, p2, p3, p4⟩ := p
  obtain ⟨q1, q2, q3, q4⟩ := q
  unfold cmpLex4 at h
  simp only at h ⊢
  by_cases h1 : cmpNat p1 q1 = 0
  · rw [if_neg (show ¬ cmpNat p1 q1 ≠ 0 by rw [h1]; simp)] at h
    by_cases h2 : cmpNat p2 q2 = 0
    · rw [if_neg (show ¬ cmpNat p2 q2 ≠ 0 by rw [h2]; simp)] at h
      by_cases h3 : cmpStr p3 q3 = 0
      · rw [if_neg (show ¬ cmpStr p3 q3 ≠ 0 by rw [h3]; simp)] at h
        exact (cmpInt_eq_zero _ _).mp h
      · rw [if_pos (show cmpStr p3 q3 ≠ 0 from h3)] at h
        exact absurd h h3
    · rw [if_pos (show cmpNat p2 q2 ≠ 0 from h2)] at h
      exact absurd h h2
  · rw [if_pos (show cmpNat p1 q1 ≠ 0 from h1)] at h
    exact absurd h h1

theorem cmpLex4_trans (p q r : Nat × Nat × String × Int)
    (h1 : cmpLex4 p q ≤ 0) (h2 : cmpLex4 q r ≤ 0) : cmpLex4 p r ≤ 0 := by
  obtain ⟨p1, p2, p3, p4⟩ := p
  obtain ⟨q1, q2, q3, q4⟩ := q
  obtain ⟨r1, r2, r3, r4⟩ := r
  unfold cmpLex4 at h1 h2 ⊢
  simp only at h1 h2 ⊢
  by_cases e1 : cmpNat p1 q1 = 0
  · rw [if_neg (show ¬ cmpNat p1 q1 ≠ 0 by rw [e1]; simp)] at h1
    have k1 : p1 = q1 := (cmpNat_eq_zero _ _).mp e1
    subst k1
    by_cases e2 : cmpNat p1 r1 = 0
    · rw [if_neg (show ¬ cmpNat p1 r1 ≠ 0 by rw [e2]; simp)] at h2 ⊢
      by_cases f1 : cmpNat p2 q2 = 0
      · rw [if_neg (show ¬ cmpNat p2 q2 ≠ 0 by rw [f1]; simp)] at h1
        have m1 : p2 = q2 := (cmpNat_eq_zero _ _).mp f1
        subst m1
        by_cases f2 : cmpNat p2 r2 = 0
        · rw [if_neg (show ¬ cmpNat p2 r2 ≠ 0 by rw [f2]; simp)] at h2 ⊢
          by_cases g1 : cmpStr p3 q3 = 0
          · rw [if_neg (show ¬ cmpStr p3 q3 ≠ 0 by rw [g1]; simp)] at h1
            have s1 : p3 = q3 := (cmpStr_eq_zero _ _).mp g1
            subst s1
            by_cases g2 : cmpStr p3 r3 = 0
            · rw [if_neg (show ¬ cmpStr p3 r3 ≠ 0 by rw [g2]; simp)] at h2 ⊢
              rw [cmpInt_le_zero] at h1 h2 ⊢
              omega
            · rw [if_pos (show cmpStr p3 r3 ≠ 0 from g2)] at h2 ⊢
              exact h2
          · rw [if_pos (show cmpStr p3 q3 ≠ 0 from g1)] at h1
            by_cases g2 : cmpStr q3 r3 = 0
            · have s2 : q3 = r3 := (cmpStr_eq_zero _ _).mp g2
              subst s2
              rw [if_pos (show cmpStr p3 q3 ≠ 0 from g1)]
              exact h1
            · rw [if_pos (show cmpStr q3 r3 ≠ 0 from g2)] at h2
              have hs : cmpStr p3 r3 ≤ 0 := cmpStr_trans _ _ _ h1 h2
              by_cases g3 : cmpStr p3 r3 = 0
              · have s3 : p3 = r3 := (cmpStr_eq_zero _ _).mp g3
                subst s3
                rw [cmpStr_swap] at h2
                have : cmpStr p3 q3 = 0 := by omega
                exact absurd this g1
              · rw [if_pos (show cmpStr p3 r3 ≠ 0 from g3)]
                exact hs
        · rw [if_pos (show cmpNat p2 r2 ≠ 0 from f2)] at h2 ⊢
          exact h2
      · rw [if_pos (show cmpNat p2 q2 ≠ 0 from f1)] at h1
        by_cases f2 : cmpNat q2 r2 = 0
        · have m2 : q2 = r2 := (cmpNat_eq_zero _ _).mp f2
          subst m2
          rw [if_pos (show cmpNat p2 q2 ≠ 0 from f1)]
          exact h1
        · rw [if_pos (show cmpNat q2 r2 ≠ 0 from f2)] at h2
          rw [cmpNat_le_zero] at h1 h2
          by_cases f3 : cmpNat p2 r2 = 0
          · have : p2 = r2 := (cmpNat_eq_zero _ _).mp f3
            have hq : p2 = q2 := by omega
            exact absurd ((cmpNat_eq_zero _ _).mpr hq) f1
          · rw [if_pos (show cmpNat p2 r2 ≠ 0 from f3)]
            rw [cmpNat_le_zero]
            omega
    · rw [if_pos (show cmpNat p1 r1 ≠ 0 from e2)] at h2 ⊢
      exact h2
  · rw [if_pos (show cmpNat p1 q1 ≠ 0 from e1)] at h1
    by_cases e2 : cmpNat q1 r1 = 0
    · have k2 : q1 = r1 := (cmpNat_eq_zero _ _).mp e2
      subst k2
      rw [if_pos (show cmpNat p1 q1 ≠ 0 from e1)]
      exact h1
    · rw [if_pos (show cmpNat q1 r1 ≠ 0 from e2)] at h2
      rw [cmpNat_le_zero] at h1 h2
      by_cases e3 : cmpNat p1 r1 = 0
      · have : p1 = r1 := (cmpNat_eq_zero _ _).mp e3
        have hq : p1 = q1 := by omega
        exact absurd ((cmpNat_eq_zero _ _).mpr hq) e1
      · rw [if_pos (show cmpNat p1 r1 ≠ 0 from e3)]
        rw [cmpNat_le_zero]
        omega

theorem writeCmp_eq_lex (a b : Taxon) :
    writeCmp a b = cmpLex4 (sortKey a) (sortKey b) := by
  have hlex : cmpLex4 (sortKey a) (sortKey b) =
      (if cmpNat a.Rank b.Rank ≠ 0 then cmpNat a.Rank b.Rank
       else if cmpNat (statusKey a.Status) (statusKey b.Status) ≠ 0 then
         cmpNat (statusKey a.Status) (statusKey b.Status)
       else if cmpStr a.Name b.Name ≠ 0 then cmpStr a.Name b.Name
       else cmpInt a.ID b.ID) := rfl
  rw [hlex]
  unfold writeCmp
  by_cases hr : a.Rank = b.Rank
  case pos =>
    rw [if_neg (show ¬ a.Rank ≠ b.Rank from fun hc => hc hr)]
    rw [if_neg (show ¬ cmpNat a.Rank b.Rank ≠ 0 by
      rw [(cmpNat_eq_zero _ _).mpr hr]; simp)]
    by_cases hs : a.Status = b.Status
    case pos =>
      rw [if_neg (show ¬ (a.Status ≠ b.Status ∧ a.Status = "accepted") from
        fun hc => hc.1 hs)]
      rw [if_neg (show ¬ (a.Status ≠ b.Status ∧ b.Status = "accepted") from
        fun hc => hc.1 hs)]
      rw [if_neg (show ¬ cmpNat (statusKey a.Status) (statusKey b.Status) ≠ 0 by
        rw [hs, (cmpNat_eq_zero _ _).mpr rfl]; simp)]
    case neg =>
      by_cases ha : a.Status = "accepted"
      case pos =>
        have hb : b.Status ≠ "accepted" := fun hc => hs (ha.trans hc.symm)
        rw [if_pos (show a.Status ≠ b.Status ∧ a.Status = "accepted" from ⟨hs, ha⟩)]
        rw [if_pos (show cmpNat (statusKey a.Status) (statusKey b.Status) ≠ 0 by
          unfold statusKey; rw [if_pos ha, if_neg hb]; decide)]
        unfold statusKey
        rw [if_pos ha, if_neg hb]
        decide
      case neg =>
        by_cases hb : b.Status = "accepted"
        case pos =>
          rw [if_neg (show ¬ (a.Status ≠ b.Status ∧ a.Status = "accepted") from
            fun hc => ha hc.2)]
          rw [if_pos (show a.Status ≠ b.Status ∧ b.Status = "accepted" from ⟨hs, hb⟩)]
          rw [if_pos (show cmpNat (statusKey a.Status) (statusKey b.Status) ≠ 0 by
            unfold statusKey; rw [if_neg ha, if_pos hb]; decide)]
          unfold statusKey
          rw [if_neg ha, if_pos hb]
          decide
        case neg =>
          rw [if_neg (show ¬ (a.Status ≠ b.Status ∧ a.Status = "accepted") from
            fun hc => ha hc.2)]
          rw [if_neg (show ¬ (a.Status ≠ b.Status ∧ b.Status = "accepted") from
            fun hc => hb hc.2)]
          rw [if_neg (show ¬ cmpNat (statusKey a.Status) (statusKey b.Status) ≠ 0 by
            unfold statusKey; rw [if_neg ha, if_neg hb]; decide)]
  case neg =>
    rw [if_pos (show a.Rank ≠ b.Rank from hr)]
    rw [if_pos (show cmpNat a.Rank b.Rank ≠ 0 from
      fun hc => hr ((cmpNat_eq_zero _ _).mp hc))]
    by_cases h0 : a.Rank = Unranked
    case pos =>
      rw [if_pos h0]
      unfold Unranked at h0
      have hbp : 0 < b.Rank := by
        rcases Nat.eq_zero_or_pos b.Rank with hz | hp
        · exact absurd (h0.trans hz.symm) hr
        · exact hp
      unfold cmpNat
      rw [if_pos (show a.Rank < b.Rank by rw [h0]; exact hbp)]
    case neg =>
      rw [if_neg h0]
      unfold Unranked at h0
      by_cases h0b : b.Rank = Unranked
      case pos =>
        rw [if_pos h0b]
        unfold Unranked at h0b
        unfold cmpNat
        rw [if_neg (show ¬ a.Rank < b.Rank by rw [h0b]; exact Nat.not_lt_zero _),
          if_neg (show ¬ a.Rank = b.Rank from hr)]
      case neg =>
        rw [if_neg h0b]

theorem writeLE_total (a b : Int × Taxon) : writeLE a b ∨ writeLE b a := by
  unfold writeLE
  rw [writeCmp_eq_lex, writeCmp_eq_lex]
  exact cmpLex4_total _ _

theorem writeLE_trans (a b c : Int × Taxon) (h1 : writeLE a b)
    (h2 : writeLE b c) : writeLE a c := by
  unfold writeLE at h1 h2 ⊢
  rw [writeCmp_eq_lex] at h1 h2 ⊢
  exact cmpLex4_trans _ _ _ h1 h2

instance : IsTotal (Int × Taxon) writeLE := ⟨writeLE_total⟩

instance : IsTrans (Int × Taxon) writeLE := ⟨fun a b c => writeLE_trans a b c⟩

theorem writeLE_antisymm_id (a b : Int × Taxon) (h1 : writeLE a b)
    (h2 : writeLE b a) : a.2.ID = b.2.ID := by
  unfold writeLE at h1 h2
  rw [writeCmp_eq_lex] at h1 h2
  rw [cmpLex4_swap] at h2
  exact cmpLex4_eq_zero_id (sortKey a.2) (sortKey b.2) (by omega)

/-! ## Claim C7: idempotence of AddFromGBIF -/

theorem lookup_setEntry_isSome {kt bt : Type} [BEq kt] [LawfulBEq kt]
    (m : List (kt × bt)) (k k2 : kt) (v : bt)
    (h : (m.lookup k).isSome = true) :
    ((setEntry m k2 v).lookup k).isSome = true := by
  by_cases he : k = k2
  · subst he
    rw [lookup_setEntry_self]
    rfl
  · rw [lookup_setEntry_ne m k2 k v he]
    exact h

theorem addSpecies_ids_mono (tx : Taxonomy) (sp : Species) (k : Int)
    (h : (tx.ids.lookup k).isSome = true) :
    ((AddSpecies tx sp).ids.lookup k).isSome = true := by
  cases g1 : (tx.ids.lookup sp.NubKey).isSome with
  | true =>
    rw [AddSpecies_guard tx sp g1]
    exact h
  | false =>
    by_cases g2 : resolvedName sp = ""
    · rw [AddSpecies_emptyName tx sp g2]
      exact h
    · by_cases g3 : resolvedID sp = 0
      · rw [AddSpecies_zeroID tx sp g3]
        exact h
      · cases g4 : (tx.ids.lookup (resolveParentKey sp)).isSome with
        | true =>
          rw [AddSpecies_linked tx sp g1 g2 g3 g4]
          exact lookup_setEntry_isSome tx.ids k (resolvedID sp) _ h
        | false =>
          rw [AddSpecies_rooted tx sp g1 g2 g3 g4]
          exact lookup_setEntry_isSome tx.ids k (resolvedID sp) _ h

theorem foldl_addSpecies_ids_mono (ls : List Species) :
    ∀ (tx : Taxonomy) (k : Int), (tx.ids.lookup k).isSome = true →
      ((ls.foldl AddSpecies tx).ids.lookup k).isSome = true := by
  induction ls with
  | nil => intro tx k h; exact h
  | cons sp rest ih =>
    intro tx k h
    rw [List.foldl_cons]
    exact ih (AddSpecies tx sp) k (addSpecies_ids_mono tx sp k h)

theorem addSpecies_skip (tx : Taxonomy) (sp : Species)
    (h : (tx.ids.lookup sp.NubKey).isSome = true ∨ resolvedName sp = "" ∨
      resolvedID sp = 0) : AddSpecies tx sp = tx := by
  rcases h with h | h | h
  · exact AddSpecies_guard tx sp h
  · exact AddSpecies_emptyName tx sp h
  · exact AddSpecies_zeroID tx sp h

theorem foldl_addSpecies_fix (tx : Taxonomy) :
    ∀ (ls : List Species), (∀ sp ∈ ls, AddSpecies tx sp = tx) →
      ls.foldl AddSpecies tx = tx := by
  intro ls
  induction ls with
  | nil => intro _; rfl
  | cons sp rest ih =>
    intro h
    rw [List.foldl_cons, h sp (List.mem_cons_self sp rest)]
    exact ih (fun q hq => h q (List.mem_cons_of_mem sp hq))

theorem addSpecies_post (tx : Taxonomy) (sp : Species) :
    ((AddSpecies tx sp).ids.lookup (resolvedID sp)).isSome = true ∨
    resolvedName sp = "" ∨ resolvedID sp = 0 ∨
    ((AddSpecies tx sp).ids.lookup sp.NubKey).isSome = true := by
  cases g1 : (tx.ids.lookup sp.NubKey).isSome with
  | true =>
    right; right; right
    rw [AddSpecies_guard tx sp g1]
    exact g1
  | false =>
    by_cases g2 : resolvedName sp = ""
    · right; left; exact g2
    · by_cases g3 : resolvedID sp = 0
      · right; right; left; exact g3
      · left
        cases g4 : (tx.ids.lookup (resolveParentKey sp)).isSome with
        | true =>
          rw [AddSpecies_linked tx sp g1 g2 g3 g4]
          show ((setEntry tx.ids (resolvedID sp)
            (mkData sp (resolveParentKey sp))).lookup (resolvedID sp)).isSome = true
          rw [lookup_setEntry_self]
          rfl
        | false =>
          rw [AddSpecies_rooted tx sp g1 g2 g3 g4]
          show ((setEntry tx.ids (resolvedID sp)
            (mkData sp 0)).lookup (resolvedID sp)).isSome = true
          rw [lookup_setEntry_self]
          rfl

theorem foldl_addSpecies_post (ls : List Species) :
    ∀ (tx : Taxonomy) (sp : Species), sp ∈ ls →
      ((ls.foldl AddSpecies tx).ids.lookup (resolvedID sp)).isSome = true ∨
      resolvedName sp = "" ∨ resolvedID sp = 0 ∨
      ((ls.foldl AddSpecies tx).ids.lookup sp.NubKey).isSome = true := by
  induction ls with
  | nil => intro tx sp h; exact absurd h (List.not_mem_nil sp)
  | cons q rest ih =>
    intro tx sp h
    rw [List.foldl_cons]
    rcases List.mem_cons.mp h with he | hm
    · subst he
      rcases addSpecies_post tx sp with h1 | h1 | h1 | h1
      · left
        exact foldl_addSpecies_ids_mono rest (AddSpecies tx sp) _ h1
      · right; left; exact h1
      · right; right; left; exact h1
      · right; right; right
        exact foldl_addSpecies_ids_mono rest (AddSpecies tx sp) _ h1
    · exact ih (AddSpecies tx q) sp hm

theorem gather_stable (env : GEnv) (maxRank : Rank) :
    ∀ (fuel : Nat) (tx tx2 : Taxonomy) (id : Int) (ls : List Species),
      gather env fuel tx id maxRank = some (.ok ls) →
      (∀ k, (tx.ids.lookup k).isSome = true → (tx2.ids.lookup k).isSome = true) →
      ∃ ls2, gather env fuel tx2 id maxRank = some (.ok ls2) ∧
        ∀ sp ∈ ls2, sp ∈ ls ∧ ∃ i, i ≠ 0 ∧ env.speciesID i = some sp ∧
          tx2.ids.lookup i = none := by
  intro fuel
  induction fuel with
  | zero =>
    intro tx tx2 id ls h _
    exact absurd h (by simp [gather])
  | succ n ih =>
    intro tx tx2 id ls h hmono
    by_cases h0 : id = 0
    · refine ⟨[], ?_, fun sp hsp => absurd hsp (List.not_mem_nil sp)⟩
      show gather env (n + 1) tx2 id maxRank = some (.ok [])
      unfold gather
      rw [if_pos h0]
    · cases g2 : (tx2.ids.lookup id).isSome with
      | true =>
        refine ⟨[], ?_, fun sp hsp => absurd hsp (List.not_mem_nil sp)⟩
        show gather env (n + 1) tx2 id maxRank = some (.ok [])
        unfold gather
        rw [if_neg h0, if_pos g2]
      | false =>
        have g1 : (tx.ids.lookup id).isSome = false := by
          cases hx : (tx.ids.lookup id).isSome with
          | false => rfl
          | true =>
            have hy := hmono id hx
            rw [g2] at hy
            exact hy.symm
        have hnone2 : tx2.ids.lookup id = none :=
          Option.not_isSome_iff_eq_none.mp (by rw [g2]; exact Bool.false_ne_true)
        unfold gather at h
        rw [if_neg h0, if_neg (by rw [g1]; exact Bool.false_ne_true)] at h
        cases hsp : env.speciesID id with
        | none =>
          rw [hsp] at h
          replace h : (some (Except.error ()) :
            Option (Except Unit (List Species))) = some (.ok ls) := h
          simp at h
        | some sp =>
          rw [hsp] at h
          by_cases hacc : strLower sp.TaxonomicStatus = "accepted" ∧
            GetRank sp.Rank ≠ Unranked ∧ GetRank sp.Rank ≤ maxRank
          · replace h : (if strLower sp.TaxonomicStatus = "accepted" ∧
                GetRank sp.Rank ≠ Unranked ∧ GetRank sp.Rank ≤ maxRank then
                some (Except.ok [sp])
              else gatherCont (gather env n tx (resolveParentKey sp) maxRank) sp) =
                some (.ok ls) := h
            rw [if_pos hacc] at h
            replace h : ([sp] : List Species) = ls := by
              injection h with h
              injection h with h
            refine ⟨[sp], ?_, ?_⟩
            · show gather env (n + 1) tx2 id maxRank = some (.ok [sp])
              unfold gather
              rw [if_neg h0, if_neg (by rw [g2]; exact Bool.false_ne_true), hsp]
              show (if strLower sp.TaxonomicStatus = "accepted" ∧
                  GetRank sp.Rank ≠ Unranked ∧ GetRank sp.Rank ≤ maxRank then
                  some (Except.ok [sp])
                else gatherCont (gather env n tx2 (resolveParentKey sp) maxRank) sp) =
                  some (.ok [sp])
              rw [if_pos hacc]
            · intro q hq
              rw [List.mem_singleton] at hq
              subst hq
              exact ⟨(by rw [← h]; exact List.mem_singleton.mpr rfl),
                id, h0, hsp, hnone2⟩
          · replace h : (if strLower sp.TaxonomicStatus = "accepted" ∧
                GetRank sp.Rank ≠ Unranked ∧ GetRank sp.Rank ≤ maxRank then
                some (Except.ok [sp])
              else gatherCont (gather env n tx (resolveParentKey sp) maxRank) sp) =
                some (.ok ls) := h
            rw [if_neg hacc] at h
            cases hrec : gather env n tx (resolveParentKey sp) maxRank with
            | none =>
              rw [hrec] at h
              replace h : (none : Option (Except Unit (List Species))) =
                some (.ok ls) := h
              simp at h
            | some r =>
              cases r with
              | error e =>
                rw [hrec] at h
                replace h : (some (Except.error e) :
                  Option (Except Unit (List Species))) = some (.ok ls) := h
                simp at h
              | ok l =>
                rw [hrec] at h
                replace h : (some (Except.ok (l ++ [sp])) :
                  Option (Except Unit (List Species))) = some (.ok ls) := h
                replace h : l ++ [sp] = ls := by
                  injection h with h
                  injection h with h
                obtain ⟨l2, hg2, hprop⟩ :=
                  ih tx tx2 (resolveParentKey sp) l hrec hmono
                refine ⟨l2 ++ [sp], ?_, ?_⟩
                · show gather env (n + 1) tx2 id maxRank = some (.ok (l2 ++ [sp]))
                  unfold gather
                  rw [if_neg h0, if_neg (by rw [g2]; exact Bool.false_ne_true), hsp]
                  show (if strLower sp.TaxonomicStatus = "accepted" ∧
                      GetRank sp.Rank ≠ Unranked ∧ GetRank sp.Rank ≤ maxRank then
                      some (Except.ok [sp])
                    else gatherCont (gather env n tx2 (resolveParentKey sp) maxRank) sp) =
                      some (.ok (l2 ++ [sp]))
                  rw [if_neg hacc, hg2]
                  rfl
                · intro q hq
                  rcases List.mem_append.mp hq with hq2 | hq2
                  · obtain ⟨hmem, w⟩ := hprop q hq2
                    exact ⟨by rw [← h]; exact List.mem_append_left [sp] hmem, w⟩
                  · rw [List.mem_singleton] at hq2
                    subst hq2
                    refine ⟨?_, id, h0, hsp, hnone2⟩
                    rw [← h]
                    exact List.mem_append_right l (List.mem_singleton.mpr rfl)

/-- C7: AddFromGBIF is idempotent: when a first call on a store completes
without a remote failure, a second call with the same identifier and rank
ceiling on the resulting store completes and returns that store exactly
unchanged, the second walk stopping at the already-known-identifier check
(records it still fetches are exactly ones the first call declined to
insert, and they are declined again). The environment hypothesis states
the service contract AddFromGBIF relies on: a record fetched by
identifier i carries i as its Key, and its NubKey is i or zero. -/
theorem addFromGBIF_idempotent (fuel : Nat) (env : GEnv) (tx tx2 : Taxonomy)
    (id : Int) (maxRank : Rank)
    (hsane : ∀ i sp, env.speciesID i = some sp →
      sp.Key = i ∧ (sp.NubKey = i ∨ sp.NubKey = 0))
    (h1 : AddFromGBIF fuel env tx id maxRank = some (tx2, none)) :
    AddFromGBIF fuel env tx2 id maxRank = some (tx2, none) := by
  unfold AddFromGBIF at h1
  cases hg : gather env fuel tx id maxRank with
  | none =>
    rw [hg] at h1
    replace h1 : (none : Option (Taxonomy × Option AddErr)) = some (tx2, none) := h1
    simp at h1
  | some r =>
    cases r with
    | error e =>
      rw [hg] at h1
      replace h1 : (some (tx, some AddErr.remote) :
        Option (Taxonomy × Option AddErr)) = some (tx2, none) := h1
      simp at h1
    | ok ls =>
      rw [hg] at h1
      replace h1 : (some (ls.foldl AddSpecies tx, (none : Option AddErr)) :
        Option (Taxonomy × Option AddErr)) = some (tx2, none) := h1
      injection h1 with h1
      injection h1 with htx2 _
      obtain ⟨ls2, hg2, hprop⟩ := gather_stable env maxRank fuel tx tx2 id ls hg
        (fun k hk => by rw [← htx2]; exact foldl_addSpecies_ids_mono ls tx k hk)
      unfold AddFromGBIF
      rw [hg2]
      show some (ls2.foldl AddSpecies tx2, (none : Option AddErr)) = some (tx2, none)
      have hfold : ls2.foldl AddSpecies tx2 = tx2 := by
        apply foldl_addSpecies_fix tx2 ls2
        intro sp hsp
        obtain ⟨hmem, i, hi0, horacle, hnone⟩ := hprop sp hsp
        have hsa := hsane i sp horacle
        have hridsp : resolvedID sp = i := by
          unfold resolvedID
          rcases hsa.2 with hk | hk
          · rw [if_neg (by rw [hk]; exact hi0), hk]
          · rw [if_pos hk, hsa.1]
        rcases foldl_addSpecies_post ls tx sp hmem with hc | hc | hc | hc
        · rw [htx2, hridsp, hnone] at hc
          simp at hc
        · exact addSpecies_skip tx2 sp (Or.inr (Or.inl hc))
        · rw [hridsp] at hc
          exact absurd hc hi0
        · rw [htx2] at hc
          exact addSpecies_skip tx2 sp (Or.inl hc)
      rw [hfold]

theorem addFromGBIF_idempotent_witness :
    AddFromGBIF 5 c7Env NewTaxonomy 7 7 = some (c7Tx, none) ∧
    AddFromGBIF 5 c7Env c7Tx 7 7 = some (c7Tx, none) := by
  constructor
  · decide
  · apply addFromGBIF_idempotent 5 c7Env NewTaxonomy c7Tx 7 7
    · intro i sp h
      replace h : (if i = 5 then some c7Sp5
        else if i = 7 then some c7Sp7 else none) = some sp := h
      by_cases h5 : i = 5
      · rw [if_pos h5] at h
        injection h with h
        subst h
        subst h5
        exact ⟨rfl, Or.inl rfl⟩
      · rw [if_neg h5] at h
        by_cases h7 : i = 7
        · rw [if_pos h7] at h
          injection h with h
          subst h
          subst h7
          exact ⟨rfl, Or.inl rfl⟩
        · rw [if_neg h7] at h
          exact absurd h (by simp)
    · decide

/-! ## Claim C8: the bidirectional edge invariant -/

theorem isSome_of_setEntry {kt bt : Type} [BEq kt] [LawfulBEq kt]
    (m : List (kt × bt)) (k k2 : kt) (v : bt)
    (h : ((setEntry m k v).lookup k2).isSome = true) :
    k2 = k ∨ (m.lookup k2).isSome = true := by
  by_cases he : k2 = k
  · exact Or.inl he
  · rw [lookup_setEntry_ne m k k2 v he] at h
    exact Or.inr h

theorem inv_new : Inv NewTaxonomy := by
  constructor
  · intro k t h
    exact absurd h (by simp [NewTaxonomy])
  · intro c t h
    exact absurd h (by simp [NewTaxonomy])
  · intro p c h
    exact absurd h (by simp [NewTaxonomy, childrenOf])
  · intro c t h
    exact absurd h (by simp [NewTaxonomy])
  · intro p h
    exact absurd h (by simp [NewTaxonomy])

theorem inv_readRowInsert (f : List (String × Nat)) (tx : Taxonomy)
    (row : List String) (id parent : Int) (tx2 : Taxonomy)
    (hinv : Inv tx) (hfresh : tx.ids.lookup id = none)
    (h : readRowInsert f tx row id parent = .ok tx2) : Inv tx2 := by
  unfold readRowInsert at h
  by_cases hp : parent ≠ 0
  · rw [if_pos hp] at h
    cases hps : ((setEntry tx.ids id (rowData f row id parent)).lookup parent).isSome with
    | false =>
      rw [if_neg (by rw [hps]; exact Bool.false_ne_true)] at h
      exact absurd h (by simp)
    | true =>
      rw [if_pos hps] at h
      injection h with h
      subst h
      constructor
      · intro k t hk
        replace hk : (setEntry tx.ids id (rowData f row id parent)).lookup k =
          some t := hk
        by_cases hki : k = id
        · subst hki
          rw [lookup_setEntry_self] at hk
          injection hk with hk
          rw [← hk]
          rfl
        · rw [lookup_setEntry_ne tx.ids id k _ hki] at hk
          exact hinv.keymatch k t hk
      · intro c t hc hne hpres
        replace hpres : ((setEntry tx.ids id (rowData f row id parent)).lookup
          t.Parent).isSome = true := hpres
        replace hc : (setEntry tx.ids id (rowData f row id parent)).lookup c =
          some t := hc
        show c ∈ ((addChild tx.children parent id).lookup t.Parent).getD []
        by_cases hci : c = id
        · subst hci
          rw [lookup_setEntry_self] at hc
          injection hc with hc
          rw [← hc]
          show c ∈ ((addChild tx.children parent c).lookup parent).getD []
          unfold addChild
          rw [lookup_setEntry_self]
          show c ∈ insertKey ((tx.children.lookup parent).getD []) c
          exact (mem_insertKey _ c c).mpr (Or.inl rfl)
        · rw [lookup_setEntry_ne tx.ids id c _ hci] at hc
          by_cases hpi : t.Parent = id
          · have hpp2 := hinv.parentPresent c t hc hne
            rw [hpi, hfresh] at hpp2
            exact absurd hpp2 (by simp)
          · rcases isSome_of_setEntry tx.ids id t.Parent _ hpres with he | hold
            · exact absurd he hpi
            · have hmem := hinv.edge c t hc hne hold
              by_cases hpp : t.Parent = parent
              · rw [hpp] at hmem ⊢
                unfold addChild
                rw [lookup_setEntry_self]
                show c ∈ insertKey ((tx.children.lookup parent).getD []) id
                exact (mem_insertKey _ id c).mpr (Or.inr hmem)
              · unfold addChild
                rw [lookup_setEntry_ne tx.children parent t.Parent _ hpp]
                exact hmem
      · intro p c hc
        replace hc : c ∈ ((addChild tx.children parent id).lookup p).getD [] := hc
        show ∃ t, (setEntry tx.ids id (rowData f row id parent)).lookup c =
          some t ∧ t.Parent = p
        by_cases hpp : p = parent
        · subst hpp
          unfold addChild at hc
          rw [lookup_setEntry_self] at hc
          replace hc : c ∈ insertKey ((tx.children.lookup p).getD []) id := hc
          rcases (mem_insertKey _ id c).mp hc with he | hold
          · exact ⟨rowData f row id p,
              by rw [he]; rw [lookup_setEntry_self], rfl⟩
          · obtain ⟨t, hlc, hpar⟩ := hinv.sound p c hold
            have hci : c ≠ id := by
              intro he
              rw [he, hfresh] at hlc
              exact absurd hlc (by simp)
            exact ⟨t, by rw [lookup_setEntry_ne tx.ids id c _ hci]; exact hlc, hpar⟩
        · unfold addChild at hc
          rw [lookup_setEntry_ne tx.children parent p _ hpp] at hc
          obtain ⟨t, hlc, hpar⟩ := hinv.sound p c hc
          have hci : c ≠ id := by
            intro he
            rw [he, hfresh] at hlc
            exact absurd hlc (by simp)
          exact ⟨t, by rw [lookup_setEntry_ne tx.ids id c _ hci]; exact hlc, hpar⟩
      · intro c t hc hne
        replace hc : (setEntry tx.ids id (rowData f row id parent)).lookup c =
          some t := hc
        show ((setEntry tx.ids id (rowData f row id parent)).lookup
          t.Parent).isSome = true
        by_cases hci : c = id
        · subst hci
          rw [lookup_setEntry_self] at hc
          injection hc with hc
          rw [← hc]
          exact hps
        · rw [lookup_setEntry_ne tx.ids id c _ hci] at hc
          exact lookup_setEntry_isSome tx.ids t.Parent id _
            (hinv.parentPresent c t hc hne)
      · intro p hcp
        replace hcp : ((addChild tx.children parent id).lookup p).isSome = true := hcp
        show ((setEntry tx.ids id (rowData f row id parent)).lookup p).isSome = true
        by_cases hpp : p = parent
        · subst hpp
          exact hps
        · unfold addChild at hcp
          rw [lookup_setEntry_ne tx.children parent p _ hpp] at hcp
          exact lookup_setEntry_isSome tx.ids p id _ (hinv.chKeys p hcp)
  · rw [if_neg hp] at h
    push_neg at hp
    subst hp
    injection h with h
    subst h
    constructor
    · intro k t hk
      replace hk : (setEntry tx.ids id (rowData f row id 0)).lookup k = some t := hk
      by_cases hki : k = id
      · subst hki
        rw [lookup_setEntry_self] at hk
        injection hk with hk
        rw [← hk]
        rfl
      · rw [lookup_setEntry_ne tx.ids id k _ hki] at hk
        exact hinv.keymatch k t hk
    · intro c t hc hne hpres
      replace hc : (setEntry tx.ids id (rowData f row id 0)).lookup c = some t := hc
      replace hpres : ((setEntry tx.ids id (rowData f row id 0)).lookup
        t.Parent).isSome = true := hpres
      by_cases hci : c = id
      · subst hci
        rw [lookup_setEntry_self] at hc
        injection hc with hc
        rw [← hc] at hne
        exact absurd rfl hne
      · rw [lookup_setEntry_ne tx.ids id c _ hci] at hc
        by_cases hpi : t.Parent = id
        · exact absurd (hinv.parentPresent c t hc hne)
            (by rw [hpi, hfresh]; simp)
        · rcases isSome_of_setEntry tx.ids id t.Parent _ hpres with he | hold
          · exact absurd he hpi
          · exact hinv.edge c t hc hne hold
    · intro p c hc
      replace hc : c ∈ childrenOf tx p := hc
      obtain ⟨t, hlc, hpar⟩ := hinv.sound p c hc
      have hci : c ≠ id := by
        intro he
        rw [he, hfresh] at hlc
        exact absurd hlc (by simp)
      exact ⟨t, by
        show (setEntry tx.ids id (rowData f row id 0)).lookup c = some t
        rw [lookup_setEntry_ne tx.ids id c _ hci]; exact hlc, hpar⟩
    · intro c t hc hne
      replace hc : (setEntry tx.ids id (rowData f row id 0)).lookup c = some t := hc
      show ((setEntry tx.ids id (rowData f row id 0)).lookup t.Parent).isSome = true
      by_cases hci : c = id
      · subst hci
        rw [lookup_setEntry_self] at hc
        injection hc with hc
        rw [← hc] at hne
        exact absurd rfl hne
      · rw [lookup_setEntry_ne tx.ids id c _ hci] at hc
        exact lookup_setEntry_isSome tx.ids t.Parent id _
          (hinv.parentPresent c t hc hne)
    · intro p hcp
      replace hcp : (tx.children.lookup p).isSome = true := hcp
      show ((setEntry tx.ids id (rowData f row id 0)).lookup p).isSome = true
      exact lookup_setEntry_isSome tx.ids p id _ (hinv.chKeys p hcp)

theorem inv_readRow (f : List (String × Nat)) (tx : Taxonomy)
    (row : List String) (tx2 : Taxonomy) (hinv : Inv tx)
    (h : readRow f tx row = .ok tx2) : Inv tx2 := by
  unfold readRow at h
  by_cases hn : Canon (fieldAt row (colOf f "name")) = ""
  · rw [if_pos hn] at h
    injection h with h
    subst h
    exact hinv
  · rw [if_neg hn] at h
    cases hid : goParseInt (fieldAt row (colOf f "taxonkey")) with
    | none =>
      rw [hid] at h
      exact absurd h (by simp)
    | some id =>
      rw [hid] at h
      replace h : readRowKnown f tx row id = .ok tx2 := h
      unfold readRowKnown at h
      cases hk : (tx.ids.lookup id).isSome with
      | true =>
        rw [if_pos hk] at h
        injection h with h
        subst h
        exact hinv
      | false =>
        rw [if_neg (by rw [hk]; exact Bool.false_ne_true)] at h
        cases hpar : (if fieldAt row (colOf f "parent") = "" then some 0
            else goParseInt (fieldAt row (colOf f "parent"))) with
        | none =>
          rw [hpar] at h
          exact absurd h (by simp)
        | some parent =>
          rw [hpar] at h
          exact inv_readRowInsert f tx row id parent tx2 hinv
            (Option.not_isSome_iff_eq_none.mp (by rw [hk]; exact Bool.false_ne_true))
            h

theorem inv_readRows (n : Nat) (f : List (String × Nat)) :
    ∀ (rows : List (List String)) (tx tx2 : Taxonomy), Inv tx →
      readRows n f tx rows = .ok tx2 → Inv tx2 := by
  intro rows
  induction rows with
  | nil =>
    intro tx tx2 hinv h
    replace h : ReadResult.ok tx = .ok tx2 := h
    injection h with h
    subst h
    exact hinv
  | cons row rest ih =>
    intro tx tx2 hinv h
    replace h : (if row.length ≠ n then ReadResult.err
      else match readRow f tx row with
        | .ok tx3 => readRows n f tx3 rest
        | .err => ReadResult.err
        | .panic => ReadResult.panic) = .ok tx2 := h
    by_cases hl : row.length ≠ n
    · rw [if_pos hl] at h
      exact absurd h (by simp)
    · rw [if_neg hl] at h
      cases hr : readRow f tx row with
      | ok tx3 =>
        rw [hr] at h
        exact ih tx3 tx2 (inv_readRow f tx row tx3 hinv hr) h
      | err =>
        rw [hr] at h
        exact absurd h (by simp)
      | panic =>
        rw [hr] at h
        exact absurd h (by simp)

theorem inv_read (tbl : List (List String)) (tx : Taxonomy)
    (h : read tbl = .ok tx) : Inv tx := by
  cases tbl with
  | nil => exact absurd h (by simp [read])
  | cons header rows =>
    replace h : (if headerCols.all
          (fun c => ((fieldsMap header).lookup (strLower c)).isSome) = true then
        readRows header.length (fieldsMap header) NewTaxonomy rows
      else ReadResult.err) = ReadResult.ok tx := h
    by_cases hh : headerCols.all
      (fun c => ((fieldsMap header).lookup (strLower c)).isSome) = true
    · rw [if_pos hh] at h
      exact inv_readRows header.length (fieldsMap header) rows
        NewTaxonomy tx inv_new h
    · rw [if_neg hh] at h
      exact absurd h (by simp)

theorem inv_addSpecies (tx : Taxonomy) (sp : Species) (hinv : Inv tx)
    (hnub : sp.NubKey ≠ 0) : Inv (AddSpecies tx sp) := by
  cases g1 : (tx.ids.lookup sp.NubKey).isSome with
  | true =>
    rw [AddSpecies_guard tx sp g1]
    exact hinv
  | false =>
    by_cases g2 : resolvedName sp = ""
    · rw [AddSpecies_emptyName tx sp g2]
      exact hinv
    · by_cases g3 : resolvedID sp = 0
      · rw [AddSpecies_zeroID tx sp g3]
        exact hinv
      · have hrid : resolvedID sp = sp.NubKey := by
          unfold resolvedID
          rw [if_neg hnub]
        have hfresh : tx.ids.lookup (resolvedID sp) = none := by
          rw [hrid]
          exact Option.not_isSome_iff_eq_none.mp
            (by rw [g1]; exact Bool.false_ne_true)
        cases g4 : (tx.ids.lookup (resolveParentKey sp)).isSome with
        | true =>
          rw [AddSpecies_linked tx sp g1 g2 g3 g4]
          have hqn : resolveParentKey sp ≠ resolvedID sp := by
            intro he
            rw [he, hfresh] at g4
            simp at g4
          constructor
          · intro k t hk
            replace hk : (setEntry tx.ids (resolvedID sp)
              (mkData sp (resolveParentKey sp))).lookup k = some t := hk
            by_cases hki : k = resolvedID sp
            · subst hki
              rw [lookup_setEntry_self] at hk
              injection hk with hk
              rw [← hk]
              rfl
            · rw [lookup_setEntry_ne tx.ids _ k _ hki] at hk
              exact hinv.keymatch k t hk
          · intro c t hc hne hpres
            replace hc : (setEntry tx.ids (resolvedID sp)
              (mkData sp (resolveParentKey sp))).lookup c = some t := hc
            replace hpres : ((setEntry tx.ids (resolvedID sp)
              (mkData sp (resolveParentKey sp))).lookup t.Parent).isSome = true := hpres
            show c ∈ ((addChild (removeEntry tx.children (resolvedID sp))
              (resolveParentKey sp) (resolvedID sp)).lookup t.Parent).getD []
            by_cases hci : c = resolvedID sp
            · rw [hci] at hc ⊢
              rw [lookup_setEntry_self] at hc
              injection hc with hc
              rw [← hc]
              show resolvedID sp ∈ ((addChild (removeEntry tx.children (resolvedID sp))
                (resolveParentKey sp) (resolvedID sp)).lookup
                  (resolveParentKey sp)).getD []
              unfold addChild
              rw [lookup_setEntry_self]
              show resolvedID sp ∈ insertKey
                (((removeEntry tx.children (resolvedID sp)).lookup
                  (resolveParentKey sp)).getD []) (resolvedID sp)
              exact (mem_insertKey _ (resolvedID sp) (resolvedID sp)).mpr (Or.inl rfl)
            · rw [lookup_setEntry_ne tx.ids _ c _ hci] at hc
              by_cases hpi : t.Parent = resolvedID sp
              · have hpp2 := hinv.parentPresent c t hc hne
                rw [hpi, hfresh] at hpp2
                exact absurd hpp2 (by simp)
              · rcases isSome_of_setEntry tx.ids (resolvedID sp) t.Parent _ hpres
                  with he | hold
                · exact absurd he hpi
                · have hmem := hinv.edge c t hc hne hold
                  by_cases hpp : t.Parent = resolveParentKey sp
                  · rw [hpp] at hmem ⊢
                    unfold addChild
                    rw [lookup_setEntry_self]
                    show c ∈ insertKey (((removeEntry tx.children
                      (resolvedID sp)).lookup (resolveParentKey sp)).getD [])
                      (resolvedID sp)
                    rw [lookup_removeEntry_ne tx.children (resolvedID sp)
                      (resolveParentKey sp) hqn]
                    exact (mem_insertKey _ (resolvedID sp) c).mpr (Or.inr hmem)
                  · unfold addChild
                    rw [lookup_setEntry_ne _ _ t.Parent _ hpp,
                      lookup_removeEntry_ne tx.children (resolvedID sp) t.Parent hpi]
                    exact hmem
          · intro p c hc
            replace hc : c ∈ ((addChild (removeEntry tx.children (resolvedID sp))
              (resolveParentKey sp) (resolvedID sp)).lookup p).getD [] := hc
            show ∃ t, (setEntry tx.ids (resolvedID sp)
              (mkData sp (resolveParentKey sp))).lookup c = some t ∧ t.Parent = p
            by_cases hpp : p = resolveParentKey sp
            · rw [hpp] at hc ⊢
              unfold addChild at hc
              rw [lookup_setEntry_self] at hc
              replace hc : c ∈ insertKey
                (((removeEntry tx.children (resolvedID sp)).lookup
                  (resolveParentKey sp)).getD []) (resolvedID sp) := hc
              rw [lookup_removeEntry_ne tx.children (resolvedID sp)
                (resolveParentKey sp) hqn] at hc
              rcases (mem_insertKey _ (resolvedID sp) c).mp hc with he | hold
              · refine ⟨mkData sp (resolveParentKey sp), ?_, rfl⟩
                rw [he]
                rw [lookup_setEntry_self]
              · obtain ⟨t, hlc, hpar⟩ := hinv.sound (resolveParentKey sp) c hold
                have hci : c ≠ resolvedID sp := by
                  intro he
                  rw [he, hfresh] at hlc
                  exact absurd hlc (by simp)
                exact ⟨t, by rw [lookup_setEntry_ne tx.ids _ c _ hci]; exact hlc, hpar⟩
            · unfold addChild at hc
              rw [lookup_setEntry_ne _ _ p _ hpp] at hc
              by_cases hpn : p = resolvedID sp
              · rw [hpn, lookup_removeEntry_self] at hc
                exact absurd hc (by simp)
              · rw [lookup_removeEntry_ne tx.children _ p hpn] at hc
                obtain ⟨t, hlc, hpar⟩ := hinv.sound p c hc
                have hci : c ≠ resolvedID sp := by
                  intro he
                  rw [he, hfresh] at hlc
                  exact absurd hlc (by simp)
                exact ⟨t, by rw [lookup_setEntry_ne tx.ids _ c _ hci]; exact hlc, hpar⟩
          · intro c t hc hne
            replace hc : (setEntry tx.ids (resolvedID sp)
              (mkData sp (resolveParentKey sp))).lookup c = some t := hc
            show ((setEntry tx.ids (resolvedID sp)
              (mkData sp (resolveParentKey sp))).lookup t.Parent).isSome = true
            by_cases hci : c = resolvedID sp
            · subst hci
              rw [lookup_setEntry_self] at hc
              injection hc with hc
              rw [← hc]
              exact lookup_setEntry_isSome tx.ids (resolveParentKey sp) _ _ g4
            · rw [lookup_setEntry_ne tx.ids _ c _ hci] at hc
              exact lookup_setEntry_isSome tx.ids t.Parent _ _
                (hinv.parentPresent c t hc hne)
          · intro p hcp
            replace hcp : ((addChild (removeEntry tx.children (resolvedID sp))
              (resolveParentKey sp) (resolvedID sp)).lookup p).isSome = true := hcp
            show ((setEntry tx.ids (resolvedID sp)
              (mkData sp (resolveParentKey sp))).lookup p).isSome = true
            by_cases hpp : p = resolveParentKey sp
            · rw [hpp]
              exact lookup_setEntry_isSome tx.ids (resolveParentKey sp) _ _ g4
            · unfold addChild at hcp
              rw [lookup_setEntry_ne _ _ p _ hpp] at hcp
              by_cases hpn : p = resolvedID sp
              · rw [hpn, lookup_removeEntry_self] at hcp
                simp at hcp
              · rw [lookup_removeEntry_ne tx.children _ p hpn] at hcp
                exact lookup_setEntry_isSome tx.ids p _ _ (hinv.chKeys p hcp)
        | false =>
          rw [AddSpecies_rooted tx sp g1 g2 g3 g4]
          constructor
          · intro k t hk
            replace hk : (setEntry tx.ids (resolvedID sp)
              (mkData sp 0)).lookup k = some t := hk
            by_cases hki : k = resolvedID sp
            · subst hki
              rw [lookup_setEntry_self] at hk
              injection hk with hk
              rw [← hk]
              rfl
            · rw [lookup_setEntry_ne tx.ids _ k _ hki] at hk
              exact hinv.keymatch k t hk
          · intro c t hc hne hpres
            replace hc : (setEntry tx.ids (resolvedID sp)
              (mkData sp 0)).lookup c = some t := hc
            replace hpres : ((setEntry tx.ids (resolvedID sp)
              (mkData sp 0)).lookup t.Parent).isSome = true := hpres
            show c ∈ ((removeEntry tx.children (resolvedID sp)).lookup t.Parent).getD []
            by_cases hci : c = resolvedID sp
            · subst hci
              rw [lookup_setEntry_self] at hc
              injection hc with hc
              rw [← hc] at hne
              exact absurd rfl hne
            · rw [lookup_setEntry_ne tx.ids _ c _ hci] at hc
              by_cases hpi : t.Parent = resolvedID sp
              · have hpp2 := hinv.parentPresent c t hc hne
                rw [hpi, hfresh] at hpp2
                exact absurd hpp2 (by simp)
              · rcases isSome_of_setEntry tx.ids (resolvedID sp) t.Parent _ hpres
                  with he | hold
                · exact absurd he hpi
                · rw [lookup_removeEntry_ne tx.children _ t.Parent hpi]
                  exact hinv.edge c t hc hne hold
          · intro p c hc
            replace hc : c ∈ ((removeEntry tx.children
              (resolvedID sp)).lookup p).getD [] := hc
            show ∃ t, (setEntry tx.ids (resolvedID sp)
              (mkData sp 0)).lookup c = some t ∧ t.Parent = p
            by_cases hpn : p = resolvedID sp
            · rw [hpn, lookup_removeEntry_self] at hc
              exact absurd hc (by simp)
            · rw [lookup_removeEntry_ne tx.children _ p hpn] at hc
              obtain ⟨t, hlc, hpar⟩ := hinv.sound p c hc
              have hci : c ≠ resolvedID sp := by
                intro he
                rw [he, hfresh] at hlc
                exact absurd hlc (by simp)
              exact ⟨t, by rw [lookup_setEntry_ne tx.ids _ c _ hci]; exact hlc, hpar⟩
          · intro c t hc hne
            replace hc : (setEntry tx.ids (resolvedID sp)
              (mkData sp 0)).lookup c = some t := hc
            show ((setEntry tx.ids (resolvedID sp)
              (mkData sp 0)).lookup t.Parent).isSome = true
            by_cases hci : c = resolvedID sp
            · subst hci
              rw [lookup_setEntry_self] at hc
              injection hc with hc
              rw [← hc] at hne
              exact absurd rfl hne
            · rw [lookup_setEntry_ne tx.ids _ c _ hci] at hc
              exact lookup_setEntry_isSome tx.ids t.Parent _ _
                (hinv.parentPresent c t hc hne)
          · intro p hcp
            replace hcp : ((removeEntry tx.children
              (resolvedID sp)).lookup p).isSome = true := hcp
            show ((setEntry tx.ids (resolvedID sp)
              (mkData sp 0)).lookup p).isSome = true
            by_cases hpn : p = resolvedID sp
            · rw [hpn, lookup_removeEntry_self] at hcp
              simp at hcp
            · rw [lookup_removeEntry_ne tx.children _ p hpn] at hcp
              exact lookup_setEntry_isSome tx.ids p _ _ (hinv.chKeys p hcp)

theorem inv_foldAddSpecies (ls : List Species) :
    ∀ (tx : Taxonomy), Inv tx → (∀ sp ∈ ls, sp.NubKey ≠ 0) →
      Inv (ls.foldl AddSpecies tx) := by
  induction ls with
  | nil => intro tx hinv _; exact hinv
  | cons sp rest ih =>
    intro tx hinv hok
    rw [List.foldl_cons]
    exact ih (AddSpecies tx sp)
      (inv_addSpecies tx sp hinv (hok sp (List.mem_cons_self sp rest)))
      (fun q hq => hok q (List.mem_cons_of_mem sp hq))

theorem inv_addFromGBIF (fuel : Nat) (env : GEnv) (tx : Taxonomy) (id : Int)
    (maxRank : Rank) (tx2 : Taxonomy) (e : Option AddErr) (hinv : Inv tx)
    (henv : ∀ i sp, env.speciesID i = some sp → sp.NubKey ≠ 0)
    (h : AddFromGBIF fuel env tx id maxRank = some (tx2, e)) : Inv tx2 := by
  unfold AddFromGBIF at h
  cases hg : gather env fuel tx id maxRank with
  | none =>
    rw [hg] at h
    replace h : (none : Option (Taxonomy × Option AddErr)) = some (tx2, e) := h
    simp at h
  | some r =>
    cases r with
    | error e2 =>
      rw [hg] at h
      replace h : (some (tx, some AddErr.remote) :
        Option (Taxonomy × Option AddErr)) = some (tx2, e) := h
      injection h with h
      injection h with h1 h2
      rw [← h1]
      exact hinv
    | ok ls =>
      rw [hg] at h
      replace h : (some (ls.foldl AddSpecies tx, (none : Option AddErr)) :
        Option (Taxonomy × Option AddErr)) = some (tx2, e) := h
      injection h with h
      injection h with h1 h2
      rw [← h1]
      obtain ⟨ls2, hg2, hprop⟩ := gather_stable env maxRank fuel tx tx id ls hg
        (fun k hk => hk)
      rw [hg] at hg2
      replace hg2 : ls2 = ls := by
        injection hg2 with hg2
        injection hg2 with hg2
        exact hg2.symm
      subst hg2
      apply inv_foldAddSpecies ls2 tx hinv
      intro sp hsp
      obtain ⟨_, i, _, horacle, _⟩ := hprop sp hsp
      exact henv i sp horacle

theorem uniqueAccepted_mem :
    ∀ (ls : List Species) (acc : Option Species) (sp : Species),
      uniqueAccepted acc ls = some sp → sp ∈ ls ∨ acc = some sp := by
  intro ls
  induction ls with
  | nil =>
    intro acc sp h
    replace h : acc = some sp := h
    exact Or.inr h
  | cons a rest ih =>
    intro acc sp h
    by_cases ha : a.TaxonomicStatus = "ACCEPTED"
    · cases acc with
      | some b =>
        replace h : (if a.TaxonomicStatus = "ACCEPTED" then (none : Option Species)
          else uniqueAccepted (some b) rest) = some sp := h
        rw [if_pos ha] at h
        exact absurd h (by simp)
      | none =>
        replace h : (if a.TaxonomicStatus = "ACCEPTED" then
            uniqueAccepted (some a) rest
          else uniqueAccepted none rest) = some sp := h
        rw [if_pos ha] at h
        rcases ih (some a) sp h with hm | he
        · exact Or.inl (List.mem_cons_of_mem a hm)
        · injection he with he
          exact Or.inl (by rw [he]; exact List.mem_cons_self sp rest)
    · cases acc with
      | some b =>
        replace h : (if a.TaxonomicStatus = "ACCEPTED" then (none : Option Species)
          else uniqueAccepted (some b) rest) = some sp := h
        rw [if_neg ha] at h
        rcases ih (some b) sp h with hm | he
        · exact Or.inl (List.mem_cons_of_mem a hm)
        · exact Or.inr he
      | none =>
        replace h : (if a.TaxonomicStatus = "ACCEPTED" then
            uniqueAccepted (some a) rest
          else uniqueAccepted none rest) = some sp := h
        rw [if_neg ha] at h
        rcases ih none sp h with hm | he
        · exact Or.inl (List.mem_cons_of_mem a hm)
        · exact Or.inr he

theorem inv_addSelected (fuel : Nat) (env : GEnv) (tx : Taxonomy) (sp : Species)
    (maxRank : Rank) (tx2 : Taxonomy) (e : Option AddErr) (hinv : Inv tx)
    (henv : ∀ i q, env.speciesID i = some q → q.NubKey ≠ 0)
    (hnub : sp.NubKey ≠ 0)
    (h : addSelected fuel env tx sp maxRank = some (tx2, e)) : Inv tx2 := by
  replace h : (if strLower sp.TaxonomicStatus = "accepted" ∧
      GetRank sp.Rank ≠ Unranked ∧ GetRank sp.Rank ≤ maxRank then
      some (AddSpecies tx sp, none)
    else match AddFromGBIF fuel env tx (resolveParentKey sp) maxRank with
      | none => none
      | some (_, some e2) => some (tx, some e2)
      | some (tx3, none) => some (AddSpecies tx3 sp, none)) = some (tx2, e) := h
  by_cases hacc : strLower sp.TaxonomicStatus = "accepted" ∧
      GetRank sp.Rank ≠ Unranked ∧ GetRank sp.Rank ≤ maxRank
  · rw [if_pos hacc] at h
    injection h with h
    injection h with h1 h2
    rw [← h1]
    exact inv_addSpecies tx sp hinv hnub
  · rw [if_neg hacc] at h
    cases hg : AddFromGBIF fuel env tx (resolveParentKey sp) maxRank with
    | none =>
      rw [hg] at h
      exact absurd h (by simp)
    | some r =>
      obtain ⟨tx3, e3⟩ := r
      cases e3 with
      | none =>
        rw [hg] at h
        replace h : (some (AddSpecies tx3 sp, (none : Option AddErr)) :
          Option (Taxonomy × Option AddErr)) = some (tx2, e) := h
        injection h with h
        injection h with h1 h2
        rw [← h1]
        exact inv_addSpecies tx3 sp
          (inv_addFromGBIF fuel env tx (resolveParentKey sp) maxRank tx3 none
            hinv henv hg) hnub
      | some e2 =>
        rw [hg] at h
        replace h : (some (tx, some e2) :
          Option (Taxonomy × Option AddErr)) = some (tx2, e) := h
        injection h with h
        injection h with h1 h2
        rw [← h1]
        exact hinv

theorem inv_addNameList (fuel : Nat) (env : GEnv) (tx : Taxonomy) (name : String)
    (maxRank : Rank) (ls : List Species) (tx2 : Taxonomy) (e : Option AddErr)
    (hinv : Inv tx)
    (henv : ∀ i q, env.speciesID i = some q → q.NubKey ≠ 0)
    (hls : ∀ sp ∈ ls, sp.NubKey ≠ 0)
    (h : addNameList fuel env tx name maxRank ls = some (tx2, e)) : Inv tx2 := by
  cases ls with
  | nil =>
    replace h : (some (tx, (none : Option AddErr)) :
      Option (Taxonomy × Option AddErr)) = some (tx2, e) := h
    injection h with h
    injection h with h1 h2
    rw [← h1]
    exact hinv
  | cons sp₀ rest =>
    replace h : (if rest.length + 1 > 1 then
        match uniqueAccepted none (sp₀ :: rest) with
        | none => some (tx, some (.ambiguous name
            ((sp₀ :: rest).map (fun s => s.NubKey))))
        | some sp => addSelected fuel env tx sp maxRank
      else addSelected fuel env tx sp₀ maxRank) = some (tx2, e) := h
    by_cases hlen : rest.length + 1 > 1
    · rw [if_pos hlen] at h
      cases hu : uniqueAccepted none (sp₀ :: rest) with
      | none =>
        rw [hu] at h
        replace h : (some (tx, some (AddErr.ambiguous name
          ((sp₀ :: rest).map (fun s => s.NubKey)))) :
            Option (Taxonomy × Option AddErr)) = some (tx2, e) := h
        injection h with h
        injection h with h1 h2
        rw [← h1]
        exact hinv
      | some sp =>
        rw [hu] at h
        have hmem : sp ∈ sp₀ :: rest := by
          rcases uniqueAccepted_mem (sp₀ :: rest) none sp hu with hm | he
          · exact hm
          · exact absurd he (by simp)
        exact inv_addSelected fuel env tx sp maxRank tx2 e hinv henv
          (hls sp hmem) h
    · rw [if_neg hlen] at h
      exact inv_addSelected fuel env tx sp₀ maxRank tx2 e hinv henv
        (hls sp₀ (List.mem_cons_self sp₀ rest)) h

theorem inv_addNameFromGBIF (fuel : Nat) (env : GEnv) (tx : Taxonomy)
    (name : String) (maxRank : Rank) (tx2 : Taxonomy) (e : Option AddErr)
    (hinv : Inv tx) (henv : envNubOK env)
    (h : AddNameFromGBIF fuel env tx name maxRank = some (tx2, e)) : Inv tx2 := by
  unfold AddNameFromGBIF at h
  by_cases hn : Canon name = ""
  · rw [if_pos hn] at h
    injection h with h
    injection h with h1 h2
    rw [← h1]
    exact hinv
  · rw [if_neg hn] at h
    cases ht : env.taxonName (Canon name) with
    | none =>
      rw [ht] at h
      replace h : (some (tx, some AddErr.remote) :
        Option (Taxonomy × Option AddErr)) = some (tx2, e) := h
      injection h with h
      injection h with h1 h2
      rw [← h1]
      exact hinv
    | some ls =>
      rw [ht] at h
      exact inv_addNameList fuel env tx (Canon name) maxRank ls tx2 e hinv
        henv.1 (henv.2 (Canon name) ls ht) h

theorem remspec_refl (tx : Taxonomy) (roots : List Int)
    (hroots : ∀ r ∈ roots, tx.ids.lookup r = none) : RemSpec tx tx roots := by
  constructor
  · intro k
    exact Or.inl rfl
  · intro k _
    rfl
  · intro k
    exact Or.inl rfl
  · intro k hk
    exact absurd hk.1 (by rw [hk.2]; simp)
  · intro k hk c _
    exact absurd hk.1 (by rw [hk.2]; simp)
  · intro c hc
    exact absurd hc.1 (by rw [hc.2]; simp)
  · intro r hr
    exact Or.inl (hroots r hr)
  · rfl

theorem hkm_of_remspec (tx b : Taxonomy) (roots : List Int) (h : RemSpec tx b roots)
    (hkm : ∀ k t, tx.ids.lookup k = some t → t.ID = k) :
    ∀ k t, b.ids.lookup k = some t → t.ID = k := by
  intro k t hk
  rcases h.look k with he | he
  · rw [he] at hk
    exact hkm k t hk
  · rw [he] at hk
    exact absurd hk (by simp)

theorem remspec_comp (tx b tx2 : Taxonomy) (r1 r2 : List Int)
    (h1 : RemSpec tx b r1) (h2 : RemSpec b tx2 r2) : RemSpec tx tx2 (r1 ++ r2) := by
  have hnone : ∀ k, b.ids.lookup k = none → tx2.ids.lookup k = none := by
    intro k hk
    rcases h2.look k with he | he
    · rw [he, hk]
    · exact he
  have hsome : ∀ k, (tx2.ids.lookup k).isSome = true →
      tx2.ids.lookup k = b.ids.lookup k ∧ (b.ids.lookup k).isSome = true := by
    intro k hk
    rcases h2.look k with he | he
    · exact ⟨he, by rw [← he]; exact hk⟩
    · rw [he] at hk
      simp at hk
  have hsomeb : ∀ k, (b.ids.lookup k).isSome = true →
      b.ids.lookup k = tx.ids.lookup k ∧ (tx.ids.lookup k).isSome = true := by
    intro k hk
    rcases h1.look k with he | he
    · exact ⟨he, by rw [← he]; exact hk⟩
    · rw [he] at hk
      simp at hk
  have hremcase : ∀ k, Removed tx tx2 k →
      Removed tx b k ∨ ((b.ids.lookup k).isSome = true ∧ Removed b tx2 k) := by
    intro k hk
    cases hb : b.ids.lookup k with
    | none => exact Or.inl ⟨hk.1, hb⟩
    | some t =>
      refine Or.inr ⟨?_, ?_, hk.2⟩
      · simp [hb]
      · simp [hb]
  have hremup1 : ∀ k, Removed tx b k → Removed tx tx2 k :=
    fun k hk => ⟨hk.1, hnone k hk.2⟩
  have hremup2 : ∀ k, Removed b tx2 k → Removed tx tx2 k :=
    fun k hk => ⟨(hsomeb k hk.1).2, hk.2⟩
  constructor
  · intro k
    rcases h2.look k with he | he
    · rcases h1.look k with hf | hf
      · exact Or.inl (he.trans hf)
      · exact Or.inr (he.trans hf)
    · exact Or.inr he
  · intro k hk
    obtain ⟨he, hbs⟩ := hsome k hk
    rw [h2.chKeep k hk, h1.chKeep k hbs]
  · intro k
    rcases h2.chDrop k with he | he
    · rcases h1.chDrop k with hf | hf
      · exact Or.inl (he.trans hf)
      · exact Or.inr (he.trans hf)
    · exact Or.inr he
  · intro k hk
    rcases hremcase k hk with hr | ⟨hbs, hr⟩
    · have hg := h1.chGone k hr
      rcases h2.chDrop k with he | he
      · rw [he, hg]
      · exact he
    · exact h2.chGone k hr
  · intro k hk c hcmem
    rcases hremcase k hk with hr | ⟨hbs, hr⟩
    · rcases h1.closed k hr c hcmem with hn | hrc
      · exact Or.inl hn
      · exact Or.inr (hremup1 c hrc)
    · have hch : childrenOf b k = childrenOf tx k := by
        unfold childrenOf
        rw [h1.chKeep k hbs]
      rcases h2.closed k hr c (by rw [hch]; exact hcmem) with hn | hrc
      · cases htc : tx.ids.lookup c with
        | none => exact Or.inl rfl
        | some u =>
          refine Or.inr ⟨by simp [htc], hnone c hn⟩
      · exact Or.inr (hremup2 c hrc)
  · intro c hc
    rcases hremcase c hc with hr | ⟨hbs, hr⟩
    · rcases h1.rootSrc c hr with hm | ⟨d, hd, hmem⟩
      · exact Or.inl (List.mem_append_left r2 hm)
      · exact Or.inr ⟨d, hremup1 d hd, hmem⟩
    · rcases h2.rootSrc c hr with hm | ⟨d, hd, hmem⟩
      · exact Or.inl (List.mem_append_right r1 hm)
      · refine Or.inr ⟨d, hremup2 d hd, ?_⟩
        have hch : childrenOf b d = childrenOf tx d := by
          unfold childrenOf
          rw [h1.chKeep d hd.1]
        rw [← hch]
        exact hmem
  · intro r hr
    rcases List.mem_append.mp hr with hm | hm
    · rcases h1.rootsGone r hm with hn | hn
      · exact Or.inl hn
      · exact Or.inr (hnone r hn)
    · rcases h2.rootsGone r hm with hn | hn
      · cases htc : tx.ids.lookup r with
        | none => exact Or.inl rfl
        | some u => exact Or.inr (hnone r hn)
      · exact Or.inr hn
  · rw [h2.rootEq, h1.rootEq]

theorem foldlM_remspec (n : Nat)
    (hstep : ∀ (a : Taxonomy) (c : Int) (b : Taxonomy),
      (∀ k t, a.ids.lookup k = some t → t.ID = k) →
      delTaxonF n a c = some b → RemSpec a b [c]) :
    ∀ (cs : List Int) (a b : Taxonomy),
      (∀ k t, a.ids.lookup k = some t → t.ID = k) →
      cs.foldlM (fun x c => delTaxonF n x c) a = some b → RemSpec a b cs := by
  intro cs
  induction cs with
  | nil =>
    intro a b hkm h
    replace h : some a = some b := h
    injection h with h
    subst h
    exact remspec_refl a [] (by intro r hr; exact absurd hr (List.not_mem_nil r))
  | cons c rest ih =>
    intro a b hkm h
    rw [List.foldlM_cons] at h
    cases hd : delTaxonF n a c with
    | none =>
      rw [hd] at h
      replace h : (none : Option Taxonomy) = some b := h
      simp at h
    | some m =>
      rw [hd] at h
      replace h : rest.foldlM (fun x c => delTaxonF n x c) m = some b := h
      have h1 := hstep a c m hkm hd
      have h2 := ih m b (hkm_of_remspec a m [c] h1 hkm) h
      exact remspec_comp a m b [c] rest h1 h2

theorem delTaxonF_remspec :
    ∀ (n : Nat) (tx : Taxonomy) (id : Int) (tx2 : Taxonomy),
      (∀ k t, tx.ids.lookup k = some t → t.ID = k) →
      delTaxonF n tx id = some tx2 → RemSpec tx tx2 [id] := by
  intro n
  induction n with
  | zero =>
    intro tx id tx2 _ h
    exact absurd h (by simp [delTaxonF])
  | succ n ih =>
    intro tx id tx2 hkm h
    cases hl : tx.ids.lookup id with
    | none =>
      replace h : (match tx.ids.lookup id with
        | none => some tx
        | some t =>
          ((childrenOf tx id).foldlM (fun a c => delTaxonF n a c) tx).bind
            (fun tx₁ => some { tx₁ with
              children := removeEntry tx₁.children id
              names := removeNameId tx₁.names t.Name t.ID
              ids := removeEntry tx₁.ids t.ID })) = some tx2 := h
      rw [hl] at h
      replace h : some tx = some tx2 := h
      injection h with h
      subst h
      exact remspec_refl tx [id]
        (by intro r hr; rw [List.mem_singleton] at hr; rw [hr]; exact hl)
    | some t =>
      replace h : (match tx.ids.lookup id with
        | none => some tx
        | some t =>
          ((childrenOf tx id).foldlM (fun a c => delTaxonF n a c) tx).bind
            (fun tx₁ => some { tx₁ with
              children := removeEntry tx₁.children id
              names := removeNameId tx₁.names t.Name t.ID
              ids := removeEntry tx₁.ids t.ID })) = some tx2 := h
      rw [hl] at h
      cases hf : (childrenOf tx id).foldlM (fun a c => delTaxonF n a c) tx with
      | none =>
        rw [hf] at h
        replace h : (none : Option Taxonomy) = some tx2 := h
        simp at h
      | some tx₁ =>
        rw [hf] at h
        replace h : some { tx₁ with
          children := removeEntry tx₁.children id
          names := removeNameId tx₁.names t.Name t.ID
          ids := removeEntry tx₁.ids t.ID } = some tx2 := h
        injection h with h
        have hfold : RemSpec tx tx₁ (childrenOf tx id) :=
          foldlM_remspec n (fun a c b hkma hd => ih a c b hkma hd)
            (childrenOf tx id) tx tx₁ hkm hf
        have htid : t.ID = id := hkm id t hl
        rw [htid] at h
        subst h
        constructor
        · intro k
          show (removeEntry tx₁.ids id).lookup k = tx.ids.lookup k ∨
            (removeEntry tx₁.ids id).lookup k = none
          by_cases hki : k = id
          · rw [hki, lookup_removeEntry_self]
            exact Or.inr rfl
          · rw [lookup_removeEntry_ne tx₁.ids id k hki]
            exact hfold.look k
        · intro k hk
          replace hk : ((removeEntry tx₁.ids id).lookup k).isSome = true := hk
          show (removeEntry tx₁.children id).lookup k = tx.children.lookup k
          by_cases hki : k = id
          · rw [hki, lookup_removeEntry_self] at hk
            simp at hk
          · rw [lookup_removeEntry_ne tx₁.ids id k hki] at hk
            rw [lookup_removeEntry_ne tx₁.children id k hki]
            exact hfold.chKeep k hk
        · intro k
          show (removeEntry tx₁.children id).lookup k = tx.children.lookup k ∨
            (removeEntry tx₁.children id).lookup k = none
          by_cases hki : k = id
          · rw [hki, lookup_removeEntry_self]
            exact Or.inr rfl
          · rw [lookup_removeEntry_ne tx₁.children id k hki]
            exact hfold.chDrop k
        · intro k hk
          show (removeEntry tx₁.children id).lookup k = none
          by_cases hki : k = id
          · rw [hki, lookup_removeEntry_self]
          · rw [lookup_removeEntry_ne tx₁.children id k hki]
            have h2 : (removeEntry tx₁.ids id).lookup k = none := hk.2
            rw [lookup_removeEntry_ne tx₁.ids id k hki] at h2
            exact hfold.chGone k ⟨hk.1, h2⟩
        · intro k hk c hcmem
          by_cases hki : k = id
          · subst hki
            rcases hfold.rootsGone c hcmem with hn | hn
            · exact Or.inl hn
            · cases htc : tx.ids.lookup c with
              | none => exact Or.inl rfl
              | some u =>
                refine Or.inr ⟨by simp [htc], ?_⟩
                show (removeEntry tx₁.ids k).lookup c = none
                by_cases hci : c = k
                · rw [hci, lookup_removeEntry_self]
                · rw [lookup_removeEntry_ne tx₁.ids k c hci]
                  exact hn
          · have h2 : (removeEntry tx₁.ids id).lookup k = none := hk.2
            rw [lookup_removeEntry_ne tx₁.ids id k hki] at h2
            rcases hfold.closed k ⟨hk.1, h2⟩ c hcmem with hn | hrc
            · exact Or.inl hn
            · refine Or.inr ⟨hrc.1, ?_⟩
              show (removeEntry tx₁.ids id).lookup c = none
              by_cases hci : c = id
              · rw [hci, lookup_removeEntry_self]
              · rw [lookup_removeEntry_ne tx₁.ids id c hci]
                exact hrc.2
        · intro c hc
          by_cases hci : c = id
          · exact Or.inl (by rw [hci]; exact List.mem_singleton.mpr rfl)
          · have h2 : (removeEntry tx₁.ids id).lookup c = none := hc.2
            rw [lookup_removeEntry_ne tx₁.ids id c hci] at h2
            rcases hfold.rootSrc c ⟨hc.1, h2⟩ with hm | ⟨d, hd, hmem⟩
            · refine Or.inr ⟨id, ⟨by rw [hl]; rfl, ?_⟩, hm⟩
              show (removeEntry tx₁.ids id).lookup id = none
              rw [lookup_removeEntry_self]
            · refine Or.inr ⟨d, ⟨hd.1, ?_⟩, hmem⟩
              show (removeEntry tx₁.ids id).lookup d = none
              by_cases hdi : d = id
              · rw [hdi, lookup_removeEntry_self]
              · rw [lookup_removeEntry_ne tx₁.ids id d hdi]
                exact hd.2
        · intro r hr
          rw [List.mem_singleton] at hr
          refine Or.inr ?_
          rw [hr]
          show (removeEntry tx₁.ids id).lookup id = none
          rw [lookup_removeEntry_self]
        · show tx₁.root = tx.root
          exact hfold.rootEq

theorem remspec_sur (tx tx₁ : Taxonomy) (roots : List Int)
    (hspec : RemSpec tx tx₁ roots) :
    ∀ k, (tx₁.ids.lookup k).isSome = true →
      tx₁.ids.lookup k = tx.ids.lookup k := by
  intro k hk
  rcases hspec.look k with he | he
  · exact he
  · rw [he] at hk
    simp at hk

theorem del_chKeys (tx tx₁ : Taxonomy) (roots : List Int) (hinv : Inv tx)
    (hspec : RemSpec tx tx₁ roots) :
    ∀ p, (tx₁.children.lookup p).isSome = true →
      (tx₁.ids.lookup p).isSome = true := by
  intro p hp
  cases hq : tx₁.ids.lookup p with
  | some v => rfl
  | none =>
    rcases hspec.chDrop p with he | he
    · have hptx : (tx.children.lookup p).isSome = true := by
        rw [← he]
        exact hp
      have hg := hspec.chGone p ⟨hinv.chKeys p hptx, hq⟩
      rw [hg] at hp
      simp at hp
    · rw [he] at hp
      simp at hp

theorem del_parentPresent (tx tx₁ : Taxonomy) (roots : List Int) (hinv : Inv tx)
    (hspec : RemSpec tx tx₁ roots) :
    ∀ c u, tx₁.ids.lookup c = some u → u.Parent ≠ 0 →
      (tx₁.ids.lookup u.Parent).isSome = true := by
  intro c u hc hne
  have hc0 : tx.ids.lookup c = some u := by
    rw [← remspec_sur tx tx₁ roots hspec c (by rw [hc]; rfl)]
    exact hc
  have hp0 := hinv.parentPresent c u hc0 hne
  cases hq : tx₁.ids.lookup u.Parent with
  | some v => rfl
  | none =>
    have hcmem := hinv.edge c u hc0 hne hp0
    rcases hspec.closed u.Parent ⟨hp0, hq⟩ c hcmem with hn | hrc
    · rw [hc0] at hn
      exact absurd hn (by simp)
    · rw [hrc.2] at hc
      exact absurd hc (by simp)

theorem del_sound (tx tx₁ : Taxonomy) (id : Int) (t : Taxon) (hinv : Inv tx)
    (hspec : RemSpec tx tx₁ [id]) (hl : tx.ids.lookup id = some t) :
    ∀ p c, (tx₁.ids.lookup p).isSome = true →
      c ∈ (tx₁.children.lookup p).getD [] → c ≠ id →
      ∃ u, tx₁.ids.lookup c = some u ∧ u.Parent = p := by
  intro p c hps hcm hcid
  have hch : tx₁.children.lookup p = tx.children.lookup p := hspec.chKeep p hps
  rw [hch] at hcm
  obtain ⟨u, hlc, hpar⟩ := hinv.sound p c hcm
  cases hc1 : tx₁.ids.lookup c with
  | some v =>
    have hv : tx.ids.lookup c = some v := by
      rw [← remspec_sur tx tx₁ [id] hspec c (by rw [hc1]; rfl)]
      exact hc1
    rw [hlc] at hv
    injection hv with hv
    exact ⟨v, rfl, by rw [← hv]; exact hpar⟩
  | none =>
    have hrm : Removed tx tx₁ c := ⟨by rw [hlc]; rfl, hc1⟩
    rcases hspec.rootSrc c hrm with hm | ⟨d, hd, hmem⟩
    · rw [List.mem_singleton] at hm
      exact absurd hm hcid
    · obtain ⟨u2, hlc2, hpar2⟩ := hinv.sound d c hmem
      rw [hlc] at hlc2
      injection hlc2 with he2
      have hdp : d = p := by
        rw [← hpar2, ← he2]
        exact hpar
      rw [hdp] at hd
      rw [hd.2] at hps
      simp at hps

theorem del_childmem_id (tx tx₁ : Taxonomy) (id : Int) (t : Taxon) (hinv : Inv tx)
    (hspec : RemSpec tx tx₁ [id]) (hl : tx.ids.lookup id = some t) :
    ∀ p, (tx₁.ids.lookup p).isSome = true →
      id ∈ (tx₁.children.lookup p).getD [] → p = t.Parent := by
  intro p hps hmem
  have hch : tx₁.children.lookup p = tx.children.lookup p := hspec.chKeep p hps
  rw [hch] at hmem
  obtain ⟨u, hlc, hpar⟩ := hinv.sound p id hmem
  rw [hl] at hlc
  injection hlc with he
  rw [← hpar, ← he]

theorem inv_del (fuel : Nat) (tx : Taxonomy) (id : Int) (tx2 : Taxonomy)
    (hinv : Inv tx) (h : Del fuel tx id = some tx2) : Inv tx2 := by
  replace h : (match tx.ids.lookup id with
    | none => some tx
    | some t => (delTaxonF fuel tx id).bind (fun tx₁ =>
        match tx₁.ids.lookup t.Parent with
        | none => some { tx₁ with root := removeKey tx₁.root t.ID }
        | some _ =>
          some { tx₁ with children := delChild tx₁.children t.Parent t.ID })) =
      some tx2 := h
  cases hl : tx.ids.lookup id with
  | none =>
    rw [hl] at h
    replace h : some tx = some tx2 := h
    injection h with h
    subst h
    exact hinv
  | some t =>
    rw [hl] at h
    cases hd : delTaxonF fuel tx id with
    | none =>
      rw [hd] at h
      replace h : (none : Option Taxonomy) = some tx2 := h
      simp at h
    | some tx₁ =>
      rw [hd] at h
      replace h : (match tx₁.ids.lookup t.Parent with
        | none => some { tx₁ with root := removeKey tx₁.root t.ID }
        | some _ =>
          some { tx₁ with children := delChild tx₁.children t.Parent t.ID }) =
        some tx2 := h
      have hspec := delTaxonF_remspec fuel tx id tx₁ hinv.keymatch hd
      have htid : t.ID = id := hinv.keymatch id t hl
      rw [htid] at h
      have hrem_id : tx₁.ids.lookup id = none := by
        rcases hspec.rootsGone id (List.mem_singleton.mpr rfl) with hn | hn
        · rw [hl] at hn
          exact absurd hn (by simp)
        · exact hn
      cases hq : tx₁.ids.lookup t.Parent with
      | none =>
        rw [hq] at h
        replace h : some { tx₁ with root := removeKey tx₁.root id } = some tx2 := h
        injection h with h
        subst h
        have hnotin : ∀ p, id ∉ (tx₁.children.lookup p).getD [] := by
          intro p hmem
          have hps : (tx₁.children.lookup p).isSome = true := by
            cases hx : tx₁.children.lookup p with
            | none =>
              rw [hx] at hmem
              exact absurd hmem (by simp)
            | some l => rfl
          have hpp := del_chKeys tx tx₁ [id] hinv hspec p hps
          have hpeq := del_childmem_id tx tx₁ id t hinv hspec hl p hpp hmem
          rw [hpeq, hq] at hpp
          simp at hpp
        constructor
        · intro k u hk
          exact hkm_of_remspec tx tx₁ [id] hspec hinv.keymatch k u hk
        · intro c u hc hne hpres
          replace hc : tx₁.ids.lookup c = some u := hc
          replace hpres : (tx₁.ids.lookup u.Parent).isSome = true := hpres
          show c ∈ (tx₁.children.lookup u.Parent).getD []
          have hc0 : tx.ids.lookup c = some u := by
            rw [← remspec_sur tx tx₁ [id] hspec c (by rw [hc]; rfl)]
            exact hc
          have hp0 : (tx.ids.lookup u.Parent).isSome = true := by
            rw [← remspec_sur tx tx₁ [id] hspec u.Parent hpres]
            exact hpres
          rw [hspec.chKeep u.Parent hpres]
          exact hinv.edge c u hc0 hne hp0
        · intro p c hcm
          replace hcm : c ∈ (tx₁.children.lookup p).getD [] := hcm
          show ∃ u, tx₁.ids.lookup c = some u ∧ u.Parent = p
          have hps : (tx₁.children.lookup p).isSome = true := by
            cases hx : tx₁.children.lookup p with
            | none =>
              rw [hx] at hcm
              exact absurd hcm (by simp)
            | some l => rfl
          have hcid : c ≠ id := by
            intro he
            rw [he] at hcm
            exact hnotin p hcm
          exact del_sound tx tx₁ id t hinv hspec hl p c
            (del_chKeys tx tx₁ [id] hinv hspec p hps) hcm hcid
        · intro c u hc hne
          exact del_parentPresent tx tx₁ [id] hinv hspec c u hc hne
        · intro p hp
          exact del_chKeys tx tx₁ [id] hinv hspec p hp
      | some v =>
        rw [hq] at h
        replace h : some { tx₁ with
          children := delChild tx₁.children t.Parent id } = some tx2 := h
        injection h with h
        subst h
        have hPs1 : (tx₁.ids.lookup t.Parent).isSome = true := by
          rw [hq]
          rfl
        have hdc : ∀ p, ((delChild tx₁.children t.Parent id).lookup p =
            tx₁.children.lookup p ∧
              (p = t.Parent → tx₁.children.lookup t.Parent = none)) ∨
            (p = t.Parent ∧ ∃ l, tx₁.children.lookup t.Parent = some l ∧
              (delChild tx₁.children t.Parent id).lookup p =
                some (removeKey l id)) := by
          intro p
          unfold delChild
          cases hcl : tx₁.children.lookup t.Parent with
          | none => exact Or.inl ⟨rfl, fun _ => rfl⟩
          | some l =>
            by_cases hpp : p = t.Parent
            · refine Or.inr ⟨hpp, l, rfl, ?_⟩
              rw [hpp, lookup_setEntry_self]
            · refine Or.inl ⟨?_, fun he => absurd he hpp⟩
              rw [lookup_setEntry_ne tx₁.children t.Parent p _ hpp]
        have hnotin : ∀ p,
            id ∉ ((delChild tx₁.children t.Parent id).lookup p).getD [] := by
          intro p hmem
          rcases hdc p with ⟨he, himp⟩ | ⟨hpe, l, hcl, he⟩
          · rw [he] at hmem
            have hps : (tx₁.children.lookup p).isSome = true := by
              cases hx : tx₁.children.lookup p with
              | none =>
                rw [hx] at hmem
                exact absurd hmem (by simp)
              | some l2 => rfl
            have hpp := del_chKeys tx tx₁ [id] hinv hspec p hps
            have hpeq := del_childmem_id tx tx₁ id t hinv hspec hl p hpp hmem
            rw [hpeq, himp hpeq] at hmem
            exact absurd hmem (by simp)
          · rw [he] at hmem
            replace hmem : id ∈ removeKey l id := hmem
            exact ((mem_removeKey l id id).mp hmem).2 rfl
        constructor
        · intro k u hk
          exact hkm_of_remspec tx tx₁ [id] hspec hinv.keymatch k u hk
        · intro c u hc hne hpres
          replace hc : tx₁.ids.lookup c = some u := hc
          replace hpres : (tx₁.ids.lookup u.Parent).isSome = true := hpres
          show c ∈ ((delChild tx₁.children t.Parent id).lookup u.Parent).getD []
          have hc0 : tx.ids.lookup c = some u := by
            rw [← remspec_sur tx tx₁ [id] hspec c (by rw [hc]; rfl)]
            exact hc
          have hp0 : (tx.ids.lookup u.Parent).isSome = true := by
            rw [← remspec_sur tx tx₁ [id] hspec u.Parent hpres]
            exact hpres
          have hcm1 : c ∈ (tx₁.children.lookup u.Parent).getD [] := by
            rw [hspec.chKeep u.Parent hpres]
            exact hinv.edge c u hc0 hne hp0
          have hcid : c ≠ id := by
            intro he
            rw [he, hrem_id] at hc
            exact absurd hc (by simp)
          rcases hdc u.Parent with ⟨he, _⟩ | ⟨hpe, l, hcl, he⟩
          · rw [he]
            exact hcm1
          · rw [he]
            replace hcm1 : c ∈ l := by
              rw [hpe, hcl] at hcm1
              exact hcm1
            show c ∈ removeKey l id
            exact (mem_removeKey l id c).mpr ⟨hcm1, hcid⟩
        · intro p c hcm
          replace hcm :
            c ∈ ((delChild tx₁.children t.Parent id).lookup p).getD [] := hcm
          show ∃ u, tx₁.ids.lookup c = some u ∧ u.Parent = p
          have hcid : c ≠ id := by
            intro he
            rw [he] at hcm
            exact hnotin p hcm
          rcases hdc p with ⟨he, _⟩ | ⟨hpe, l, hcl, he⟩
          · rw [he] at hcm
            have hps : (tx₁.children.lookup p).isSome = true := by
              cases hx : tx₁.children.lookup p with
              | none =>
                rw [hx] at hcm
                exact absurd hcm (by simp)
              | some l2 => rfl
            exact del_sound tx tx₁ id t hinv hspec hl p c
              (del_chKeys tx tx₁ [id] hinv hspec p hps) hcm hcid
          · rw [he] at hcm
            replace hcm : c ∈ removeKey l id := hcm
            have hcl2 : c ∈ (tx₁.children.lookup p).getD [] := by
              rw [hpe, hcl]
              exact ((mem_removeKey l id c).mp hcm).1
            have hps2 : (tx₁.ids.lookup p).isSome = true := by
              rw [hpe]
              exact hPs1
            exact del_sound tx tx₁ id t hinv hspec hl p c hps2 hcl2 hcid
        · intro c u hc hne
          exact del_parentPresent tx tx₁ [id] hinv hspec c u hc hne
        · intro p hp
          replace hp :
            ((delChild tx₁.children t.Parent id).lookup p).isSome = true := hp
          show (tx₁.ids.lookup p).isSome = true
          rcases hdc p with ⟨he, _⟩ | ⟨hpe, l, hcl, he⟩
          · rw [he] at hp
            exact del_chKeys tx tx₁ [id] hinv hspec p hp
          · rw [hpe]
            exact hPs1

theorem inv_applyOp (tx : Taxonomy) (op : Op) (tx2 : Taxonomy) (hinv : Inv tx)
    (hok : OpOK op) (h : applyOp tx op = some tx2) : Inv tx2 := by
  cases op with
  | addSpecies sp =>
    replace h : some (AddSpecies tx sp) = some tx2 := h
    injection h with h
    subst h
    exact inv_addSpecies tx sp hinv hok
  | addFromGBIF fuel env id maxRank =>
    replace h : (AddFromGBIF fuel env tx id maxRank).map Prod.fst = some tx2 := h
    cases hg : AddFromGBIF fuel env tx id maxRank with
    | none =>
      rw [hg] at h
      exact absurd h (by simp)
    | some r =>
      rw [hg] at h
      obtain ⟨tx3, e⟩ := r
      replace h : some tx3 = some tx2 := h
      injection h with h
      subst h
      exact inv_addFromGBIF fuel env tx id maxRank tx3 e hinv hok hg
  | addNameFromGBIF fuel env name maxRank =>
    replace h : (AddNameFromGBIF fuel env tx name maxRank).map Prod.fst =
      some tx2 := h
    cases hg : AddNameFromGBIF fuel env tx name maxRank with
    | none =>
      rw [hg] at h
      exact absurd h (by simp)
    | some r =>
      rw [hg] at h
      obtain ⟨tx3, e⟩ := r
      replace h : some tx3 = some tx2 := h
      injection h with h
      subst h
      exact inv_addNameFromGBIF fuel env tx name maxRank tx3 e hinv hok hg
  | del fuel id =>
    replace h : Del fuel tx id = some tx2 := h
    exact inv_del fuel tx id tx2 hinv h

theorem inv_runOps :
    ∀ (ops : List Op) (tx tx2 : Taxonomy), Inv tx →
      (∀ op ∈ ops, OpOK op) → runOps tx ops = some tx2 → Inv tx2 := by
  intro ops
  induction ops with
  | nil =>
    intro tx tx2 hinv _ h
    replace h : some tx = some tx2 := h
    injection h with h
    subst h
    exact hinv
  | cons op rest ih =>
    intro tx tx2 hinv hok h
    replace h : (match applyOp tx op with
      | none => none
      | some tx3 => runOps tx3 rest) = some tx2 := h
    cases ha : applyOp tx op with
    | none =>
      rw [ha] at h
      exact absurd h (by simp)
    | some tx3 =>
      rw [ha] at h
      exact ih tx3 tx2
        (inv_applyOp tx op tx3 hinv (hok op (List.mem_cons_self op rest)) ha)
        (fun q hq => hok q (List.mem_cons_of_mem op hq)) h

/-- C8 counterexample: starting from a successfully read (empty) table,
adding records 7 and 9 (9 a child of 7) and then a record with nub key 0
whose raw key is 7 leaves the store with node 9 whose Parent field is the
stored identifier 7, while 7's children set no longer contains 9: the
third AddSpecies passes the already-known guard (it checks nub key 0, not
the resolved identifier 7) and re-inserts node 7 with a fresh empty
children map. -/
theorem edge_invariant_counterexample :
    read [headerCols] = .ok NewTaxonomy ∧
    runOps NewTaxonomy [Op.addSpecies c8Sp1, Op.addSpecies c8Sp2,
      Op.addSpecies c8Sp3] = some c8Tx ∧
    c8Tx.ids.lookup 9 = some { Name := "B", ID := 9, Parent := 7 } ∧
    (c8Tx.ids.lookup 7).isSome = true ∧
    c8Sp3.NubKey = 0 ∧
    9 ∉ childrenOf c8Tx 7 := by decide

/-- C8 (amended): after a successful Read and any sequence of AddSpecies,
AddFromGBIF, AddNameFromGBIF and Del operations in which every record
reaching the store carries a non-zero nub key, every stored node whose
non-zero Parent field names a stored identifier has a consistent
bidirectional edge: the parent's children set contains the child and the
child's Parent field is the parent node's identifier. Records with nub
key zero can overwrite a stored node past the already-known guard and
break the invariant (see the counterexample). -/
theorem ops_edge_consistent (tbl : List (List String)) (tx0 : Taxonomy)
    (ops : List Op) (txN : Taxonomy)
    (hread : read tbl = .ok tx0)
    (hok : ∀ op ∈ ops, OpOK op)
    (hrun : runOps tx0 ops = some txN) :
    ∀ c t, txN.ids.lookup c = some t → t.Parent ≠ 0 →
      ∀ tp, txN.ids.lookup t.Parent = some tp →
        c ∈ childrenOf txN t.Parent ∧ tp.ID = t.Parent := by
  have hinv := inv_runOps ops tx0 txN (inv_read tbl tx0 hread) hok hrun
  intro c t hc hne tp hp
  exact ⟨hinv.edge c t hc hne (by rw [hp]; rfl), hinv.keymatch t.Parent tp hp⟩

theorem ops_edge_consistent_witness :
    9 ∈ childrenOf c8wTx c8wC.Parent ∧
      ({ Name := "A", ID := 5, Rank := 6, Status := "accepted",
         Parent := 0 } : Taxon).ID = c8wC.Parent := by
  apply ops_edge_consistent demoTbl demoTx [Op.addSpecies c8w1, Op.del 3 7] c8wTx
  · decide
  · intro op hop
    rcases List.mem_cons.mp hop with he | hop2
    · subst he
      show c8w1.NubKey ≠ 0
      decide
    · rcases List.mem_cons.mp hop2 with he2 | h3
      · subst he2
        exact trivial
      · exact absurd h3 (List.not_mem_nil op)
  · decide
  · decide
  · decide
  · decide

/-! ## Claim C4: the write and read round trip -/

theorem dchar_isDigit (d : Nat) (h : d < 10) : (dchar d).isDigit = true := by
  interval_cases d <;> decide

theorem dchar_toNat (d : Nat) (h : d < 10) : (dchar d).toNat = 48 + d := by
  interval_cases d <;> decide

theorem natToRevDigitsAux_val :
    ∀ (fuel n : Nat), n ≤ fuel → valR (natToRevDigitsAux fuel n) = n := by
  intro fuel
  induction fuel with
  | zero =>
    intro n h
    have hn : n = 0 := by omega
    subst hn
    rfl
  | succ fuel ih =>
    intro n h
    cases n with
    | zero => rfl
    | succ m =>
      show (dchar ((m + 1) % 10)).toNat - 48 +
        10 * valR (natToRevDigitsAux fuel ((m + 1) / 10)) = m + 1
      rw [dchar_toNat _ (by omega)]
      rw [ih ((m + 1) / 10) (by omega)]
      omega

theorem natToRevDigitsAux_digits :
    ∀ (fuel n : Nat), ∀ c ∈ natToRevDigitsAux fuel n, c.isDigit = true := by
  intro fuel
  induction fuel with
  | zero =>
    intro n c hc
    replace hc : c ∈ ([] : List Char) := hc
    exact absurd hc (by simp)
  | succ fuel ih =>
    intro n c hc
    cases n with
    | zero =>
      replace hc : c ∈ ([] : List Char) := hc
      exact absurd hc (by simp)
    | succ m =>
      replace hc : c ∈ dchar ((m + 1) % 10) ::
        natToRevDigitsAux fuel ((m + 1) / 10) := hc
      rcases List.mem_cons.mp hc with he | hm
      · rw [he]
        exact dchar_isDigit _ (by omega)
      · exact ih ((m + 1) / 10) c hm

theorem natToRevDigits_ne_nil (n : Nat) (h : n ≠ 0) : natToRevDigits n ≠ [] := by
  unfold natToRevDigits
  cases n with
  | zero => exact absurd rfl h
  | succ m =>
    intro hx
    replace hx : dchar ((m + 1) % 10) ::
      natToRevDigitsAux m ((m + 1) / 10) = ([] : List Char) := hx
    exact List.noConfusion hx

theorem foldl_digits (l : List Char) :
    ∀ acc, l.reverse.foldl (fun a c => a * 10 + (c.toNat - 48)) acc =
      acc * 10 ^ l.length + valR l := by
  induction l with
  | nil =>
    intro acc
    simp [valR]
  | cons c cs ih =>
    intro acc
    rw [List.reverse_cons, List.foldl_append, ih acc]
    show (acc * 10 ^ cs.length + valR cs) * 10 + (c.toNat - 48) =
      acc * 10 ^ (cs.length + 1) + ((c.toNat - 48) + 10 * valR cs)
    rw [pow_succ]
    ring

theorem digitsToNat_format (n : Nat) (h : n ≠ 0) :
    digitsToNat? (natToRevDigits n).reverse = some n := by
  unfold digitsToNat?
  have hne := natToRevDigits_ne_nil n h
  rw [if_neg (fun hx => hne (List.reverse_eq_nil_iff.mp hx))]
  rw [if_pos (show (natToRevDigits n).reverse.all Char.isDigit = true from
    List.all_eq_true.mpr (fun c hc =>
      natToRevDigitsAux_digits n n c (List.mem_reverse.mp hc)))]
  rw [foldl_digits (natToRevDigits n) 0]
  rw [show valR (natToRevDigits n) = n from natToRevDigitsAux_val n n (le_refl n)]
  simp

theorem digit_ne_minus (c : Char) (h : c.isDigit = true) : c ≠ '-' := by
  intro he
  rw [he] at h
  exact absurd h (by decide)

theorem digit_ne_plus (c : Char) (h : c.isDigit = true) : c ≠ '+' := by
  intro he
  rw [he] at h
  exact absurd h (by decide)

theorem signSplit_digit (c : Char) (rest : List Char) (h : c.isDigit = true) :
    signSplit c rest = (false, c :: rest) := by
  unfold signSplit
  rw [if_neg (digit_ne_minus c h), if_neg (digit_ne_plus c h)]

theorem finishParse_pos (ds : List Char) (n : Nat)
    (hval : digitsToNat? ds = some n) (hrange : (n : Int) ≤ 2 ^ 63 - 1) :
    finishParse false ds = some (n : Int) := by
  unfold finishParse
  rw [hval]
  show (if (n : Int) < -(2 ^ 63 : Int) ∨ (2 ^ 63 - 1 : Int) < (n : Int) then none
    else some ((n : Int) : Int)) = some (n : Int)
  rw [if_neg (by push_neg; omega)]

theorem finishParse_neg (ds : List Char) (n : Nat)
    (hval : digitsToNat? ds = some n) (hrange : (n : Int) ≤ 2 ^ 63) :
    finishParse true ds = some (-(n : Int)) := by
  unfold finishParse
  rw [hval]
  show (if -(n : Int) < -(2 ^ 63 : Int) ∨ (2 ^ 63 - 1 : Int) < -(n : Int) then none
    else some (-(n : Int))) = some (-(n : Int))
  rw [if_neg (by push_neg; omega)]

theorem parse_format (i : Int) (h1 : -(2 ^ 63 : Int) ≤ i) (h2 : i ≤ 2 ^ 63 - 1) :
    goParseInt (goFormatInt i) = some i := by
  by_cases hneg : i < 0
  · have hnz : i.natAbs ≠ 0 := by omega
    have hfmt : goFormatInt i = "-" ++ String.mk (natToRevDigits i.natAbs).reverse := by
      unfold goFormatInt goFormatNat
      rw [if_pos hneg, if_neg hnz]
    rw [hfmt]
    show finishParse (signSplit '-' (natToRevDigits i.natAbs).reverse).1
      (signSplit '-' (natToRevDigits i.natAbs).reverse).2 = some i
    rw [show signSplit '-' (natToRevDigits i.natAbs).reverse =
      (true, (natToRevDigits i.natAbs).reverse) from rfl]
    rw [finishParse_neg (natToRevDigits i.natAbs).reverse i.natAbs
      (digitsToNat_format i.natAbs hnz) (by omega)]
    congr 1
    omega
  · by_cases hz : i = 0
    · rw [hz]
      decide
    · have hnz : i.natAbs ≠ 0 := by omega
      have hfmt : goFormatInt i = String.mk (natToRevDigits i.natAbs).reverse := by
        unfold goFormatInt goFormatNat
        rw [if_neg hneg, if_neg hnz]
      rw [hfmt]
      have hne := natToRevDigits_ne_nil i.natAbs hnz
      cases hrev : (natToRevDigits i.natAbs).reverse with
      | nil => exact absurd (List.reverse_eq_nil_iff.mp hrev) hne
      | cons c rest =>
        have hcd : c.isDigit = true := by
          apply natToRevDigitsAux_digits i.natAbs i.natAbs c
          show c ∈ natToRevDigits i.natAbs
          rw [← List.mem_reverse, hrev]
          exact List.mem_cons_self c rest
        show finishParse (signSplit c rest).1 (signSplit c rest).2 = some i
        rw [signSplit_digit c rest hcd]
        have hval : digitsToNat? (c :: rest) = some i.natAbs := by
          rw [← hrev]
          exact digitsToNat_format i.natAbs hnz
        rw [finishParse_pos (c :: rest) i.natAbs hval (by omega)]
        congr 1
        omega

theorem rank_roundtrip (r : Rank) (h : r ≤ 7) : GetRank (rankString r) = r := by
  interval_cases r <;> decide

theorem goFormatInt_ne_empty (i : Int) : goFormatInt i ≠ "" := by
  unfold goFormatInt goFormatNat
  by_cases hneg : i < 0
  · rw [if_pos hneg]
    intro hx
    have hd := congrArg String.data hx
    replace hd : ('-' :: (if i.natAbs = 0 then "0"
      else String.mk (natToRevDigits i.natAbs).reverse).data) = ([] : List Char) := hd
    exact List.noConfusion hd
  · rw [if_neg hneg]
    by_cases hz : i.natAbs = 0
    · rw [if_pos hz]
      intro hx
      have hd := congrArg String.data hx
      replace hd : (['0'] : List Char) = ([] : List Char) := hd
      exact List.noConfusion hd
    · rw [if_neg hz]
      intro hx
      have hd := congrArg String.data hx
      replace hd : (natToRevDigits i.natAbs).reverse = ([] : List Char) := hd
      exact natToRevDigits_ne_nil i.natAbs hz (List.reverse_eq_nil_iff.mp hd)

theorem colOf_name : colOf (fieldsMap headerCols) "name" = 0 := by decide

theorem colOf_author : colOf (fieldsMap headerCols) "author" = 1 := by decide

theorem colOf_taxonkey : colOf (fieldsMap headerCols) "taxonkey" = 2 := by decide

theorem colOf_rank : colOf (fieldsMap headerCols) "rank" = 3 := by decide

theorem colOf_status : colOf (fieldsMap headerCols) "status" = 4 := by decide

theorem colOf_parent : colOf (fieldsMap headerCols) "parent" = 5 := by decide

theorem rowData_emit (t : Taxon) (hn : NormalTaxon t) :
    rowData (fieldsMap headerCols) (emitRow t) t.ID t.Parent = t := by
  obtain ⟨h1, h2, h3, h4, h5, h6, h7, h8, h9⟩ := hn
  unfold rowData
  rw [colOf_name, colOf_author, colOf_rank, colOf_status]
  show ({ Name := Canon t.Name,
          Author := fieldsJoin t.Author,
          ID := t.ID,
          Rank := GetRank (rankString t.Rank),
          Status := strLower (strTrim t.Status),
          Parent := t.Parent } : Taxon) = t
  rw [h1, h3, h4, rank_roundtrip t.Rank h5]

theorem readRow_emit (S : Taxonomy) (t : Taxon) (hn : NormalTaxon t) :
    readRow (fieldsMap headerCols) S (emitRow t) =
      readRowKnown (fieldsMap headerCols) S (emitRow t) t.ID := by
  obtain ⟨h1, h2, h3, h4, h5, h6, h7, h8, h9⟩ := hn
  unfold readRow
  rw [colOf_name, colOf_taxonkey]
  rw [show fieldAt (emitRow t) 0 = t.Name from rfl]
  rw [show fieldAt (emitRow t) 2 = goFormatInt t.ID from rfl]
  rw [h1, if_neg h2]
  rw [parse_format t.ID h6 h7]

theorem readRowKnown_emit (S : Taxonomy) (t : Taxon) (hn : NormalTaxon t)
    (hfresh : (S.ids.lookup t.ID).isSome = false) :
    readRowKnown (fieldsMap headerCols) S (emitRow t) t.ID =
      readRowInsert (fieldsMap headerCols) S (emitRow t) t.ID t.Parent := by
  unfold readRowKnown
  rw [if_neg (by rw [hfresh]; exact Bool.false_ne_true)]
  rw [colOf_parent]
  by_cases hp : t.Parent = 0
  · have hsc : (if fieldAt (emitRow t) 5 = "" then some (0 : Int)
        else goParseInt (fieldAt (emitRow t) 5)) = some (0 : Int) := by
      rw [show fieldAt (emitRow t) 5 =
        (if t.Parent ≠ 0 then goFormatInt t.Parent else "") from rfl]
      rw [show (if t.Parent ≠ 0 then goFormatInt t.Parent else "") = "" from
        if_neg (fun hx => hx hp)]
      rw [if_pos rfl]
    rw [hsc]
    show readRowInsert (fieldsMap headerCols) S (emitRow t) t.ID 0 =
      readRowInsert (fieldsMap headerCols) S (emitRow t) t.ID t.Parent
    rw [hp]
  · have hsc : (if fieldAt (emitRow t) 5 = "" then some (0 : Int)
        else goParseInt (fieldAt (emitRow t) 5)) = some t.Parent := by
      rw [show fieldAt (emitRow t) 5 =
        (if t.Parent ≠ 0 then goFormatInt t.Parent else "") from rfl]
      rw [show (if t.Parent ≠ 0 then goFormatInt t.Parent else "") =
        goFormatInt t.Parent from if_pos hp]
      rw [if_neg (goFormatInt_ne_empty t.Parent)]
      exact parse_format t.Parent hn.2.2.2.2.2.2.2.1 hn.2.2.2.2.2.2.2.2
    rw [hsc]

theorem readRowKnown_skip (S : Taxonomy) (row : List String) (id : Int)
    (h : (S.ids.lookup id).isSome = true) :
    readRowKnown (fieldsMap headerCols) S row id = .ok S := by
  unfold readRowKnown
  rw [if_pos h]

theorem readRowInsert_emit_zero (S : Taxonomy) (t : Taxon) (hn : NormalTaxon t)
    (hp : t.Parent = 0) :
    readRowInsert (fieldsMap headerCols) S (emitRow t) t.ID t.Parent =
      .ok { ids := setEntry S.ids t.ID t
            root := insertKey S.root t.ID
            children := S.children
            names := addName S.names t.Name t.ID } := by
  unfold readRowInsert
  rw [if_neg (fun hx => hx hp), rowData_emit t hn]

theorem readRowInsert_emit_link (S : Taxonomy) (t : Taxon) (hn : NormalTaxon t)
    (hp : t.Parent ≠ 0)
    (hpres : ((setEntry S.ids t.ID t).lookup t.Parent).isSome = true) :
    readRowInsert (fieldsMap headerCols) S (emitRow t) t.ID t.Parent =
      .ok { ids := setEntry S.ids t.ID t
            root := S.root
            children := addChild S.children t.Parent t.ID
            names := addName S.names t.Name t.ID } := by
  unfold readRowInsert
  rw [if_pos hp, rowData_emit t hn]
  rw [if_pos hpres]

/-- C4 counterexample: the store c4Tx, produced by AddSpecies from a
record whose canonical-name field is the non-canonical ABC, writes
successfully, but reading the written table back canonicalises the name:
the node tuple changes from name ABC to name Abc, so the round trip does
not preserve every (name, author, id, rank, status, parent) tuple. -/
theorem write_read_name_changed :
    c4Tx = AddSpecies NewTaxonomy { NubKey := 7, CanonicalName := "ABC" } ∧
    write 2 c4Tx = some [headerCols, ["ABC", "", "7", "unranked", "", ""]] ∧
    read [headerCols, ["ABC", "", "7", "unranked", "", ""]] = .ok c4Tx2 ∧
    c4Tx.ids.lookup 7 = some { Name := "ABC", ID := 7 } ∧
    c4Tx2.ids.lookup 7 = some { Name := "Abc", ID := 7 } ∧
    ({ Name := "ABC", ID := 7 } : Taxon) ≠ { Name := "Abc", ID := 7 } := by
  decide

theorem readRows_append_ok (n : Nat) (f : List (String × Nat)) :
    ∀ (a : List (List String)) (S S1 : Taxonomy), readRows n f S a = .ok S1 →
      ∀ b, readRows n f S (a ++ b) = readRows n f S1 b := by
  intro a
  induction a with
  | nil =>
    intro S S1 h b
    replace h : ReadResult.ok S = .ok S1 := h
    injection h with h
    subst h
    rfl
  | cons row rest ih =>
    intro S S1 h b
    replace h : (if row.length ≠ n then ReadResult.err
      else match readRow f S row with
        | .ok S2 => readRows n f S2 rest
        | .err => ReadResult.err
        | .panic => ReadResult.panic) = .ok S1 := h
    show (if row.length ≠ n then ReadResult.err
      else match readRow f S row with
        | .ok S2 => readRows n f S2 (rest ++ b)
        | .err => ReadResult.err
        | .panic => ReadResult.panic) = readRows n f S1 b
    by_cases hl : row.length ≠ n
    · rw [if_pos hl] at h
      exact absurd h (by simp)
    · rw [if_neg hl] at h ⊢
      cases hr : readRow f S row with
      | ok S2 =>
        rw [hr] at h
        exact ih S2 S1 h b
      | err =>
        rw [hr] at h
        exact absurd h (by simp)
      | panic =>
        rw [hr] at h
        exact absurd h (by simp)

theorem writeFold_acc (g : Int → Option (List (List String))) :
    ∀ (xs : List (Int × Taxon)) (acc : List (List String)),
      xs.foldlM (fun a p => (g p.1).map (fun r => a ++ r)) acc =
        (xs.foldlM (fun a p => (g p.1).map (fun r => a ++ r)) []).map
          (fun r => acc ++ r) := by
  intro xs
  induction xs with
  | nil =>
    intro acc
    simp
  | cons p rest ih =>
    intro acc
    rw [List.foldlM_cons, List.foldlM_cons]
    cases hg : g p.1 with
    | none => rfl
    | some r =>
      show rest.foldlM (fun a q => (g q.1).map (fun r2 => a ++ r2)) (acc ++ r) =
        (rest.foldlM (fun a q => (g q.1).map (fun r2 => a ++ r2)) ([] ++ r)).map
          (fun r2 => acc ++ r2)
      rw [List.nil_append]
      rw [ih (acc ++ r), ih r]
      cases hF : rest.foldlM (fun a q => (g q.1).map (fun r2 => a ++ r2)) [] with
      | none => rfl
      | some out =>
        show some (acc ++ r ++ out) = some (acc ++ (r ++ out))
        rw [List.append_assoc]

theorem writeFold_cons (g : Int → Option (List (List String)))
    (p : Int × Taxon) (xs : List (Int × Taxon)) :
    writeFold g (p :: xs) = (g p.1).bind (fun r =>
      (writeFold g xs).map (fun rest => r ++ rest)) := by
  unfold writeFold
  rw [List.foldlM_cons]
  cases hg : g p.1 with
  | none => rfl
  | some r =>
    show xs.foldlM (fun a q => (g q.1).map (fun r2 => a ++ r2)) ([] ++ r) =
      (xs.foldlM (fun a q => (g q.1).map (fun r2 => a ++ r2)) []).map
        (fun rest => r ++ rest)
    rw [List.nil_append]
    exact writeFold_acc g xs r

theorem lookup_mem {kt bt : Type} [BEq kt] [LawfulBEq kt]
    (m : List (kt × bt)) (k : kt) (v : bt)
    (h : m.lookup k = some v) : (k, v) ∈ m := by
  induction m with
  | nil => exact absurd h (by simp)
  | cons p rest ih =>
    cases hk : k == p.1 with
    | true =>
      rw [lookup_cons_pos p rest hk] at h
      have hk2 : k = p.1 := by simpa using hk
      have hv : v = p.2 := by injection h with h2; exact h2.symm
      rw [hk2, hv]
      exact List.mem_cons_self _ _
    | false =>
      rw [lookup_cons_neg p rest hk] at h
      exact List.mem_cons_of_mem p (ih h)

theorem nodePairs_mem (tx : Taxonomy) (l : List Int) (p : Int × Taxon)
    (h : p ∈ nodePairs tx l) : tx.ids.lookup p.1 = some p.2 := by
  unfold nodePairs at h
  rw [List.mem_filterMap] at h
  obtain ⟨k, _, hmap⟩ := h
  cases hl : tx.ids.lookup k with
  | none =>
    rw [hl] at hmap
    exact absurd hmap (by simp)
  | some t =>
    rw [hl] at hmap
    replace hmap : some (k, t) = some p := hmap
    injection hmap with h2
    rw [← h2]
    exact hl

theorem nodePairs_mem_key (tx : Taxonomy) (l : List Int) (p : Int × Taxon)
    (h : p ∈ nodePairs tx l) : p.1 ∈ l := by
  unfold nodePairs at h
  rw [List.mem_filterMap] at h
  obtain ⟨k, hk, hmap⟩ := h
  cases hl2 : tx.ids.lookup k with
  | none =>
    rw [hl2] at hmap
    exact absurd hmap (by simp)
  | some t =>
    rw [hl2] at hmap
    replace hmap : some (k, t) = some p := hmap
    injection hmap with h2
    rw [← h2]
    exact hk

theorem readRows_writeTaxonF (tx : Taxonomy) (hinv : Inv tx)
    (hnorm : ∀ k t, tx.ids.lookup k = some t → NormalTaxon t) :
    ∀ (n : Nat) (id : Int) (rows : List (List String)) (S : Taxonomy),
      writeTaxonF tx n id = some rows →
      (∀ k u, S.ids.lookup k = some u → tx.ids.lookup k = some u) →
      (∀ t, tx.ids.lookup id = some t → t.Parent ≠ 0 →
        (S.ids.lookup t.Parent).isSome = true ∨ t.Parent = id) →
      ∃ S2, readRows 6 (fieldsMap headerCols) S rows = .ok S2 ∧
        (∀ k u, S.ids.lookup k = some u → S2.ids.lookup k = some u) ∧
        (∀ k u, S2.ids.lookup k = some u → tx.ids.lookup k = some u) ∧
        (∀ t, tx.ids.lookup id = some t → S2.ids.lookup id = some t) ∧
        (∀ k, (S2.ids.lookup k).isSome = true → (S.ids.lookup k).isSome = true ∨
          (∀ c ∈ childrenOf tx k, (tx.ids.lookup c).isSome = true →
            (S2.ids.lookup c).isSome = true)) := by
  intro n
  induction n with
  | zero =>
    intro id rows S hw _ _
    exact absurd hw (by simp [writeTaxonF])
  | succ n ih =>
    intro id rows S hw hsound hpar
    replace hw : (match tx.ids.lookup id with
      | none => some []
      | some t => (writeFold (writeTaxonF tx n)
          ((nodePairs tx (childrenOf tx id)).insertionSort writeLE)).map
          (fun rest => emitRow t :: rest)) = some rows := hw
    cases hl : tx.ids.lookup id with
    | none =>
      rw [hl] at hw
      replace hw : some ([] : List (List String)) = some rows := hw
      injection hw with hw
      subst hw
      refine ⟨S, rfl, fun k u h => h, hsound, ?_, fun k hk => Or.inl hk⟩
      intro t ht
      exact absurd ht (by simp)
    | some t =>
      rw [hl] at hw
      cases hF : writeFold (writeTaxonF tx n)
          ((nodePairs tx (childrenOf tx id)).insertionSort writeLE) with
      | none =>
        rw [hF] at hw
        replace hw : (none : Option (List (List String))) = some rows := hw
        simp at hw
      | some rest =>
        rw [hF] at hw
        replace hw : some (emitRow t :: rest) = some rows := hw
        injection hw with hw
        subst hw
        have hn := hnorm id t hl
        have htid : t.ID = id := hinv.keymatch id t hl
        have hfold : ∀ (xs : List (Int × Taxon)),
            (∀ p ∈ xs, tx.ids.lookup p.1 = some p.2) →
            ∀ (rowsF : List (List String)) (S1 : Taxonomy),
              writeFold (writeTaxonF tx n) xs = some rowsF →
              (∀ k u, S1.ids.lookup k = some u → tx.ids.lookup k = some u) →
              (∀ p ∈ xs, p.2.Parent ≠ 0 →
                (S1.ids.lookup p.2.Parent).isSome = true ∨ p.2.Parent = p.1) →
              ∃ S2, readRows 6 (fieldsMap headerCols) S1 rowsF = .ok S2 ∧
                (∀ k u, S1.ids.lookup k = some u → S2.ids.lookup k = some u) ∧
                (∀ k u, S2.ids.lookup k = some u → tx.ids.lookup k = some u) ∧
                (∀ p ∈ xs, S2.ids.lookup p.1 = some p.2) ∧
                (∀ k, (S2.ids.lookup k).isSome = true →
                  (S1.ids.lookup k).isSome = true ∨
                  (∀ c ∈ childrenOf tx k, (tx.ids.lookup c).isSome = true →
                    (S2.ids.lookup c).isSome = true)) := by
          intro xs
          induction xs with
          | nil =>
            intro _ rowsF S1 hwf hsound1 _
            replace hwf : some ([] : List (List String)) = some rowsF := hwf
            injection hwf with hwf
            subst hwf
            exact ⟨S1, rfl, fun k u h => h, hsound1,
              fun p hp => absurd hp (List.not_mem_nil p), fun k hk => Or.inl hk⟩
          | cons p xs2 ihx =>
            intro hmem rowsF S1 hwf hsound1 hparL
            rw [writeFold_cons] at hwf
            cases hg : writeTaxonF tx n p.1 with
            | none =>
              rw [hg] at hwf
              exact absurd hwf (by simp)
            | some rp =>
              rw [hg] at hwf
              cases hg2 : writeFold (writeTaxonF tx n) xs2 with
              | none =>
                rw [hg2] at hwf
                exact absurd hwf (by simp)
              | some rrest =>
                rw [hg2] at hwf
                replace hwf : some (rp ++ rrest) = some rowsF := hwf
                injection hwf with hwf
                subst hwf
                have hpm : tx.ids.lookup p.1 = some p.2 :=
                  hmem p (List.mem_cons_self p xs2)
                obtain ⟨Sa, hruna, hmonoa, hsounda, hselfa, hcloseda⟩ :=
                  ih p.1 rp S1 hg hsound1 (fun t2 ht2 hne2 => by
                    rw [hpm] at ht2
                    injection ht2 with ht2
                    subst ht2
                    exact hparL p (List.mem_cons_self p xs2) hne2)
                obtain ⟨S2, hrunb, hmonob, hsoundb, heachb, hclosedb⟩ :=
                  ihx (fun q hq => hmem q (List.mem_cons_of_mem p hq)) rrest Sa
                    hg2 hsounda
                    (fun q hq hne2 => by
                      rcases hparL q (List.mem_cons_of_mem p hq) hne2 with ha | hb
                      · left
                        obtain ⟨u, hu⟩ := Option.isSome_iff_exists.mp ha
                        rw [hmonoa q.2.Parent u hu]
                        rfl
                      · right
                        exact hb)
                refine ⟨S2, ?_, ?_, hsoundb, ?_, ?_⟩
                · rw [readRows_append_ok 6 (fieldsMap headerCols) rp S1 Sa
                    hruna rrest]
                  exact hrunb
                · exact fun k u hk => hmonob k u (hmonoa k u hk)
                · intro q hq
                  rcases List.mem_cons.mp hq with he | hq2
                  · subst he
                    exact hmonob q.1 q.2 (hselfa q.2 hpm)
                  · exact heachb q hq2
                · intro k hk
                  rcases hclosedb k hk with ha | hcov
                  · rcases hcloseda k ha with hb | hcova
                    · exact Or.inl hb
                    · refine Or.inr ?_
                      intro c hc htc
                      obtain ⟨u, hu⟩ :=
                        Option.isSome_iff_exists.mp (hcova c hc htc)
                      rw [hmonob c u hu]
                      rfl
                  · exact Or.inr hcov
        obtain ⟨S1, hrow, hmono1, hsound1, hself1, hback1⟩ :
            ∃ S1, readRows 6 (fieldsMap headerCols) S (emitRow t :: rest) =
                readRows 6 (fieldsMap headerCols) S1 rest ∧
              (∀ k u, S.ids.lookup k = some u → S1.ids.lookup k = some u) ∧
              (∀ k u, S1.ids.lookup k = some u → tx.ids.lookup k = some u) ∧
              S1.ids.lookup id = some t ∧
              (∀ k, (S1.ids.lookup k).isSome = true →
                (S.ids.lookup k).isSome = true ∨ k = t.ID) := by
          have hstep : readRows 6 (fieldsMap headerCols) S (emitRow t :: rest) =
              match readRow (fieldsMap headerCols) S (emitRow t) with
              | .ok S2 => readRows 6 (fieldsMap headerCols) S2 rest
              | .err => ReadResult.err
              | .panic => ReadResult.panic := by
            show (if (emitRow t).length ≠ 6 then ReadResult.err
              else match readRow (fieldsMap headerCols) S (emitRow t) with
                | .ok S2 => readRows 6 (fieldsMap headerCols) S2 rest
                | .err => ReadResult.err
                | .panic => ReadResult.panic) = _
            rw [if_neg (show ¬ ((emitRow t).length ≠ 6) from fun hx => hx rfl)]
          rw [hstep, readRow_emit S t hn]
          cases hks : (S.ids.lookup t.ID).isSome with
          | true =>
            rw [readRowKnown_skip S (emitRow t) t.ID hks]
            obtain ⟨u, hu⟩ := Option.isSome_iff_exists.mp hks
            have hu2 := hsound t.ID u hu
            rw [htid, hl] at hu2
            injection hu2 with hu2
            refine ⟨S, rfl, fun k u2 h => h, hsound, ?_, fun k hk => Or.inl hk⟩
            rw [← htid, hu, ← hu2]
          | false =>
            rw [readRowKnown_emit S t hn hks]
            have hSfresh : S.ids.lookup t.ID = none :=
              Option.not_isSome_iff_eq_none.mp
                (by rw [hks]; exact Bool.false_ne_true)
            have hmonoX : ∀ k u, S.ids.lookup k = some u →
                (setEntry S.ids t.ID t).lookup k = some u := by
              intro k u hk
              have hkne : k ≠ t.ID := by
                intro he
                rw [he, hSfresh] at hk
                exact absurd hk (by simp)
              rw [lookup_setEntry_ne S.ids t.ID k t hkne]
              exact hk
            have hsoundX : ∀ k u, (setEntry S.ids t.ID t).lookup k = some u →
                tx.ids.lookup k = some u := by
              intro k u hk
              by_cases hke : k = t.ID
              · rw [hke, lookup_setEntry_self] at hk
                injection hk with hk
                rw [hke, htid, hl, hk]
              · rw [lookup_setEntry_ne S.ids t.ID k t hke] at hk
                exact hsound k u hk
            have hselfX : (setEntry S.ids t.ID t).lookup id = some t := by
              rw [← htid]
              exact lookup_setEntry_self S.ids t.ID t
            have hbackX : ∀ k, ((setEntry S.ids t.ID t).lookup k).isSome = true →
                (S.ids.lookup k).isSome = true ∨ k = t.ID := by
              intro k hk
              rcases isSome_of_setEntry S.ids t.ID k t hk with he | hs
              · exact Or.inr he
              · exact Or.inl hs
            by_cases hp0 : t.Parent = 0
            · rw [readRowInsert_emit_zero S t hn hp0]
              exact ⟨_, rfl, hmonoX, hsoundX, hselfX, hbackX⟩
            · have hpres : ((setEntry S.ids t.ID t).lookup t.Parent).isSome = true := by
                rcases hpar t hl hp0 with ha | hb
                · exact lookup_setEntry_isSome S.ids t.Parent t.ID t ha
                · rw [hb, ← htid, lookup_setEntry_self]
                  rfl
              rw [readRowInsert_emit_link S t hn hp0 hpres]
              exact ⟨_, rfl, hmonoX, hsoundX, hselfX, hbackX⟩
        have hchd : ∀ p ∈ (nodePairs tx (childrenOf tx id)).insertionSort writeLE,
            p.2.Parent = id := by
          intro p hp
          have hpm2 := (List.perm_insertionSort writeLE _).mem_iff.mp hp
          have hkey := nodePairs_mem tx _ p hpm2
          have hinl := nodePairs_mem_key tx _ p hpm2
          obtain ⟨u, hu, hup⟩ := hinv.sound id p.1 hinl
          rw [hkey] at hu
          injection hu with hu
          rw [hu]
          exact hup
        obtain ⟨S2, hrun2, hmono2, hsound2, heach2, hclosed2⟩ :=
          hfold ((nodePairs tx (childrenOf tx id)).insertionSort writeLE)
            (fun p hp => nodePairs_mem tx _ p
              ((List.perm_insertionSort writeLE _).mem_iff.mp hp))
            rest S1 hF hsound1
            (fun p hp _ => Or.inl (by rw [hchd p hp, hself1]; rfl))
        refine ⟨S2, ?_, ?_, hsound2, ?_, ?_⟩
        · rw [hrow]
          exact hrun2
        · exact fun k u hk => hmono2 k u (hmono1 k u hk)
        · intro t2 ht2
          injection ht2 with ht2
          subst ht2
          exact hmono2 id t hself1
        · intro k hk
          rcases hclosed2 k hk with ha | hcov
          · rcases hback1 k ha with hb | hke
            · exact Or.inl hb
            · refine Or.inr ?_
              intro c hc htc
              rw [hke, htid] at hc
              obtain ⟨u, hu⟩ := Option.isSome_iff_exists.mp htc
              have hpN : (c, u) ∈ nodePairs tx (childrenOf tx id) :=
                List.mem_filterMap.mpr ⟨c, hc, by rw [hu]; rfl⟩
              have hpS : (c, u) ∈
                  (nodePairs tx (childrenOf tx id)).insertionSort writeLE :=
                (List.perm_insertionSort writeLE _).mem_iff.mpr hpN
              rw [heach2 (c, u) hpS]
              rfl
          · exact Or.inr hcov

theorem readRows_writeFold (tx : Taxonomy) (hinv : Inv tx)
    (hnorm : ∀ k t, tx.ids.lookup k = some t → NormalTaxon t) (n : Nat) :
    ∀ (xs : List (Int × Taxon)), (∀ p ∈ xs, tx.ids.lookup p.1 = some p.2) →
      ∀ (rowsF : List (List String)) (S1 : Taxonomy),
        writeFold (writeTaxonF tx n) xs = some rowsF →
        (∀ k u, S1.ids.lookup k = some u → tx.ids.lookup k = some u) →
        (∀ p ∈ xs, p.2.Parent ≠ 0 →
          (S1.ids.lookup p.2.Parent).isSome = true ∨ p.2.Parent = p.1) →
        ∃ S2, readRows 6 (fieldsMap headerCols) S1 rowsF = .ok S2 ∧
          (∀ k u, S1.ids.lookup k = some u → S2.ids.lookup k = some u) ∧
          (∀ k u, S2.ids.lookup k = some u → tx.ids.lookup k = some u) ∧
          (∀ p ∈ xs, S2.ids.lookup p.1 = some p.2) ∧
          (∀ k, (S2.ids.lookup k).isSome = true →
            (S1.ids.lookup k).isSome = true ∨
            (∀ c ∈ childrenOf tx k, (tx.ids.lookup c).isSome = true →
              (S2.ids.lookup c).isSome = true)) := by
  intro xs
  induction xs with
  | nil =>
    intro _ rowsF S1 hwf hsound1 _
    replace hwf : some ([] : List (List String)) = some rowsF := hwf
    injection hwf with hwf
    subst hwf
    exact ⟨S1, rfl, fun k u h => h, hsound1,
      fun p hp => absurd hp (List.not_mem_nil p), fun k hk => Or.inl hk⟩
  | cons p xs2 ihx =>
    intro hmem rowsF S1 hwf hsound1 hparL
    rw [writeFold_cons] at hwf
    cases hg : writeTaxonF tx n p.1 with
    | none =>
      rw [hg] at hwf
      exact absurd hwf (by simp)
    | some rp =>
      rw [hg] at hwf
      cases hg2 : writeFold (writeTaxonF tx n) xs2 with
      | none =>
        rw [hg2] at hwf
        exact absurd hwf (by simp)
      | some rrest =>
        rw [hg2] at hwf
        replace hwf : some (rp ++ rrest) = some rowsF := hwf
        injection hwf with hwf
        subst hwf
        have hpm : tx.ids.lookup p.1 = some p.2 :=
          hmem p (List.mem_cons_self p xs2)
        obtain ⟨Sa, hruna, hmonoa, hsounda, hselfa, hcloseda⟩ :=
          readRows_writeTaxonF tx hinv hnorm n p.1 rp S1 hg hsound1
            (fun t2 ht2 hne2 => by
              rw [hpm] at ht2
              injection ht2 with ht2
              subst ht2
              exact hparL p (List.mem_cons_self p xs2) hne2)
        obtain ⟨S2, hrunb, hmonob, hsoundb, heachb, hclosedb⟩ :=
          ihx (fun q hq => hmem q (List.mem_cons_of_mem p hq)) rrest Sa
            hg2 hsounda
            (fun q hq hne2 => by
              rcases hparL q (List.mem_cons_of_mem p hq) hne2 with ha | hb
              · left
                obtain ⟨u, hu⟩ := Option.isSome_iff_exists.mp ha
                rw [hmonoa q.2.Parent u hu]
                rfl
              · right
                exact hb)
        refine ⟨S2, ?_, ?_, hsoundb, ?_, ?_⟩
        · rw [readRows_append_ok 6 (fieldsMap headerCols) rp S1 Sa hruna rrest]
          exact hrunb
        · exact fun k u hk => hmonob k u (hmonoa k u hk)
        · intro q hq
          rcases List.mem_cons.mp hq with he | hq2
          · subst he
            exact hmonob q.1 q.2 (hselfa q.2 hpm)
          · exact heachb q hq2
        · intro k hk
          rcases hclosedb k hk with ha | hcov
          · rcases hcloseda k ha with hb | hcova
            · exact Or.inl hb
            · refine Or.inr ?_
              intro c hc htc
              obtain ⟨u, hu⟩ := Option.isSome_iff_exists.mp (hcova c hc htc)
              rw [hmonob c u hu]
              rfl
          · exact Or.inr hcov

/-- C4 (amended): writing a store and reading the produced table back
preserves the identifier set and every stored (name, author, id, rank,
status, parent) tuple, provided the store is in the normal form the table
can represent (canonical non-empty names, join-normalised authors,
trimmed lower-case statuses, listed ranks, 64-bit identifiers), its edges
satisfy the consistency invariant, parent-less nodes sit in the root set,
root nodes are parent-less, and parent chains are well-founded. Without
normalisation the tuples change (see the counterexample): Read
canonicalises names, lower-cases statuses and re-parses every field. -/
theorem write_read_roundtrip (fuel : Nat) (tx : Taxonomy)
    (tbl : List (List String))
    (hw : write fuel tx = some tbl) (hinv : Inv tx)
    (hnorm : ∀ k t, tx.ids.lookup k = some t → NormalTaxon t)
    (hroot0 : ∀ k t, tx.ids.lookup k = some t → t.Parent = 0 → k ∈ tx.root)
    (hroots : ∀ r ∈ tx.root, ∀ t, tx.ids.lookup r = some t → t.Parent = 0)
    (hgt : Int → Nat)
    (hht : ∀ k t, tx.ids.lookup k = some t → t.Parent ≠ 0 →
      hgt t.Parent < hgt k) :
    ∃ tx2, read tbl = .ok tx2 ∧ ∀ k, tx2.ids.lookup k = tx.ids.lookup k := by
  unfold write at hw
  cases hF : writeFold (writeTaxonF tx fuel)
      ((nodePairs tx tx.root).insertionSort writeLE) with
  | none =>
    rw [hF] at hw
    replace hw : (none : Option (List (List String))) = some tbl := hw
    simp at hw
  | some rows0 =>
    rw [hF] at hw
    replace hw : some (headerCols :: rows0) = some tbl := hw
    injection hw with hw
    subst hw
    obtain ⟨S2, hrun2, hmono2, hsound2, heach2, hclosed2⟩ :=
      readRows_writeFold tx hinv hnorm fuel
        ((nodePairs tx tx.root).insertionSort writeLE)
        (fun p hp => nodePairs_mem tx _ p
          ((List.perm_insertionSort writeLE _).mem_iff.mp hp))
        rows0 NewTaxonomy hF
        (fun k u hk => absurd hk (by simp [NewTaxonomy]))
        (fun p hp hne2 => absurd (hroots p.1
          (nodePairs_mem_key tx _ p
            ((List.perm_insertionSort writeLE _).mem_iff.mp hp)) p.2
          (nodePairs_mem tx _ p
            ((List.perm_insertionSort writeLE _).mem_iff.mp hp))) hne2)
    refine ⟨S2, ?_, ?_⟩
    · show (if headerCols.all
          (fun c => ((fieldsMap headerCols).lookup (strLower c)).isSome) = true then
        readRows headerCols.length (fieldsMap headerCols) NewTaxonomy rows0
      else ReadResult.err) = .ok S2
      rw [if_pos (by decide)]
      exact hrun2
    · have hcompl : ∀ m k t, hgt k < m → tx.ids.lookup k = some t →
          S2.ids.lookup k = some t := by
        intro m
        induction m with
        | zero =>
          intro k t h _
          exact absurd h (by omega)
        | succ m ihm =>
          intro k t hlt hk
          by_cases hp0 : t.Parent = 0
          · have hkr := hroot0 k t hk hp0
            have hpair : (k, t) ∈ nodePairs tx tx.root :=
              List.mem_filterMap.mpr ⟨k, hkr, by rw [hk]; rfl⟩
            exact heach2 (k, t)
              ((List.perm_insertionSort writeLE _).mem_iff.mpr hpair)
          · have hpp := hinv.parentPresent k t hk hp0
            obtain ⟨tp, htp⟩ := Option.isSome_iff_exists.mp hpp
            have hSp := ihm t.Parent tp
              (by have := hht k t hk hp0; omega) htp
            have hkm := hinv.edge k t hk hp0 hpp
            rcases hclosed2 t.Parent (by rw [hSp]; rfl) with hnew | hcov
            · exact absurd hnew (by simp [NewTaxonomy])
            · obtain ⟨u, hu⟩ :=
                Option.isSome_iff_exists.mp (hcov k hkm (by rw [hk]; rfl))
              have hsu := hsound2 k u hu
              rw [hk] at hsu
              injection hsu with hsu
              rw [hu, hsu]
      intro k
      cases hs2 : S2.ids.lookup k with
      | some u =>
        rw [hsound2 k u hs2]
      | none =>
        cases htx : tx.ids.lookup k with
        | none => rfl
        | some u =>
          have hcp := hcompl (hgt k + 1) k u (by omega) htx
          rw [hs2] at hcp
          exact absurd hcp (by simp)

theorem write_read_roundtrip_witness :
    write 3 demoTx = some demoTbl ∧
    ∃ tx2, read demoTbl = .ok tx2 ∧
      ∀ k, tx2.ids.lookup k = demoTx.ids.lookup k := by
  constructor
  · decide
  · refine write_read_roundtrip 3 demoTx demoTbl ?_ ?_ ?_ ?_ ?_
      (fun k => k.toNat) ?_
    · decide
    · exact inv_read demoTbl demoTx (by decide)
    · intro k t h
      have hm := lookup_mem demoTx.ids k t h
      simp only [demoTx, List.mem_cons, List.not_mem_nil, or_false] at hm
      rcases hm with h2 | h2
      · injection h2 with ha hb
        subst ha
        subst hb
        unfold NormalTaxon
        decide
      · injection h2 with ha hb
        subst ha
        subst hb
        unfold NormalTaxon
        decide
    · intro k t h h0
      have hm := lookup_mem demoTx.ids k t h
      simp only [demoTx, List.mem_cons, List.not_mem_nil, or_false] at hm
      rcases hm with h2 | h2
      · injection h2 with ha hb
        subst ha
        subst hb
        decide
      · injection h2 with ha hb
        subst ha
        subst hb
        exact absurd h0 (by decide)
    · intro r hr t ht
      replace hr : r ∈ ([5] : List Int) := hr
      rw [List.mem_singleton] at hr
      subst hr
      replace ht : some demoA = some t := ht
      injection ht with ht
      rw [← ht]
      rfl
    · intro k t h h0
      have hm := lookup_mem demoTx.ids k t h
      simp only [demoTx, List.mem_cons, List.not_mem_nil, or_false] at hm
      rcases hm with h2 | h2
      · injection h2 with ha hb
        subst ha
        subst hb
        exact absurd rfl h0
      · injection h2 with ha hb
        subst ha
        subst hb
        decide

/-! ## Claim C9: the written table is independent of map iteration order -/

theorem sorted_perm_unique {α : Type} (le : α → α → Prop) (l1 : List α) :
    ∀ (l2 : List α), l1.Perm l2 →
      (∀ a ∈ l1, ∀ b ∈ l1, le a b → le b a → a = b) →
      l1.Sorted le → l2.Sorted le → l1 = l2 := by
  induction l1 with
  | nil =>
    intro l2 hp _ _ _
    exact (hp.symm.eq_nil).symm
  | cons a t1 ih =>
    intro l2 hp hanti hs1 hs2
    cases l2 with
    | nil => exact absurd hp.eq_nil (by simp)
    | cons b t2 =>
      have hbmem : b ∈ a :: t1 := hp.symm.subset (List.mem_cons_self b t2)
      have hamem : a ∈ b :: t2 := hp.subset (List.mem_cons_self a t1)
      have hab : a = b := by
        rcases List.mem_cons.mp hbmem with h | hbt1
        · exact h.symm
        · rcases List.mem_cons.mp hamem with h | hat2
          · exact h
          · have hle1 : le a b := List.rel_of_sorted_cons hs1 b hbt1
            have hle2 : le b a := List.rel_of_sorted_cons hs2 a hat2
            exact hanti a (List.mem_cons_self a t1) b hbmem hle1 hle2
      subst hab
      have hres := ih t2 hp.cons_inv
        (fun x hx y hy => hanti x (List.mem_cons_of_mem a hx)
          y (List.mem_cons_of_mem a hy))
        hs1.of_cons hs2.of_cons
      rw [hres]

theorem nodePairs_congr (tx1 tx2 : Taxonomy)
    (hlook : ∀ k, tx2.ids.lookup k = tx1.ids.lookup k) (l : List Int) :
    nodePairs tx2 l = nodePairs tx1 l := by
  unfold nodePairs
  induction l with
  | nil => rfl
  | cons a t ih => rw [List.filterMap_cons, List.filterMap_cons, hlook a, ih]

theorem nodePairs_sort_eq (tx1 tx2 : Taxonomy)
    (hlook : ∀ k, tx2.ids.lookup k = tx1.ids.lookup k)
    (hkey : ∀ k t, tx1.ids.lookup k = some t → t.ID = k)
    (l1 l2 : List Int) (hp : l2.Perm l1) :
    (nodePairs tx2 l2).insertionSort writeLE =
      (nodePairs tx1 l1).insertionSort writeLE := by
  apply sorted_perm_unique writeLE
  · apply (List.perm_insertionSort writeLE _).trans
    apply List.Perm.trans _ (List.perm_insertionSort writeLE _).symm
    rw [nodePairs_congr tx1 tx2 hlook]
    exact List.Perm.filterMap _ hp
  · intro a ha b hb h1 h2
    have ha2 : a ∈ nodePairs tx2 l2 :=
      (List.perm_insertionSort writeLE _).mem_iff.mp ha
    have hb2 : b ∈ nodePairs tx2 l2 :=
      (List.perm_insertionSort writeLE _).mem_iff.mp hb
    have hla := nodePairs_mem tx2 l2 a ha2
    have hlb := nodePairs_mem tx2 l2 b hb2
    rw [hlook] at hla hlb
    have hid := writeLE_antisymm_id a b h1 h2
    have h1a := hkey a.1 a.2 hla
    have h1b := hkey b.1 b.2 hlb
    have hfst : a.1 = b.1 := by rw [← h1a, ← h1b, hid]
    obtain ⟨a1, a2⟩ := a
    obtain ⟨b1, b2⟩ := b
    simp only at hfst hla hlb
    subst hfst
    rw [hla] at hlb
    injection hlb with he
    rw [he]
  · exact List.sorted_insertionSort writeLE _
  · exact List.sorted_insertionSort writeLE _

theorem writeFold_congr_aux (g1 g2 : Int → Option (List (List String))) :
    ∀ (xs : List (Int × Taxon)), (∀ p ∈ xs, g2 p.1 = g1 p.1) →
      ∀ acc, xs.foldlM (fun acc p => (g2 p.1).map (fun r => acc ++ r)) acc =
        xs.foldlM (fun acc p => (g1 p.1).map (fun r => acc ++ r)) acc := by
  intro xs
  induction xs with
  | nil => intro _ acc; rfl
  | cons p rest ih =>
    intro h acc
    rw [List.foldlM_cons, List.foldlM_cons]
    rw [h p (List.mem_cons_self p rest)]
    cases hg : g1 p.1 with
    | none => rfl
    | some r =>
      exact ih (fun q hq => h q (List.mem_cons_of_mem p hq)) (acc ++ r)

theorem writeFold_congr (g1 g2 : Int → Option (List (List String)))
    (xs : List (Int × Taxon)) (h : ∀ p ∈ xs, g2 p.1 = g1 p.1) :
    writeFold g2 xs = writeFold g1 xs :=
  writeFold_congr_aux g1 g2 xs h []

theorem writeTaxonF_perm (tx1 tx2 : Taxonomy)
    (hlook : ∀ k, tx2.ids.lookup k = tx1.ids.lookup k)
    (hkey : ∀ k t, tx1.ids.lookup k = some t → t.ID = k)
    (hch : ∀ p, (childrenOf tx2 p).Perm (childrenOf tx1 p)) :
    ∀ (fuel : Nat) (id : Int), writeTaxonF tx2 fuel id = writeTaxonF tx1 fuel id := by
  intro fuel
  induction fuel with
  | zero => intro id; rfl
  | succ n ih =>
    intro id
    show (match tx2.ids.lookup id with
          | none => some []
          | some t => (writeFold (writeTaxonF tx2 n)
              ((nodePairs tx2 (childrenOf tx2 id)).insertionSort writeLE)).map
              (fun rest => emitRow t :: rest)) =
         (match tx1.ids.lookup id with
          | none => some []
          | some t => (writeFold (writeTaxonF tx1 n)
              ((nodePairs tx1 (childrenOf tx1 id)).insertionSort writeLE)).map
              (fun rest => emitRow t :: rest))
    rw [hlook id]
    cases hl : tx1.ids.lookup id with
    | none => rfl
    | some t =>
      rw [nodePairs_sort_eq tx1 tx2 hlook hkey (childrenOf tx1 id)
        (childrenOf tx2 id) (hch id)]
      rw [writeFold_congr (writeTaxonF tx1 n) (writeTaxonF tx2 n) _
        (fun p _ => ih p.1)]

/-- C9: Taxonomy.Write is deterministic and independent of the iteration
order of the in-memory maps: two stores that answer every identifier
lookup identically, whose identifiers match the stored IDs, and whose
root list and children lists agree up to permutation, produce exactly the
same table, because siblings are sorted by the total comparator on rank,
accepted-first status, name and identifier before emission. -/
theorem write_perm_independent (fuel : Nat) (tx1 tx2 : Taxonomy)
    (hlook : ∀ k, tx2.ids.lookup k = tx1.ids.lookup k)
    (hkey : ∀ k t, tx1.ids.lookup k = some t → t.ID = k)
    (hroot : tx2.root.Perm tx1.root)
    (hch : ∀ p, (childrenOf tx2 p).Perm (childrenOf tx1 p)) :
    write fuel tx2 = write fuel tx1 := by
  unfold write
  rw [nodePairs_sort_eq tx1 tx2 hlook hkey tx1.root tx2.root hroot]
  rw [writeFold_congr (writeTaxonF tx1 fuel) (writeTaxonF tx2 fuel) _
    (fun p _ => writeTaxonF_perm tx1 tx2 hlook hkey hch fuel p.1)]

theorem write_perm_independent_witness :
    write 3 c9Tx2 = write 3 c9Tx1 ∧ (write 3 c9Tx1).isSome = true := by
  constructor
  · apply write_perm_independent 3 c9Tx1 c9Tx2
    · intro k
      rfl
    · intro k t h
      have hm : (k, t) ∈ c9Tx1.ids := lookup_mem c9Tx1.ids k t h
      simp only [c9Tx1, List.mem_cons, List.not_mem_nil, or_false] at hm
      rcases hm with h2 | h2 | h2 | h2 <;>
        (injection h2 with ha hb; subst ha; subst hb; rfl)
    · exact List.Perm.swap 5 9 []
    · intro p
      by_cases hp : p = 5
      · subst hp
        exact List.Perm.swap 7 8 []
      · have hb : (p == (5 : Int)) = false := by simpa using hp
        show ((c9Tx2.children.lookup p).getD []).Perm
          ((c9Tx1.children.lookup p).getD [])
        rw [show c9Tx2.children = [(5, [8, 7])] from rfl,
          show c9Tx1.children = [(5, [7, 8])] from rfl]
        rw [lookup_cons_neg _ _ hb, lookup_cons_neg _ _ hb]
  · decide

/-! ## Claim C10 -/

/-- C10: the table zeroTbl, whose single row has taxonKey 0 and a
non-empty name, is accepted by Read and stored as an ordinary node: the
resulting store answers Taxon(0) with a non-empty taxon of identifier 0,
lists 0 in IDs(), and indexes 0 under its name, so a zero identifier does
not always mean not-found at the query interface. -/
theorem read_stores_zero_identifier :
    read zeroTbl = .ok zeroTx ∧
    zeroTx.Taxon 0 ≠ ({} : Taxon) ∧
    (zeroTx.Taxon 0).ID = 0 ∧
    0 ∈ zeroTx.IDs ∧
    0 ∈ zeroTx.ByName "Root zero" := by decide

end Gbifer
